import Mathlib

/-!
# The tree facade of nvc (src/tree.c)

A shallow embedding of the schema tables of the tree object class (has_map,
kind_text_map, change_allowed, the statement / expression / declaration kind
lists) and of the typed accessors built on lookup_item, followed by theorems
about them.  Declarations that tree.c takes from its headers (tree.h, object.h,
array.h) and the generic object store of object.c are not part of src/; they
are either parameters of the development or modelled from the specification,
and every such definition says so in its doc comment.
-/

namespace Nvc

/-! ## Declarations taken from the headers -/

/-- Modelled from the spec: the names of the attribute slots (the spec calls them slot
identifiers).  object.h, which declares one mask constant I_xxx per slot, is absent; the
constructors are the I_xxx names that occur in tree.c, in order of first occurrence. -/
inductive slot_t where
  | IDENT
  | PORTS
  | GENERICS
  | CONTEXT
  | DECLS
  | STMTS
  | IDENT2
  | PRIMARY
  | VALUE
  | TYPE
  | SUBKIND
  | CLASS
  | FLAGS
  | PARAMS
  | REF
  | IVAL
  | DVAL
  | CHARS
  | TRIGGERS
  | DELAY
  | TARGET
  | WAVES
  | REJECT
  | POS
  | EOPT
  | ASSOCS
  | SEVERITY
  | MESSAGE
  | NAME
  | RANGES
  | GENMAPS
  | SPEC
  | ELSES
  | CONDS
  | GUARD
  | FILE_MODE
  | LEFT
  | RIGHT
deriving DecidableEq, Repr

/-- Modelled from the spec: imask_t of object.h (absent), the 64-bit mask of slots. -/
abbrev imask_t := Nat

/-- Modelled from the spec: the declarations of the absent headers that tree.c uses but
that no table of tree.c determines.  object.h gives every slot its own bit of the 64-bit
mask (the schema is a bitmask of valid slots); which bit is not fixed here.  L_STRING is
the string literal subkind of tree.h and OBJECT_TAG_TREE the class tag of object.h. -/
class object_h where
  bit : slot_t → Nat
  bit_inj : ∀ a b : slot_t, bit a = bit b → a = b
  bit_lt : ∀ a : slot_t, bit a < 64
  L_STRING : Nat
  L_STRING_lt : L_STRING < 2 ^ 32
  OBJECT_TAG_TREE : Nat

/-- Modelled from the spec: ONE_HOT of object.h (absent), a mask with the single bit x. -/
def ONE_HOT (x : Nat) : imask_t := 1 <<< x

/-- The complement of a mask, the operator ~ on the 64 bits of imask_t. -/
def imask_not (m : imask_t) : imask_t := (2 ^ 64 - 1) ^^^ m

section
variable [object_h]

/-- Modelled from the spec: the mask constant of a slot, ONE_HOT of its bit; the constants
I_xxx of object.h (absent) follow. -/
def slot_mask (s : slot_t) : imask_t := ONE_HOT (object_h.bit s)

abbrev I_IDENT : imask_t := slot_mask slot_t.IDENT
abbrev I_PORTS : imask_t := slot_mask slot_t.PORTS
abbrev I_GENERICS : imask_t := slot_mask slot_t.GENERICS
abbrev I_CONTEXT : imask_t := slot_mask slot_t.CONTEXT
abbrev I_DECLS : imask_t := slot_mask slot_t.DECLS
abbrev I_STMTS : imask_t := slot_mask slot_t.STMTS
abbrev I_IDENT2 : imask_t := slot_mask slot_t.IDENT2
abbrev I_PRIMARY : imask_t := slot_mask slot_t.PRIMARY
abbrev I_VALUE : imask_t := slot_mask slot_t.VALUE
abbrev I_TYPE : imask_t := slot_mask slot_t.TYPE
abbrev I_SUBKIND : imask_t := slot_mask slot_t.SUBKIND
abbrev I_CLASS : imask_t := slot_mask slot_t.CLASS
abbrev I_FLAGS : imask_t := slot_mask slot_t.FLAGS
abbrev I_PARAMS : imask_t := slot_mask slot_t.PARAMS
abbrev I_REF : imask_t := slot_mask slot_t.REF
abbrev I_IVAL : imask_t := slot_mask slot_t.IVAL
abbrev I_DVAL : imask_t := slot_mask slot_t.DVAL
abbrev I_CHARS : imask_t := slot_mask slot_t.CHARS
abbrev I_TRIGGERS : imask_t := slot_mask slot_t.TRIGGERS
abbrev I_DELAY : imask_t := slot_mask slot_t.DELAY
abbrev I_TARGET : imask_t := slot_mask slot_t.TARGET
abbrev I_WAVES : imask_t := slot_mask slot_t.WAVES
abbrev I_REJECT : imask_t := slot_mask slot_t.REJECT
abbrev I_POS : imask_t := slot_mask slot_t.POS
abbrev I_EOPT : imask_t := slot_mask slot_t.EOPT
abbrev I_ASSOCS : imask_t := slot_mask slot_t.ASSOCS
abbrev I_SEVERITY : imask_t := slot_mask slot_t.SEVERITY
abbrev I_MESSAGE : imask_t := slot_mask slot_t.MESSAGE
abbrev I_NAME : imask_t := slot_mask slot_t.NAME
abbrev I_RANGES : imask_t := slot_mask slot_t.RANGES
abbrev I_GENMAPS : imask_t := slot_mask slot_t.GENMAPS
abbrev I_SPEC : imask_t := slot_mask slot_t.SPEC
abbrev I_ELSES : imask_t := slot_mask slot_t.ELSES
abbrev I_CONDS : imask_t := slot_mask slot_t.CONDS
abbrev I_GUARD : imask_t := slot_mask slot_t.GUARD
abbrev I_FILE_MODE : imask_t := slot_mask slot_t.FILE_MODE
abbrev I_LEFT : imask_t := slot_mask slot_t.LEFT
abbrev I_RIGHT : imask_t := slot_mask slot_t.RIGHT

end

/-- Modelled from the spec: tree_kind_t is the enumeration of tree.h (absent).  Its values
index has_map and kind_text_map, so the numbering is the order of kind_text_map. -/
abbrev tree_kind_t := Nat

def T_ENTITY : tree_kind_t := 0
def T_ARCH : tree_kind_t := 1
def T_PORT_DECL : tree_kind_t := 2
def T_FCALL : tree_kind_t := 3
def T_LITERAL : tree_kind_t := 4
def T_SIGNAL_DECL : tree_kind_t := 5
def T_VAR_DECL : tree_kind_t := 6
def T_PROCESS : tree_kind_t := 7
def T_REF : tree_kind_t := 8
def T_WAIT : tree_kind_t := 9
def T_TYPE_DECL : tree_kind_t := 10
def T_VAR_ASSIGN : tree_kind_t := 11
def T_PACKAGE : tree_kind_t := 12
def T_SIGNAL_ASSIGN : tree_kind_t := 13
def T_QUALIFIED : tree_kind_t := 14
def T_ENUM_LIT : tree_kind_t := 15
def T_CONST_DECL : tree_kind_t := 16
def T_FUNC_DECL : tree_kind_t := 17
def T_ELAB : tree_kind_t := 18
def T_AGGREGATE : tree_kind_t := 19
def T_ASSERT : tree_kind_t := 20
def T_ATTR_REF : tree_kind_t := 21
def T_ARRAY_REF : tree_kind_t := 22
def T_ARRAY_SLICE : tree_kind_t := 23
def T_INSTANCE : tree_kind_t := 24
def T_IF : tree_kind_t := 25
def T_NULL : tree_kind_t := 26
def T_PACK_BODY : tree_kind_t := 27
def T_FUNC_BODY : tree_kind_t := 28
def T_RETURN : tree_kind_t := 29
def T_CASSIGN : tree_kind_t := 30
def T_WHILE : tree_kind_t := 31
def T_WAVEFORM : tree_kind_t := 32
def T_ALIAS : tree_kind_t := 33
def T_FOR : tree_kind_t := 34
def T_ATTR_DECL : tree_kind_t := 35
def T_ATTR_SPEC : tree_kind_t := 36
def T_PROC_DECL : tree_kind_t := 37
def T_PROC_BODY : tree_kind_t := 38
def T_EXIT : tree_kind_t := 39
def T_PCALL : tree_kind_t := 40
def T_CASE : tree_kind_t := 41
def T_BLOCK : tree_kind_t := 42
def T_COND : tree_kind_t := 43
def T_TYPE_CONV : tree_kind_t := 44
def T_SELECT : tree_kind_t := 45
def T_COMPONENT : tree_kind_t := 46
def T_IF_GENERATE : tree_kind_t := 47
def T_FOR_GENERATE : tree_kind_t := 48
def T_FILE_DECL : tree_kind_t := 49
def T_OPEN : tree_kind_t := 50
def T_FIELD_DECL : tree_kind_t := 51
def T_RECORD_REF : tree_kind_t := 52
def T_ALL : tree_kind_t := 53
def T_NEW : tree_kind_t := 54
def T_CASSERT : tree_kind_t := 55
def T_CPCALL : tree_kind_t := 56
def T_UNIT_DECL : tree_kind_t := 57
def T_NEXT : tree_kind_t := 58
def T_GENVAR : tree_kind_t := 59
def T_PARAM : tree_kind_t := 60
def T_ASSOC : tree_kind_t := 61
def T_USE : tree_kind_t := 62
def T_HIER : tree_kind_t := 63
def T_SPEC : tree_kind_t := 64
def T_BINDING : tree_kind_t := 65
def T_LIBRARY : tree_kind_t := 66
def T_DESIGN_UNIT : tree_kind_t := 67
def T_CONFIGURATION : tree_kind_t := 68
def T_PROT_BODY : tree_kind_t := 69
def T_CONTEXT : tree_kind_t := 70
def T_CTXREF : tree_kind_t := 71
def T_CONSTRAINT : tree_kind_t := 72
def T_BLOCK_CONFIG : tree_kind_t := 73
def T_PROT_FCALL : tree_kind_t := 74
def T_PROT_PCALL : tree_kind_t := 75
def T_RANGE : tree_kind_t := 76
def T_IMPLICIT_SIGNAL : tree_kind_t := 77
def T_DISCONNECT : tree_kind_t := 78
def T_GROUP_TEMPLATE : tree_kind_t := 79
def T_GROUP : tree_kind_t := 80
def T_SUBTYPE_DECL : tree_kind_t := 81

/-- Modelled from the spec: the number of tree kinds, the enumerator that closes
tree_kind_t in tree.h (absent); has_map and kind_text_map are declared with this size and
have this many initialisers. -/
def T_LAST_TREE_KIND : Nat := 82


/-- The table change_allowed of tree.c, with its terminating entry. -/
def change_allowed : List (Int × Int) := [
  ( T_REF, T_FCALL),
  ( T_REF, T_PCALL),
  ( T_ARRAY_REF, T_FCALL),
  ( T_FCALL, T_ARRAY_REF),
  ( T_FCALL, T_PCALL),
  ( T_FCALL, T_TYPE_CONV),
  ( T_REF, T_TYPE_CONV),
  ( T_REF, T_RECORD_REF),
  ( T_REF, T_QUALIFIED),
  ( T_ARRAY_REF, T_ARRAY_SLICE),
  ( T_ASSERT, T_CASSERT),
  ( T_DESIGN_UNIT, T_ENTITY),
  ( T_DESIGN_UNIT, T_PACKAGE),
  ( T_DESIGN_UNIT, T_PACK_BODY),
  ( T_DESIGN_UNIT, T_ARCH),
  ( T_DESIGN_UNIT, T_CONFIGURATION),
  ( T_DESIGN_UNIT, T_CONTEXT),
  ( T_FUNC_DECL, T_FUNC_BODY),
  ( T_PROC_DECL, T_PROC_BODY),
  ( T_REF, T_ARRAY_SLICE),
  ( T_FCALL, T_CPCALL),
  ( T_PCALL, T_CPCALL),
  ( T_REF, T_CPCALL),
  ( T_ATTR_REF, T_ARRAY_REF),
  ( T_PROT_FCALL, T_PROT_PCALL),
  ( T_FCALL, T_PROT_FCALL),
  ( T_PCALL, T_PROT_PCALL),
  (-1, -1)
]

def stmt_kinds : List tree_kind_t := [
  T_PROCESS, T_WAIT,        T_VAR_ASSIGN,   T_SIGNAL_ASSIGN,
  T_ASSERT,  T_INSTANCE,    T_IF,           T_NULL,
  T_RETURN,  T_CASSIGN,     T_WHILE,        T_FOR,
  T_EXIT,    T_PCALL,       T_CASE,         T_BLOCK,
  T_SELECT,  T_IF_GENERATE, T_FOR_GENERATE, T_CPCALL,
  T_CASSERT, T_NEXT,        T_PROT_PCALL
]

def expr_kinds : List tree_kind_t := [
  T_FCALL,     T_LITERAL,   T_REF,        T_QUALIFIED,
  T_AGGREGATE, T_ATTR_REF,  T_ARRAY_REF,  T_ARRAY_SLICE,
  T_TYPE_CONV, T_OPEN,      T_RECORD_REF, T_ALL,
  T_NEW,       T_PROT_FCALL
]

def decl_kinds : List tree_kind_t := [
  T_PORT_DECL,  T_SIGNAL_DECL,    T_VAR_DECL,     T_TYPE_DECL,
  T_CONST_DECL, T_FUNC_DECL,      T_FUNC_BODY,    T_ALIAS,
  T_ATTR_DECL,  T_ATTR_SPEC,      T_PROC_DECL,    T_PROC_BODY,
  T_COMPONENT,  T_FILE_DECL,      T_FIELD_DECL,   T_UNIT_DECL,
  T_GENVAR,     T_HIER,           T_SPEC,         T_BINDING,
  T_USE,        T_PROT_BODY,      T_BLOCK_CONFIG, T_IMPLICIT_SIGNAL,
  T_DISCONNECT, T_GROUP_TEMPLATE, T_GROUP,        T_SUBTYPE_DECL
]

/-! ## The schema tables of tree.c -/

def kind_text_map : List String := [
  "T_ENTITY", "T_ARCH", "T_PORT_DECL", "T_FCALL",
  "T_LITERAL", "T_SIGNAL_DECL", "T_VAR_DECL", "T_PROCESS",
  "T_REF", "T_WAIT", "T_TYPE_DECL", "T_VAR_ASSIGN",
  "T_PACKAGE", "T_SIGNAL_ASSIGN", "T_QUALIFIED", "T_ENUM_LIT",
  "T_CONST_DECL", "T_FUNC_DECL", "T_ELAB", "T_AGGREGATE",
  "T_ASSERT", "T_ATTR_REF", "T_ARRAY_REF", "T_ARRAY_SLICE",
  "T_INSTANCE", "T_IF", "T_NULL", "T_PACK_BODY",
  "T_FUNC_BODY", "T_RETURN", "T_CASSIGN", "T_WHILE",
  "T_WAVEFORM", "T_ALIAS", "T_FOR", "T_ATTR_DECL",
  "T_ATTR_SPEC", "T_PROC_DECL", "T_PROC_BODY", "T_EXIT",
  "T_PCALL", "T_CASE", "T_BLOCK", "T_COND",
  "T_TYPE_CONV", "T_SELECT", "T_COMPONENT", "T_IF_GENERATE",
  "T_FOR_GENERATE", "T_FILE_DECL", "T_OPEN", "T_FIELD_DECL",
  "T_RECORD_REF", "T_ALL", "T_NEW", "T_CASSERT",
  "T_CPCALL", "T_UNIT_DECL", "T_NEXT", "T_GENVAR",
  "T_PARAM", "T_ASSOC", "T_USE", "T_HIER",
  "T_SPEC", "T_BINDING", "T_LIBRARY", "T_DESIGN_UNIT",
  "T_CONFIGURATION", "T_PROT_BODY", "T_CONTEXT", "T_CTXREF",
  "T_CONSTRAINT", "T_BLOCK_CONFIG", "T_PROT_FCALL", "T_PROT_PCALL",
  "T_RANGE", "T_IMPLICIT_SIGNAL", "T_DISCONNECT", "T_GROUP_TEMPLATE",
  "T_GROUP", "T_SUBTYPE_DECL"
]

def tree_kind_str (t : tree_kind_t) : String := kind_text_map.getD t ""


section
variable [object_h]

/-- The table has_map of tree.c: entry k is the slot mask of kind k.  The comment that
precedes each initialiser in the source is kept as the first component. -/
def has_map_entries : List (String × imask_t) := [
  ("T_ENTITY", I_IDENT ||| I_PORTS ||| I_GENERICS ||| I_CONTEXT ||| I_DECLS ||| I_STMTS),
  ("T_ARCH", I_IDENT ||| I_IDENT2 ||| I_DECLS ||| I_STMTS ||| I_CONTEXT ||| I_PRIMARY),
  ("T_PORT_DECL", I_IDENT ||| I_VALUE ||| I_TYPE ||| I_SUBKIND ||| I_CLASS ||| I_FLAGS),
  ("T_FCALL", I_IDENT ||| I_PARAMS ||| I_TYPE ||| I_REF ||| I_FLAGS),
  ("T_LITERAL", I_SUBKIND ||| I_TYPE ||| I_IVAL ||| I_DVAL ||| I_CHARS ||| I_FLAGS ||| I_IDENT ||| I_REF),
  ("T_SIGNAL_DECL", I_IDENT ||| I_VALUE ||| I_TYPE ||| I_FLAGS ||| I_IDENT2),
  ("T_VAR_DECL", I_IDENT ||| I_VALUE ||| I_TYPE ||| I_FLAGS ||| I_IDENT2),
  ("T_PROCESS", I_IDENT ||| I_DECLS ||| I_STMTS ||| I_TRIGGERS ||| I_FLAGS),
  ("T_REF", I_IDENT ||| I_TYPE ||| I_REF ||| I_FLAGS),
  ("T_WAIT", I_IDENT ||| I_VALUE ||| I_DELAY ||| I_TRIGGERS ||| I_FLAGS),
  ("T_TYPE_DECL", I_IDENT ||| I_TYPE),
  ("T_VAR_ASSIGN", I_IDENT ||| I_VALUE ||| I_TARGET),
  ("T_PACKAGE", I_IDENT ||| I_DECLS ||| I_CONTEXT),
  ("T_SIGNAL_ASSIGN", I_IDENT ||| I_TARGET ||| I_WAVES ||| I_REJECT),
  ("T_QUALIFIED", I_IDENT ||| I_VALUE ||| I_TYPE),
  ("T_ENUM_LIT", I_IDENT ||| I_TYPE ||| I_POS),
  ("T_CONST_DECL", I_IDENT ||| I_VALUE ||| I_TYPE ||| I_FLAGS ||| I_IDENT2),
  ("T_FUNC_DECL", I_IDENT ||| I_PORTS ||| I_TYPE ||| I_FLAGS ||| I_IDENT2 ||| I_SUBKIND),
  ("T_ELAB", I_IDENT ||| I_DECLS ||| I_STMTS ||| I_CONTEXT ||| I_EOPT),
  ("T_AGGREGATE", I_TYPE ||| I_ASSOCS ||| I_FLAGS),
  ("T_ASSERT", I_IDENT ||| I_VALUE ||| I_SEVERITY ||| I_MESSAGE),
  ("T_ATTR_REF", I_NAME ||| I_VALUE ||| I_IDENT ||| I_PARAMS ||| I_TYPE ||| I_SUBKIND),
  ("T_ARRAY_REF", I_VALUE ||| I_PARAMS ||| I_TYPE ||| I_FLAGS),
  ("T_ARRAY_SLICE", I_VALUE ||| I_TYPE ||| I_RANGES),
  ("T_INSTANCE", I_IDENT ||| I_IDENT2 ||| I_PARAMS ||| I_GENMAPS ||| I_REF ||| I_CLASS ||| I_SPEC),
  ("T_IF", I_IDENT ||| I_VALUE ||| I_STMTS ||| I_ELSES),
  ("T_NULL", I_IDENT),
  ("T_PACK_BODY", I_IDENT ||| I_DECLS ||| I_CONTEXT ||| I_PRIMARY),
  ("T_FUNC_BODY", I_IDENT ||| I_DECLS ||| I_STMTS ||| I_PORTS ||| I_TYPE ||| I_FLAGS ||| I_IDENT2 ||| I_SUBKIND),
  ("T_RETURN", I_IDENT ||| I_VALUE),
  ("T_CASSIGN", I_IDENT ||| I_TARGET ||| I_CONDS ||| I_GUARD),
  ("T_WHILE", I_IDENT ||| I_VALUE ||| I_STMTS),
  ("T_WAVEFORM", I_VALUE ||| I_DELAY),
  ("T_ALIAS", I_IDENT ||| I_VALUE ||| I_TYPE ||| I_IDENT2),
  ("T_FOR", I_IDENT ||| I_STMTS ||| I_RANGES ||| I_DECLS),
  ("T_ATTR_DECL", I_IDENT ||| I_TYPE),
  ("T_ATTR_SPEC", I_IDENT ||| I_VALUE ||| I_IDENT2 ||| I_CLASS ||| I_REF),
  ("T_PROC_DECL", I_IDENT ||| I_PORTS ||| I_TYPE ||| I_FLAGS ||| I_IDENT2 ||| I_SUBKIND),
  ("T_PROC_BODY", I_IDENT ||| I_DECLS ||| I_STMTS ||| I_PORTS ||| I_TYPE ||| I_FLAGS ||| I_IDENT2 ||| I_SUBKIND),
  ("T_EXIT", I_IDENT ||| I_VALUE ||| I_IDENT2),
  ("T_PCALL", I_IDENT ||| I_IDENT2 ||| I_PARAMS ||| I_REF),
  ("T_CASE", I_IDENT ||| I_VALUE ||| I_ASSOCS),
  ("T_BLOCK", I_IDENT ||| I_DECLS ||| I_STMTS ||| I_PORTS ||| I_GENERICS ||| I_PARAMS ||| I_GENMAPS),
  ("T_COND", I_VALUE ||| I_WAVES ||| I_REJECT),
  ("T_TYPE_CONV", I_VALUE ||| I_TYPE ||| I_FLAGS),
  ("T_SELECT", I_IDENT ||| I_VALUE ||| I_ASSOCS ||| I_GUARD),
  ("T_COMPONENT", I_IDENT ||| I_PORTS ||| I_GENERICS),
  ("T_IF_GENERATE", I_IDENT ||| I_VALUE ||| I_DECLS ||| I_STMTS),
  ("T_FOR_GENERATE", I_IDENT ||| I_DECLS ||| I_STMTS ||| I_RANGES),
  ("T_FILE_DECL", I_IDENT ||| I_VALUE ||| I_TYPE ||| I_FILE_MODE ||| I_IDENT2),
  ("T_OPEN", I_TYPE),
  ("T_FIELD_DECL", I_IDENT ||| I_TYPE ||| I_POS),
  ("T_RECORD_REF", I_IDENT ||| I_VALUE ||| I_TYPE ||| I_REF),
  ("T_ALL", I_VALUE ||| I_TYPE),
  ("T_NEW", I_VALUE ||| I_TYPE),
  ("T_CASSERT", I_IDENT ||| I_VALUE ||| I_SEVERITY ||| I_MESSAGE ||| I_FLAGS),
  ("T_CPCALL", I_IDENT ||| I_IDENT2 ||| I_PARAMS ||| I_REF),
  ("T_UNIT_DECL", I_IDENT ||| I_VALUE ||| I_TYPE),
  ("T_NEXT", I_IDENT ||| I_VALUE ||| I_IDENT2),
  ("T_GENVAR", I_IDENT ||| I_TYPE ||| I_FLAGS),
  ("T_PARAM", I_VALUE ||| I_POS ||| I_SUBKIND ||| I_NAME),
  ("T_ASSOC", I_VALUE ||| I_POS ||| I_NAME ||| I_RANGES ||| I_SUBKIND),
  ("T_USE", I_IDENT ||| I_IDENT2 ||| I_REF),
  ("T_HIER", I_IDENT ||| I_SUBKIND ||| I_IDENT2),
  ("T_SPEC", I_IDENT ||| I_IDENT2 ||| I_VALUE ||| I_REF ||| I_DECLS),
  ("T_BINDING", I_PARAMS ||| I_GENMAPS ||| I_IDENT ||| I_IDENT2 ||| I_CLASS ||| I_REF),
  ("T_LIBRARY", I_IDENT ||| I_IDENT2),
  ("T_DESIGN_UNIT", I_CONTEXT),
  ("T_CONFIGURATION", I_IDENT ||| I_IDENT2 ||| I_DECLS ||| I_PRIMARY),
  ("T_PROT_BODY", I_IDENT ||| I_TYPE ||| I_DECLS),
  ("T_CONTEXT", I_CONTEXT ||| I_IDENT),
  ("T_CTXREF", I_IDENT ||| I_REF),
  ("T_CONSTRAINT", I_SUBKIND ||| I_RANGES),
  ("T_BLOCK_CONFIG", I_DECLS ||| I_IDENT ||| I_VALUE ||| I_RANGES ||| I_REF),
  ("T_PROT_FCALL", I_IDENT ||| I_PARAMS ||| I_TYPE ||| I_REF ||| I_FLAGS ||| I_NAME),
  ("T_PROT_PCALL", I_IDENT ||| I_IDENT2 ||| I_PARAMS ||| I_REF ||| I_NAME),
  ("T_RANGE", I_SUBKIND ||| I_VALUE ||| I_LEFT ||| I_RIGHT ||| I_TYPE),
  ("T_IMPLICIT_SIGNAL", I_IDENT ||| I_TYPE ||| I_SUBKIND ||| I_VALUE ||| I_FLAGS),
  ("T_DISCONNECT", I_IDENT ||| I_REF ||| I_TYPE ||| I_DELAY),
  ("T_GROUP_TEMPLATE", I_IDENT),
  ("T_GROUP", I_IDENT ||| I_REF),
  ("T_SUBTYPE_DECL", I_IDENT ||| I_TYPE)
]

def has_map : List imask_t := has_map_entries.map Prod.snd

/-- The read has_map[k] (class->has_map[obj->kind] in the object store); a kind past the end
of the table has no slot. -/
def has_map_at (k : tree_kind_t) : imask_t := has_map.getD k 0

/-! ## The object store (object.h, object.c, array.h) -/

abbrev tree_t := Nat
abbrev type_t := Nat
abbrev e_node_t := Nat
abbrev ident_t := Nat
abbrev class_t := Nat
abbrev tree_flags_t := Nat
abbrev loc_t := Nat

/-- The null address. -/
def NULL : Nat := 0

/-- Modelled from the spec: item_t of object.h (absent), the storage of one slot.  It is a
union in the source; tree.c reads and writes every slot through one member only, so the
members are kept apart.  ident, object and type hold addresses (0 is NULL), ival the bit
pattern of the int64_t, dval the bit pattern of the double, obj_array the items of the array
(its count is the length of the list). -/
structure item_t where
  ident : ident_t
  ival : Nat
  dval : Nat
  obj_array : List Nat
  object : Nat
  type : type_t

/-- The all-zero item of a slot that was never written. -/
def item_zero : item_t :=
  { ident := NULL, ival := 0, dval := 0, obj_array := [], object := NULL, type := NULL }

/-- Modelled from the spec: object_t of object.h (absent): the kind tag, the location and the
slot storage, a mapping from slot identifier (the mask constant of the slot) to slot value. -/
structure object_t where
  kind : tree_kind_t
  loc : loc_t
  items : imask_t → item_t

/-- One call of the callback of a visit: the function, the generation of the visit and the
node passed to it. -/
structure visit_call where
  fn : Nat
  generation : Nat
  object : Nat
deriving DecidableEq, Repr

/-- The state of the process as far as tree.c can see it: the objects by address, and the
calls of object_write_barrier made so far, oldest first.  The other components are the state
behind the absent object.c, modelled from the spec: the arenas (arena number k is frozen when
entry k - 1 of arenas is true), the arena that holds each address, the current arena
global_arena of tree.c (NULL when there is none), the next free address, the generation
counter, the generation in which each address was last visited, the generations handed to the
traversal engines, the callback calls made by visits, and the nodes handed to object_write. -/
structure heap where
  objs : Nat → Option object_t
  barriers : List (Nat × Nat)
  arenas : List Bool := []
  arena_of : Nat → Nat := fun _ => NULL
  global_arena : Nat := NULL
  brk : Nat := 1
  next_generation : Nat := 1
  marks : Nat → Nat := fun _ => 0
  traversals : List Nat := []
  callbacks : List visit_call := []
  written : List Nat := []

/-- The result of running an operation: it returns, or the process is terminated (a failed
assert, fatal_trace, or a dereference of an address that holds no object).  Both carry the
state at that moment. -/
inductive outcome (α : Type) where
  | ok (a : α) (h : heap)
  | fatal (h : heap)

/-- Operations on the state that may terminate the process. -/
def M (α : Type) : Type := heap → outcome α

instance : Monad M where
  pure a := fun h => outcome.ok a h
  bind x f := fun h =>
    match x h with
    | outcome.ok a h1 => f a h1
    | outcome.fatal h1 => outcome.fatal h1

def M.run {α : Type} (x : M α) (h : heap) : outcome α := x h

/-- The operation returned. -/
def outcome.succeeds {α : Type} : outcome α → Bool
  | outcome.ok _ _ => true
  | outcome.fatal _ => false

/-- The state in which the operation returned or was terminated. -/
def outcome.state {α : Type} : outcome α → heap
  | outcome.ok _ h => h
  | outcome.fatal h => h

/-- The value returned, if any. -/
def outcome.value {α : Type} : outcome α → Option α
  | outcome.ok a _ => some a
  | outcome.fatal _ => none

/-- Termination of the process by fatal_trace. -/
def fatal_trace {α : Type} : M α := fun h => outcome.fatal h

/-- The assert of assert.h, with assertions enabled. -/
def assert (c : Prop) [Decidable c] : M Unit :=
  fun h => if c then outcome.ok () h else outcome.fatal h

/-- Reading the object at an address. -/
def deref (p : Nat) : M object_t := fun h =>
  if p = NULL then outcome.fatal h
  else
    match h.objs p with
    | some o => outcome.ok o h
    | none => outcome.fatal h

/-- The address of a slot of an object, the item_t pointer that lookup_item returns. -/
structure item_ref where
  obj : Nat
  slot : imask_t

/-- Reading a member through an item pointer. -/
def rd {α : Type} (item : item_ref) (f : item_t → α) : M α := do
  let o ← deref item.obj
  return f (o.items item.slot)

/-- An object after an update of one slot. -/
def object_t.upd (o : object_t) (slot : imask_t) (f : item_t → item_t) : object_t :=
  { o with items := Function.update o.items slot (f (o.items slot)) }

/-- The state after an update of one slot of one object. -/
def heap.put (h : heap) (item : item_ref) (o : object_t) (f : item_t → item_t) : heap :=
  { h with objs := Function.update h.objs item.obj (some (o.upd item.slot f)) }

/-- Writing a member through an item pointer. -/
def wr (item : item_ref) (f : item_t → item_t) : M Unit := fun h =>
  match deref item.obj h with
  | outcome.ok o _ => outcome.ok () (h.put item o f)
  | outcome.fatal h1 => outcome.fatal h1

/-- Modelled from the spec: object_class_t of object.h (absent), the tables of one class. -/
structure object_class_t where
  name : String
  change_allowed : List (Int × Int)
  has_map : List imask_t
  kind_text_map : List String
  tag : Nat
  last_kind : Nat
  gc_roots : List tree_kind_t
  gc_num_roots : Nat

def tree_object : object_class_t :=
  { name := "tree",
    change_allowed := change_allowed,
    has_map := has_map,
    kind_text_map := kind_text_map,
    tag := object_h.OBJECT_TAG_TREE,
    last_kind := T_LAST_TREE_KIND,
    gc_roots := [T_ARCH, T_ENTITY, T_PACKAGE, T_ELAB, T_PACK_BODY,
                 T_CONTEXT, T_CONFIGURATION, T_DESIGN_UNIT],
    gc_num_roots := 8 }

/-- Modelled from the spec: lookup_item of object.h (absent).  It resolves the slot through
the schema of the current kind of the node and is fatal when the slot is not part of that
schema; otherwise it returns the address of the slot. -/
def lookup_item (cls : object_class_t) (t : Nat) (mask : imask_t) : M item_ref := do
  let obj ← deref t
  if cls.has_map.getD obj.kind 0 &&& mask = 0 then
    fatal_trace
  else
    return { obj := t, slot := mask }

/-- The state after one more call of object_write_barrier. -/
def heap.log (h : heap) (lhs rhs : Nat) : heap :=
  { h with barriers := h.barriers ++ [(lhs, rhs)] }

/-- Modelled from the spec: object_write_barrier of object.h (absent).  The call is recorded;
what the arena does with it is outside tree.c. -/
def object_write_barrier (lhs rhs : Nat) : M Unit := fun h =>
  outcome.ok () (h.log lhs rhs)

/-- The scan of a change_allowed table up to its terminating entry. -/
def change_allowed_scan : List (Int × Int) → Int → Int → Bool
  | [], _, _ => false
  | (f, t) :: rest, a, b =>
    if f = -1 then false
    else if f = a ∧ t = b then true
    else change_allowed_scan rest a b

/-- The state with the object o at the address p. -/
def heap.set (h : heap) (p : Nat) (o : object_t) : heap :=
  { h with objs := Function.update h.objs p (some o) }

/-- Modelled from the spec: the node after a change of kind.  It keeps its slot storage and is
from then on read under the schema of the new kind: a slot outside the new schema is left as
it is, a slot that enters the schema is unset. -/
def object_t.retag (o : object_t) (cls : object_class_t) (kind : tree_kind_t) : object_t :=
  { o with
    kind := kind,
    items := fun m =>
      if cls.has_map.getD kind 0 &&& m ≠ 0 ∧ cls.has_map.getD o.kind 0 &&& m = 0
      then item_zero else o.items m }

/-- Modelled from the spec: object_change_kind of object.c (absent).  The change is validated
against the retag table of the class and is fatal when the pair is not in it; otherwise the
node is retagged in place. -/
def object_change_kind (cls : object_class_t) (object : Nat) (kind : tree_kind_t) : M Unit :=
  fun h =>
  match deref object h with
  | outcome.fatal h1 => outcome.fatal h1
  | outcome.ok o _ =>
    if change_allowed_scan cls.change_allowed o.kind kind then
      outcome.ok () (h.set object (o.retag cls kind))
    else outcome.fatal h

/-- Modelled from the spec: ARESIZE of array.h (absent) sets the count of the array to n; the
cells it adds are written before they are read, they are NULL here. -/
def ARESIZE (a : List Nat) (n : Nat) : List Nat :=
  a.take n ++ List.replicate (n - a.length) NULL

/-- Modelled from the spec: APUSH of array.h (absent), append: the count grows by one and
the item is stored in the last cell. -/
def APUSH (a : List Nat) (item : Nat) : List Nat :=
  let a1 := ARESIZE a (a.length + 1)
  a1.set (a1.length - 1) item

/-- Modelled from the spec: AGET of array.h (absent), indexed access; an index that is not
below the count is a contract violation. -/
def AGET (a : List Nat) (n : Nat) : M Nat := do
  assert (n < a.length)
  return a.getD n NULL

/-- The memmove of string.h on the cells of an array: n cells are copied from index src to
index dst, the areas may overlap. -/
def memmove (items : List Nat) (dst src n : Nat) : List Nat :=
  let chunk := (items.drop src).take n
  items.take dst ++ chunk ++ items.drop (dst + chunk.length)

/-- An unsigned int holds its argument modulo 2^32. -/
def to_unsigned (n : Nat) : Nat := n % 2 ^ 32

/-- The int64_t with a given bit pattern. -/
def to_int64 (n : Nat) : Int :=
  if n % 2 ^ 64 < 2 ^ 63 then ((n % 2 ^ 64 : Nat) : Int) else ((n % 2 ^ 64 : Nat) : Int) - 2 ^ 64

/-- The bit pattern of an int64_t. -/
def of_int64 (i : Int) : Nat := (i % 2 ^ 64).toNat

/-! ## tree.c -/

/-- The struct _tree has the object as its only member, so container_of and the address of
the member object are the identity on addresses. -/
def container_of (o : Nat) : tree_t := o

def tree_kind_in (t : tree_t) (list : List tree_kind_t) : M Bool := do
  let o ← deref t
  return list.any (fun k => decide (o.kind = k))

def tree_assert_kind (t : tree_t) (list : List tree_kind_t) (_what : String) : M Unit := do
  if !(← tree_kind_in t list) then
    fatal_trace
  else
    return ()

def tree_assert_stmt (t : tree_t) : M Unit :=
  tree_assert_kind t stmt_kinds "a statement"

def tree_assert_expr (t : tree_t) : M Unit :=
  tree_assert_kind t expr_kinds "an expression"

def tree_assert_decl (t : tree_t) : M Unit :=
  tree_assert_kind t decl_kinds "a declaration"

def tree_array_nth (item : item_ref) (n : Nat) : M tree_t := do
  return container_of (← AGET (← rd item item_t.obj_array) n)

def tree_array_add (item : item_ref) (t : tree_t) : M Unit :=
  wr item (fun it => { it with obj_array := APUSH it.obj_array t })

/-- The position is an unsigned in the source: the argument is taken modulo 2^32. -/
def tree_array_insert (item : item_ref) (opos : Nat) (new : tree_t) : M Unit := do
  let opos := to_unsigned opos
  assert (opos ≤ (← rd item item_t.obj_array).length)
  if opos = (← rd item item_t.obj_array).length then
    wr item (fun it => { it with obj_array := APUSH it.obj_array new })
  else
    wr item (fun it => { it with obj_array := ARESIZE it.obj_array (it.obj_array.length + 1) })
    wr item (fun it =>
      { it with obj_array :=
                  memmove it.obj_array (opos + 1) opos (it.obj_array.length - 1 - opos) })
    wr item (fun it => { it with obj_array := it.obj_array.set opos new })

def tree_loc (t : tree_t) : M loc_t := do
  assert (t ≠ NULL)
  return (← deref t).loc

/-- The location is passed by address in the source: none is the null address. -/
def tree_set_loc (t : tree_t) (loc : Option loc_t) : M Unit := do
  assert (t ≠ NULL)
  assert (loc ≠ none)
  let o ← deref t
  fun h => outcome.ok () (h.set t { o with loc := loc.getD 0 })

def tree_ident (t : tree_t) : M ident_t := do
  let item ← lookup_item tree_object t I_IDENT
  assert ((← rd item item_t.ident) ≠ NULL)
  return (← rd item item_t.ident)

def tree_has_ident (t : tree_t) : M Bool := do
  return decide ((← rd (← lookup_item tree_object t I_IDENT) item_t.ident) ≠ NULL)

def tree_set_ident (t : tree_t) (i : ident_t) : M Unit := do
  wr (← lookup_item tree_object t I_IDENT) (fun it => { it with ident := i })

def tree_ident2 (t : tree_t) : M ident_t := do
  let item ← lookup_item tree_object t I_IDENT2
  assert ((← rd item item_t.ident) ≠ NULL)
  return (← rd item item_t.ident)

def tree_set_ident2 (t : tree_t) (i : ident_t) : M Unit := do
  wr (← lookup_item tree_object t I_IDENT2) (fun it => { it with ident := i })

def tree_has_ident2 (t : tree_t) : M Bool := do
  return decide ((← rd (← lookup_item tree_object t I_IDENT2) item_t.ident) ≠ NULL)

def tree_kind (t : tree_t) : M tree_kind_t := do
  assert (t ≠ NULL)
  return (← deref t).kind

def tree_change_kind (t : tree_t) (kind : tree_kind_t) : M Unit :=
  object_change_kind tree_object t kind

def tree_ports (t : tree_t) : M Nat := do
  return (← rd (← lookup_item tree_object t I_PORTS) item_t.obj_array).length

def tree_port (t : tree_t) (n : Nat) : M tree_t := do
  let item ← lookup_item tree_object t I_PORTS
  tree_array_nth item n

def tree_add_port (t : tree_t) (d : tree_t) : M Unit := do
  tree_assert_decl d
  tree_array_add (← lookup_item tree_object t I_PORTS) d
  object_write_barrier t d

def tree_subkind (t : tree_t) : M Nat := do
  let item ← lookup_item tree_object t I_SUBKIND
  return to_unsigned (← rd item item_t.ival)

def tree_set_subkind (t : tree_t) (sub : Nat) : M Unit := do
  wr (← lookup_item tree_object t I_SUBKIND) (fun it => { it with ival := to_unsigned sub })

def tree_generics (t : tree_t) : M Nat := do
  return (← rd (← lookup_item tree_object t I_GENERICS) item_t.obj_array).length

def tree_generic (t : tree_t) (n : Nat) : M tree_t := do
  let item ← lookup_item tree_object t I_GENERICS
  tree_array_nth item n

def tree_add_generic (t : tree_t) (d : tree_t) : M Unit := do
  tree_assert_decl d
  tree_array_add (← lookup_item tree_object t I_GENERICS) d
  object_write_barrier t d

def tree_type (t : tree_t) : M type_t := do
  let item ← lookup_item tree_object t I_TYPE
  assert ((← rd item item_t.type) ≠ NULL)
  return (← rd item item_t.type)

def tree_set_type (t : tree_t) (ty : type_t) : M Unit := do
  wr (← lookup_item tree_object t I_TYPE) (fun it => { it with type := ty })
  object_write_barrier t ty

def tree_has_type (t : tree_t) : M Bool := do
  return decide ((← rd (← lookup_item tree_object t I_TYPE) item_t.type) ≠ NULL)

def tree_params (t : tree_t) : M Nat := do
  return (← rd (← lookup_item tree_object t I_PARAMS) item_t.obj_array).length

def tree_param (t : tree_t) (n : Nat) : M tree_t := do
  let item ← lookup_item tree_object t I_PARAMS
  tree_array_nth item n

/-- The getter tree_value, placed before its first use (tree_add_param). -/
def tree_value (t : tree_t) : M tree_t := do
  let item ← lookup_item tree_object t I_VALUE
  assert ((← rd item item_t.object) ≠ NULL)
  return container_of (← rd item item_t.object)

def tree_add_param (t : tree_t) (e : tree_t) : M Unit := do
  assert ((← tree_kind e) = T_PARAM)
  tree_assert_expr (← tree_value e)
  tree_array_add (← lookup_item tree_object t I_PARAMS) e
  object_write_barrier t e

def tree_genmaps (t : tree_t) : M Nat := do
  return (← rd (← lookup_item tree_object t I_GENMAPS) item_t.obj_array).length

def tree_genmap (t : tree_t) (n : Nat) : M tree_t := do
  let item ← lookup_item tree_object t I_GENMAPS
  tree_array_nth item n

def tree_add_genmap (t : tree_t) (e : tree_t) : M Unit := do
  tree_assert_expr (← tree_value e)
  tree_array_add (← lookup_item tree_object t I_GENMAPS) e

def tree_ival (t : tree_t) : M Int := do
  let item ← lookup_item tree_object t I_IVAL
  return to_int64 (← rd item item_t.ival)

def tree_set_ival (t : tree_t) (i : Int) : M Unit := do
  wr (← lookup_item tree_object t I_IVAL) (fun it => { it with ival := of_int64 i })

/-- The double is carried as its bit pattern. -/
def tree_dval (t : tree_t) : M Nat := do
  let item ← lookup_item tree_object t I_DVAL
  return (← rd item item_t.dval)

def tree_set_dval (t : tree_t) (d : Nat) : M Unit := do
  wr (← lookup_item tree_object t I_DVAL) (fun it => { it with dval := d % 2 ^ 64 })

def tree_flags (t : tree_t) : M tree_flags_t := do
  let item ← lookup_item tree_object t I_FLAGS
  return to_unsigned (← rd item item_t.ival)

def tree_set_flag (t : tree_t) (mask : tree_flags_t) : M Unit := do
  wr (← lookup_item tree_object t I_FLAGS)
    (fun it => { it with ival := it.ival ||| to_unsigned mask })

/-- The complement is taken in the 32-bit type of the mask and then widened. -/
def tree_clear_flag (t : tree_t) (mask : tree_flags_t) : M Unit := do
  wr (← lookup_item tree_object t I_FLAGS)
    (fun it => { it with ival := it.ival &&& ((2 ^ 32 - 1) ^^^ to_unsigned mask) })

def tree_eopt (t : tree_t) : M e_node_t := do
  let item ← lookup_item tree_object t I_EOPT
  assert ((← rd item item_t.object) ≠ NULL)
  return container_of (← rd item item_t.object)

def tree_set_eopt (t : tree_t) (e : e_node_t) : M Unit := do
  wr (← lookup_item tree_object t I_EOPT) (fun it => { it with object := e })
  object_write_barrier t e

def tree_primary (t : tree_t) : M tree_t := do
  let item ← lookup_item tree_object t I_PRIMARY
  assert ((← rd item item_t.object) ≠ NULL)
  return container_of (← rd item item_t.object)

def tree_has_primary (t : tree_t) : M Bool := do
  return decide ((← rd (← lookup_item tree_object t I_PRIMARY) item_t.object) ≠ NULL)

def tree_set_primary (t : tree_t) (unit : tree_t) : M Unit := do
  wr (← lookup_item tree_object t I_PRIMARY) (fun it => { it with object := unit })
  object_write_barrier t unit

/-- The assertion of tree_chars, tree_char and tree_add_char: the node is a T_LITERAL and,
evaluated only then, its subkind is L_STRING. -/
def assert_string_literal (t : tree_t) : M Unit := do
  if (← deref t).kind = T_LITERAL then
    assert ((← tree_subkind t) = object_h.L_STRING)
  else
    assert False

def tree_chars (t : tree_t) : M Nat := do
  assert_string_literal t
  return (← rd (← lookup_item tree_object t I_CHARS) item_t.obj_array).length

def tree_char (t : tree_t) (n : Nat) : M tree_t := do
  assert_string_literal t
  let item ← lookup_item tree_object t I_CHARS
  tree_array_nth item n

def tree_add_char (t : tree_t) (ref : tree_t) : M Unit := do
  assert_string_literal t
  tree_array_add (← lookup_item tree_object t I_CHARS) ref
  object_write_barrier t ref

def tree_has_value (t : tree_t) : M Bool := do
  return decide ((← rd (← lookup_item tree_object t I_VALUE) item_t.object) ≠ NULL)


def tree_set_value (t : tree_t) (v : tree_t) : M Unit := do
  if v ≠ NULL ∧ (← deref t).kind ≠ T_ASSOC ∧ (← deref t).kind ≠ T_SPEC then
    tree_assert_expr v
  wr (← lookup_item tree_object t I_VALUE) (fun it => { it with object := v })
  object_write_barrier t v

def tree_decls (t : tree_t) : M Nat := do
  return (← rd (← lookup_item tree_object t I_DECLS) item_t.obj_array).length

def tree_decl (t : tree_t) (n : Nat) : M tree_t := do
  let item ← lookup_item tree_object t I_DECLS
  tree_array_nth item n

def tree_add_decl (t : tree_t) (d : tree_t) : M Unit := do
  tree_assert_decl d
  tree_array_add (← lookup_item tree_object t I_DECLS) d
  object_write_barrier t d

/-- The position is an unsigned in the source: the argument is taken modulo 2^32. -/
def tree_insert_decl (t : tree_t) (pos : Nat) (d : tree_t) : M Unit := do
  tree_assert_decl d
  tree_array_insert (← lookup_item tree_object t I_DECLS) (to_unsigned pos) d
  object_write_barrier t d

def tree_stmts (t : tree_t) : M Nat := do
  return (← rd (← lookup_item tree_object t I_STMTS) item_t.obj_array).length

def tree_stmt (t : tree_t) (n : Nat) : M tree_t := do
  let item ← lookup_item tree_object t I_STMTS
  tree_array_nth item n

def tree_add_stmt (t : tree_t) (s : tree_t) : M Unit := do
  tree_assert_stmt s
  tree_array_add (← lookup_item tree_object t I_STMTS) s
  object_write_barrier t s

def tree_waveforms (t : tree_t) : M Nat := do
  return (← rd (← lookup_item tree_object t I_WAVES) item_t.obj_array).length

def tree_waveform (t : tree_t) (n : Nat) : M tree_t := do
  let item ← lookup_item tree_object t I_WAVES
  tree_array_nth item n

def tree_add_waveform (t : tree_t) (w : tree_t) : M Unit := do
  assert ((← deref w).kind = T_WAVEFORM)
  tree_array_add (← lookup_item tree_object t I_WAVES) w
  object_write_barrier t w

def tree_else_stmts (t : tree_t) : M Nat := do
  return (← rd (← lookup_item tree_object t I_ELSES) item_t.obj_array).length

def tree_else_stmt (t : tree_t) (n : Nat) : M tree_t := do
  let item ← lookup_item tree_object t I_ELSES
  tree_array_nth item n

def tree_add_else_stmt (t : tree_t) (s : tree_t) : M Unit := do
  tree_assert_stmt s
  tree_array_add (← lookup_item tree_object t I_ELSES) s
  object_write_barrier t s

def tree_conds (t : tree_t) : M Nat := do
  return (← rd (← lookup_item tree_object t I_CONDS) item_t.obj_array).length

def tree_cond (t : tree_t) (n : Nat) : M tree_t := do
  let item ← lookup_item tree_object t I_CONDS
  tree_array_nth item n

def tree_add_cond (t : tree_t) (c : tree_t) : M Unit := do
  assert ((← deref c).kind = T_COND)
  tree_array_add (← lookup_item tree_object t I_CONDS) c
  object_write_barrier t c

def tree_has_delay (t : tree_t) : M Bool := do
  return decide ((← rd (← lookup_item tree_object t I_DELAY) item_t.object) ≠ NULL)

def tree_delay (t : tree_t) : M tree_t := do
  let item ← lookup_item tree_object t I_DELAY
  assert ((← rd item item_t.object) ≠ NULL)
  return container_of (← rd item item_t.object)

def tree_set_delay (t : tree_t) (d : tree_t) : M Unit := do
  tree_assert_expr d
  wr (← lookup_item tree_object t I_DELAY) (fun it => { it with object := d })
  object_write_barrier t d

def tree_triggers (t : tree_t) : M Nat := do
  return (← rd (← lookup_item tree_object t I_TRIGGERS) item_t.obj_array).length

def tree_trigger (t : tree_t) (n : Nat) : M tree_t := do
  let item ← lookup_item tree_object t I_TRIGGERS
  tree_array_nth item n

def tree_add_trigger (t : tree_t) (s : tree_t) : M Unit := do
  tree_assert_expr s
  tree_array_add (← lookup_item tree_object t I_TRIGGERS) s
  object_write_barrier t s

def tree_target (t : tree_t) : M tree_t := do
  let item ← lookup_item tree_object t I_TARGET
  assert ((← rd item item_t.object) ≠ NULL)
  return container_of (← rd item item_t.object)

def tree_set_target (t : tree_t) (lhs : tree_t) : M Unit := do
  wr (← lookup_item tree_object t I_TARGET) (fun it => { it with object := lhs })
  object_write_barrier t lhs

def tree_ref (t : tree_t) : M tree_t := do
  let item ← lookup_item tree_object t I_REF
  assert ((← rd item item_t.object) ≠ NULL)
  return container_of (← rd item item_t.object)

def tree_has_ref (t : tree_t) : M Bool := do
  return decide ((← rd (← lookup_item tree_object t I_REF) item_t.object) ≠ NULL)

def tree_set_ref (t : tree_t) (decl : tree_t) : M Unit := do
  wr (← lookup_item tree_object t I_REF) (fun it => { it with object := decl })
  object_write_barrier t decl

def tree_spec (t : tree_t) : M tree_t := do
  let item ← lookup_item tree_object t I_SPEC
  assert ((← rd item item_t.object) ≠ NULL)
  return container_of (← rd item item_t.object)

def tree_has_spec (t : tree_t) : M Bool := do
  return decide ((← rd (← lookup_item tree_object t I_SPEC) item_t.object) ≠ NULL)

def tree_set_spec (t : tree_t) (s : tree_t) : M Unit := do
  wr (← lookup_item tree_object t I_SPEC) (fun it => { it with object := s })
  object_write_barrier t s

def tree_contexts (t : tree_t) : M Nat := do
  return (← rd (← lookup_item tree_object t I_CONTEXT) item_t.obj_array).length

def tree_context (t : tree_t) (n : Nat) : M tree_t := do
  let item ← lookup_item tree_object t I_CONTEXT
  tree_array_nth item n

def tree_add_context (t : tree_t) (ctx : tree_t) : M Unit := do
  assert ((← deref ctx).kind = T_USE ∨ (← deref ctx).kind = T_LIBRARY
            ∨ (← deref ctx).kind = T_CTXREF)
  tree_array_add (← lookup_item tree_object t I_CONTEXT) ctx
  object_write_barrier t ctx

def tree_assocs (t : tree_t) : M Nat := do
  return (← rd (← lookup_item tree_object t I_ASSOCS) item_t.obj_array).length

def tree_assoc (t : tree_t) (n : Nat) : M tree_t := do
  let item ← lookup_item tree_object t I_ASSOCS
  tree_array_nth item n

def tree_add_assoc (t : tree_t) (a : tree_t) : M Unit := do
  assert ((← deref a).kind = T_ASSOC)
  tree_array_add (← lookup_item tree_object t I_ASSOCS) a
  object_write_barrier t a

def tree_severity (t : tree_t) : M tree_t := do
  let item ← lookup_item tree_object t I_SEVERITY
  assert ((← rd item item_t.object) ≠ NULL)
  return container_of (← rd item item_t.object)

def tree_set_severity (t : tree_t) (s : tree_t) : M Unit := do
  tree_assert_expr s
  wr (← lookup_item tree_object t I_SEVERITY) (fun it => { it with object := s })
  object_write_barrier t s

def tree_message (t : tree_t) : M tree_t := do
  let item ← lookup_item tree_object t I_MESSAGE
  assert ((← rd item item_t.object) ≠ NULL)
  return container_of (← rd item item_t.object)

def tree_has_message (t : tree_t) : M Bool := do
  return decide ((← rd (← lookup_item tree_object t I_MESSAGE) item_t.object) ≠ NULL)

def tree_set_message (t : tree_t) (m : tree_t) : M Unit := do
  tree_assert_expr m
  wr (← lookup_item tree_object t I_MESSAGE) (fun it => { it with object := m })
  object_write_barrier t m

def tree_add_range (t : tree_t) (r : tree_t) : M Unit := do
  tree_array_add (← lookup_item tree_object t I_RANGES) r
  object_write_barrier t r

def tree_range (t : tree_t) (n : Nat) : M tree_t := do
  let item ← lookup_item tree_object t I_RANGES
  tree_array_nth item n

def tree_ranges (t : tree_t) : M Nat := do
  return (← rd (← lookup_item tree_object t I_RANGES) item_t.obj_array).length

def tree_pos (t : tree_t) : M Nat := do
  let item ← lookup_item tree_object t I_POS
  return to_unsigned (← rd item item_t.ival)

def tree_set_pos (t : tree_t) (pos : Nat) : M Unit := do
  wr (← lookup_item tree_object t I_POS) (fun it => { it with ival := to_unsigned pos })

def tree_left (t : tree_t) : M tree_t := do
  let item ← lookup_item tree_object t I_LEFT
  assert ((← rd item item_t.object) ≠ NULL)
  return container_of (← rd item item_t.object)

def tree_set_left (t : tree_t) (left : tree_t) : M Unit := do
  tree_assert_expr left
  wr (← lookup_item tree_object t I_LEFT) (fun it => { it with object := left })
  object_write_barrier t left

def tree_right (t : tree_t) : M tree_t := do
  let item ← lookup_item tree_object t I_RIGHT
  assert ((← rd item item_t.object) ≠ NULL)
  return container_of (← rd item item_t.object)

def tree_set_right (t : tree_t) (right : tree_t) : M Unit := do
  tree_assert_expr right
  wr (← lookup_item tree_object t I_RIGHT) (fun it => { it with object := right })
  object_write_barrier t right

def tree_class (t : tree_t) : M class_t := do
  let item ← lookup_item tree_object t I_CLASS
  return to_unsigned (← rd item item_t.ival)

def tree_set_class (t : tree_t) (c : class_t) : M Unit := do
  wr (← lookup_item tree_object t I_CLASS) (fun it => { it with ival := to_unsigned c })

def tree_reject (t : tree_t) : M tree_t := do
  let item ← lookup_item tree_object t I_REJECT
  assert ((← rd item item_t.object) ≠ NULL)
  return container_of (← rd item item_t.object)

def tree_set_reject (t : tree_t) (r : tree_t) : M Unit := do
  tree_assert_expr r
  wr (← lookup_item tree_object t I_REJECT) (fun it => { it with object := r })
  object_write_barrier t r

def tree_has_reject (t : tree_t) : M Bool := do
  return decide ((← rd (← lookup_item tree_object t I_REJECT) item_t.object) ≠ NULL)

def tree_guard (t : tree_t) : M tree_t := do
  let item ← lookup_item tree_object t I_GUARD
  assert ((← rd item item_t.object) ≠ NULL)
  return container_of (← rd item item_t.object)

def tree_set_guard (t : tree_t) (g : tree_t) : M Unit := do
  assert ((← deref g).kind = T_REF)
  wr (← lookup_item tree_object t I_GUARD) (fun it => { it with object := g })
  object_write_barrier t g

def tree_has_guard (t : tree_t) : M Bool := do
  return decide ((← rd (← lookup_item tree_object t I_GUARD) item_t.object) ≠ NULL)

def tree_name (t : tree_t) : M tree_t := do
  let item ← lookup_item tree_object t I_NAME
  assert ((← rd item item_t.object) ≠ NULL)
  return container_of (← rd item item_t.object)

def tree_set_name (t : tree_t) (n : tree_t) : M Unit := do
  tree_assert_expr n
  wr (← lookup_item tree_object t I_NAME) (fun it => { it with object := n })
  object_write_barrier t n

def tree_has_name (t : tree_t) : M Bool := do
  return decide ((← rd (← lookup_item tree_object t I_NAME) item_t.object) ≠ NULL)

def tree_file_mode (t : tree_t) : M tree_t := do
  let item ← lookup_item tree_object t I_FILE_MODE
  return container_of (← rd item item_t.object)

def tree_set_file_mode (t : tree_t) (m : tree_t) : M Unit := do
  wr (← lookup_item tree_object t I_FILE_MODE) (fun it => { it with object := m })
  object_write_barrier t m


/-- The accessors of the facade that reach a slot through lookup_item, each with the mask
constant of its slot and, as a function of the state, whether the call returns.  The node is
t; n is the index or position argument, v the node, type, identifier or number passed to a
setter or adder, i the integer passed to tree_set_ival. -/
def slot_accessors (t : tree_t) (n : Nat) (v : Nat) (i : Int) : List (imask_t × (heap → Bool)) := [
  (I_IDENT, fun h => (tree_ident t h).succeeds),
  (I_IDENT, fun h => (tree_has_ident t h).succeeds),
  (I_IDENT, fun h => (tree_set_ident t v h).succeeds),
  (I_IDENT2, fun h => (tree_ident2 t h).succeeds),
  (I_IDENT2, fun h => (tree_set_ident2 t v h).succeeds),
  (I_IDENT2, fun h => (tree_has_ident2 t h).succeeds),
  (I_PORTS, fun h => (tree_ports t h).succeeds),
  (I_PORTS, fun h => (tree_port t n h).succeeds),
  (I_PORTS, fun h => (tree_add_port t v h).succeeds),
  (I_SUBKIND, fun h => (tree_subkind t h).succeeds),
  (I_SUBKIND, fun h => (tree_set_subkind t v h).succeeds),
  (I_GENERICS, fun h => (tree_generics t h).succeeds),
  (I_GENERICS, fun h => (tree_generic t n h).succeeds),
  (I_GENERICS, fun h => (tree_add_generic t v h).succeeds),
  (I_TYPE, fun h => (tree_type t h).succeeds),
  (I_TYPE, fun h => (tree_set_type t v h).succeeds),
  (I_TYPE, fun h => (tree_has_type t h).succeeds),
  (I_PARAMS, fun h => (tree_params t h).succeeds),
  (I_PARAMS, fun h => (tree_param t n h).succeeds),
  (I_PARAMS, fun h => (tree_add_param t v h).succeeds),
  (I_VALUE, fun h => (tree_value t h).succeeds),
  (I_GENMAPS, fun h => (tree_genmaps t h).succeeds),
  (I_GENMAPS, fun h => (tree_genmap t n h).succeeds),
  (I_GENMAPS, fun h => (tree_add_genmap t v h).succeeds),
  (I_IVAL, fun h => (tree_ival t h).succeeds),
  (I_IVAL, fun h => (tree_set_ival t i h).succeeds),
  (I_DVAL, fun h => (tree_dval t h).succeeds),
  (I_DVAL, fun h => (tree_set_dval t v h).succeeds),
  (I_FLAGS, fun h => (tree_flags t h).succeeds),
  (I_FLAGS, fun h => (tree_set_flag t v h).succeeds),
  (I_FLAGS, fun h => (tree_clear_flag t v h).succeeds),
  (I_EOPT, fun h => (tree_eopt t h).succeeds),
  (I_EOPT, fun h => (tree_set_eopt t v h).succeeds),
  (I_PRIMARY, fun h => (tree_primary t h).succeeds),
  (I_PRIMARY, fun h => (tree_has_primary t h).succeeds),
  (I_PRIMARY, fun h => (tree_set_primary t v h).succeeds),
  (I_CHARS, fun h => (tree_chars t h).succeeds),
  (I_CHARS, fun h => (tree_char t n h).succeeds),
  (I_CHARS, fun h => (tree_add_char t v h).succeeds),
  (I_VALUE, fun h => (tree_has_value t h).succeeds),
  (I_VALUE, fun h => (tree_set_value t v h).succeeds),
  (I_DECLS, fun h => (tree_decls t h).succeeds),
  (I_DECLS, fun h => (tree_decl t n h).succeeds),
  (I_DECLS, fun h => (tree_add_decl t v h).succeeds),
  (I_DECLS, fun h => (tree_insert_decl t n v h).succeeds),
  (I_STMTS, fun h => (tree_stmts t h).succeeds),
  (I_STMTS, fun h => (tree_stmt t n h).succeeds),
  (I_STMTS, fun h => (tree_add_stmt t v h).succeeds),
  (I_WAVES, fun h => (tree_waveforms t h).succeeds),
  (I_WAVES, fun h => (tree_waveform t n h).succeeds),
  (I_WAVES, fun h => (tree_add_waveform t v h).succeeds),
  (I_ELSES, fun h => (tree_else_stmts t h).succeeds),
  (I_ELSES, fun h => (tree_else_stmt t n h).succeeds),
  (I_ELSES, fun h => (tree_add_else_stmt t v h).succeeds),
  (I_CONDS, fun h => (tree_conds t h).succeeds),
  (I_CONDS, fun h => (tree_cond t n h).succeeds),
  (I_CONDS, fun h => (tree_add_cond t v h).succeeds),
  (I_DELAY, fun h => (tree_has_delay t h).succeeds),
  (I_DELAY, fun h => (tree_delay t h).succeeds),
  (I_DELAY, fun h => (tree_set_delay t v h).succeeds),
  (I_TRIGGERS, fun h => (tree_triggers t h).succeeds),
  (I_TRIGGERS, fun h => (tree_trigger t n h).succeeds),
  (I_TRIGGERS, fun h => (tree_add_trigger t v h).succeeds),
  (I_TARGET, fun h => (tree_target t h).succeeds),
  (I_TARGET, fun h => (tree_set_target t v h).succeeds),
  (I_REF, fun h => (tree_ref t h).succeeds),
  (I_REF, fun h => (tree_has_ref t h).succeeds),
  (I_REF, fun h => (tree_set_ref t v h).succeeds),
  (I_SPEC, fun h => (tree_spec t h).succeeds),
  (I_SPEC, fun h => (tree_has_spec t h).succeeds),
  (I_SPEC, fun h => (tree_set_spec t v h).succeeds),
  (I_CONTEXT, fun h => (tree_contexts t h).succeeds),
  (I_CONTEXT, fun h => (tree_context t n h).succeeds),
  (I_CONTEXT, fun h => (tree_add_context t v h).succeeds),
  (I_ASSOCS, fun h => (tree_assocs t h).succeeds),
  (I_ASSOCS, fun h => (tree_assoc t n h).succeeds),
  (I_ASSOCS, fun h => (tree_add_assoc t v h).succeeds),
  (I_SEVERITY, fun h => (tree_severity t h).succeeds),
  (I_SEVERITY, fun h => (tree_set_severity t v h).succeeds),
  (I_MESSAGE, fun h => (tree_message t h).succeeds),
  (I_MESSAGE, fun h => (tree_has_message t h).succeeds),
  (I_MESSAGE, fun h => (tree_set_message t v h).succeeds),
  (I_RANGES, fun h => (tree_add_range t v h).succeeds),
  (I_RANGES, fun h => (tree_range t n h).succeeds),
  (I_RANGES, fun h => (tree_ranges t h).succeeds),
  (I_POS, fun h => (tree_pos t h).succeeds),
  (I_POS, fun h => (tree_set_pos t v h).succeeds),
  (I_LEFT, fun h => (tree_left t h).succeeds),
  (I_LEFT, fun h => (tree_set_left t v h).succeeds),
  (I_RIGHT, fun h => (tree_right t h).succeeds),
  (I_RIGHT, fun h => (tree_set_right t v h).succeeds),
  (I_CLASS, fun h => (tree_class t h).succeeds),
  (I_CLASS, fun h => (tree_set_class t v h).succeeds),
  (I_REJECT, fun h => (tree_reject t h).succeeds),
  (I_REJECT, fun h => (tree_set_reject t v h).succeeds),
  (I_REJECT, fun h => (tree_has_reject t h).succeeds),
  (I_GUARD, fun h => (tree_guard t h).succeeds),
  (I_GUARD, fun h => (tree_set_guard t v h).succeeds),
  (I_GUARD, fun h => (tree_has_guard t h).succeeds),
  (I_NAME, fun h => (tree_name t h).succeeds),
  (I_NAME, fun h => (tree_set_name t v h).succeeds),
  (I_NAME, fun h => (tree_has_name t h).succeeds),
  (I_FILE_MODE, fun h => (tree_file_mode t h).succeeds),
  (I_FILE_MODE, fun h => (tree_set_file_mode t v h).succeeds)
]

/-! ## Arenas, generations and traversal (object.c) and their callers in tree.c -/

/-- The state itself, for an operation that reads it. -/
def get_state : M heap := fun h => outcome.ok h h

/-- Reading the variable global_arena of tree.c. -/
def get_global_arena : M Nat := fun h => outcome.ok h.global_arena h

/-- Assigning the variable global_arena of tree.c. -/
def set_global_arena (a : Nat) : M Unit := fun h => outcome.ok () { h with global_arena := a }

/-- The arena number a exists. -/
def heap.is_arena (h : heap) (a : Nat) : Bool := decide (a ≠ NULL) && decide (a ≤ h.arenas.length)

/-- The arena number a exists and is frozen. -/
def heap.frozen (h : heap) (a : Nat) : Bool := h.is_arena a && h.arenas.getD (a - 1) false

/-- The arena number a exists and is not frozen: it is open. -/
def heap.unfrozen (h : heap) (a : Nat) : Bool := h.is_arena a && !h.arenas.getD (a - 1) false

/-- Modelled from the spec: object_arena_new of object.c (absent) establishes a new arena,
open and with no node in it.  The capacity hint and the standard passed by make_new_arena do
not enter the model. -/
def object_arena_new : M Nat := fun h =>
  outcome.ok (h.arenas.length + 1) { h with arenas := h.arenas ++ [false] }

/-- Modelled from the spec: object_arena_freeze of object.c (absent) marks the arena
immutable; it is idempotent. -/
def object_arena_freeze (a : Nat) : M Unit := fun h =>
  if h.is_arena a then outcome.ok () { h with arenas := h.arenas.set (a - 1) true }
  else outcome.fatal h

/-- Modelled from the spec: object_new of object.c (absent) creates a node of the given kind
inside the given arena, with no slot written; it is fatal when there is no such arena or the
arena is frozen. -/
def object_new (arena : Nat) (_cls : object_class_t) (kind : tree_kind_t) : M Nat := fun h =>
  if h.unfrozen arena then
    outcome.ok h.brk
      { h with
        objs := Function.update h.objs h.brk
                  (some { kind := kind, loc := 0, items := fun _ => item_zero }),
        arena_of := Function.update h.arena_of h.brk arena,
        brk := h.brk + 1 }
  else outcome.fatal h

/-- Modelled from the spec: object_arena of object.c (absent), the arena that holds an
object. -/
def object_arena (object : Nat) : M Nat := fun h => outcome.ok (h.arena_of object) h

/-- Modelled from the spec: object_write of object.c (absent) requires the arena of the node
to be frozen; the node handed over is recorded, the byte stream is not modelled. -/
def object_write (object : Nat) (_f : Nat) : M Unit := do
  let _ ← deref object
  assert ((← get_state).frozen ((← get_state).arena_of object) = true)
  fun h => outcome.ok () { h with written := h.written ++ [object] }

/-- Modelled from the spec: object_next_generation of object.c (absent) hands out the value
of the generation counter, a monotonically increasing integer, and increments it. -/
def object_next_generation : M Nat := fun h =>
  outcome.ok h.next_generation { h with next_generation := h.next_generation + 1 }

/-- The slots in the order of slot_t. -/
def all_slots : List slot_t := [
  slot_t.IDENT,
  slot_t.PORTS,
  slot_t.GENERICS,
  slot_t.CONTEXT,
  slot_t.DECLS,
  slot_t.STMTS,
  slot_t.IDENT2,
  slot_t.PRIMARY,
  slot_t.VALUE,
  slot_t.TYPE,
  slot_t.SUBKIND,
  slot_t.CLASS,
  slot_t.FLAGS,
  slot_t.PARAMS,
  slot_t.REF,
  slot_t.IVAL,
  slot_t.DVAL,
  slot_t.CHARS,
  slot_t.TRIGGERS,
  slot_t.DELAY,
  slot_t.TARGET,
  slot_t.WAVES,
  slot_t.REJECT,
  slot_t.POS,
  slot_t.EOPT,
  slot_t.ASSOCS,
  slot_t.SEVERITY,
  slot_t.MESSAGE,
  slot_t.NAME,
  slot_t.RANGES,
  slot_t.GENMAPS,
  slot_t.SPEC,
  slot_t.ELSES,
  slot_t.CONDS,
  slot_t.GUARD,
  slot_t.FILE_MODE,
  slot_t.LEFT,
  slot_t.RIGHT
]

/-- Modelled from the spec: the references of an object that a traversal follows: for every
slot of the schema of its kind the single reference and the elements of the array. -/
def object_t.refs (o : object_t) : List Nat :=
  (all_slots.map (fun s =>
    if has_map_at o.kind &&& slot_mask s ≠ 0 then
      (o.items (slot_mask s)).object :: (o.items (slot_mask s)).obj_array
    else [])).flatten

/-- Modelled from the spec: the walk of object_visit of object.c (absent) in postorder.  The
state is the last-visited generation of every address and the nodes done so far; a null
reference, an address without an object and a node whose last-visited generation is the
generation g of the walk are skipped; otherwise the node is stamped with g, its references are
walked and the node is done.  The first argument bounds the depth of the recursion. -/
def object_walk (objs : Nat → Option object_t) (g : Nat) :
    Nat → (Nat → Nat) × List Nat → Nat → (Nat → Nat) × List Nat
  | 0, s, _ => s
  | fuel + 1, s, x =>
    if x = NULL then s
    else
      match objs x with
      | none => s
      | some o =>
        if s.1 x = g then s
        else
          let s2 := o.refs.foldl (object_walk objs g fuel) (Function.update s.1 x g, s.2)
          (s2.1, s2.2 ++ [x])

/-- Modelled from the spec: object_visit_ctx_t of object.h (absent). -/
structure object_visit_ctx_t where
  count : Nat
  postorder : Nat
  preorder : Nat
  context : Nat
  kind : tree_kind_t
  generation : Nat
  deep : Bool

/-- The kind filter of a visit: the callback is called on a node of the kind of the context,
or on every node when that kind is the last kind of the class. -/
def visit_filter (objs : Nat → Option object_t) (ctx : object_visit_ctx_t) (x : Nat) : Bool :=
  match objs x with
  | some o => decide (o.kind = ctx.kind ∨ ctx.kind = tree_object.last_kind)
  | none => false

/-- Modelled from the spec: object_visit of object.c (absent), the generic postorder walk
that calls the callback of the context on each node reachable from the root, each node at most
once per call (tracked by the generation of the context), and counts the calls.  The spec does
not say what the field deep selects; every reference of the schema is followed. -/
def object_visit (fuel : Nat) (object : Nat) (ctx : object_visit_ctx_t) :
    M object_visit_ctx_t := fun h =>
  let s := object_walk h.objs ctx.generation fuel (h.marks, []) object
  let called := s.2.filter (visit_filter h.objs ctx)
  outcome.ok { ctx with count := ctx.count + called.length }
    { h with
      marks := s.1,
      traversals := h.traversals ++ [ctx.generation],
      callbacks := h.callbacks ++ called.map
        (fun x => { fn := ctx.postorder, generation := ctx.generation, object := x }) }

/-- Modelled from the spec: object_rewrite_ctx_t of object.h (absent). -/
structure object_rewrite_ctx_t where
  generation : Nat
  pre_fn : Nat
  post_fn : Nat
  context : Nat
  arena : Nat
  tag : Nat

/-- Modelled from the spec: object_rewrite of object.c (absent).  The call is recorded with
the generation of its context; what the callbacks do to the graph is not modelled and the root
is given back. -/
def object_rewrite (object : Nat) (ctx : object_rewrite_ctx_t) : M Nat := fun h =>
  outcome.ok object { h with traversals := h.traversals ++ [ctx.generation] }

/-- Modelled from the spec: object_copy_ctx_t of object.h (absent). -/
structure object_copy_ctx_t where
  generation : Nat
  should_copy : Nat
  context : Nat
  arena : Nat
  tag : Nat
  tree_callback : Nat
  type_callback : Nat

/-- Modelled from the spec: object_copy of object.c (absent).  The call is recorded with the
generation of its context; the cloning is not modelled and the root is given back. -/
def object_copy (object : Nat) (ctx : object_copy_ctx_t) : M Nat := fun h =>
  outcome.ok object { h with traversals := h.traversals ++ [ctx.generation] }

def tree_new (kind : tree_kind_t) : M tree_t := do
  object_new (← get_global_arena) tree_object kind

def tree_visit (fuel : Nat) (t : tree_t) (fn : Nat) (context : Nat) : M Nat := do
  assert (t ≠ NULL)
  let ctx : object_visit_ctx_t :=
    { count := 0,
      postorder := fn,
      preorder := NULL,
      context := context,
      kind := T_LAST_TREE_KIND,
      generation := (← object_next_generation),
      deep := false }
  let ctx ← object_visit fuel t ctx
  return ctx.count

def tree_visit_only (fuel : Nat) (t : tree_t) (fn : Nat) (context : Nat) (kind : tree_kind_t) :
    M Nat := do
  assert (t ≠ NULL)
  let ctx : object_visit_ctx_t :=
    { count := 0,
      postorder := fn,
      preorder := NULL,
      context := context,
      kind := kind,
      generation := (← object_next_generation),
      deep := false }
  let ctx ← object_visit fuel t ctx
  return ctx.count

def tree_write (t : tree_t) (f : Nat) : M Unit := do
  if (← get_global_arena) ≠ NULL then
    object_arena_freeze (← get_global_arena)
    set_global_arena NULL
  object_write t f

def tree_rewrite (t : tree_t) (pre_fn post_fn : Nat) (context : Nat) : M tree_t := do
  let ctx : object_rewrite_ctx_t :=
    { generation := (← object_next_generation),
      pre_fn := pre_fn,
      post_fn := post_fn,
      context := context,
      arena := (← get_global_arena),
      tag := object_h.OBJECT_TAG_TREE }
  let result ← object_rewrite t ctx
  return container_of result

def tree_copy (t : tree_t) (pred : Nat) (tree_callback type_callback : Nat) (context : Nat) :
    M tree_t := do
  let ctx : object_copy_ctx_t :=
    { generation := (← object_next_generation),
      should_copy := pred,
      context := context,
      arena := (← get_global_arena),
      tag := object_h.OBJECT_TAG_TREE,
      tree_callback := tree_callback,
      type_callback := type_callback }
  object_copy t ctx

def make_new_arena : M Unit := do
  if (← get_global_arena) ≠ NULL then
    object_arena_freeze (← get_global_arena)
  set_global_arena (← object_arena_new)

def tree_arena (t : tree_t) : M Nat :=
  object_arena t

end

/-! ## Vocabulary of the statements -/

/-- The address t holds the object o. -/
def node (h : heap) (t : Nat) (o : object_t) : Prop := t ≠ NULL ∧ h.objs t = some o

/-- An operation that leaves the state as it is, whether it returns or terminates the
process. -/
def pure_read {α : Type} (x : M α) : Prop := ∀ h : heap, (x h).state = h

/-- The array held in a slot of an object. -/
def object_t.seq (o : object_t) (slot : imask_t) : List Nat := (o.items slot).obj_array

section
variable [object_h]

/-- The body shared by the indexed accessors of the sequence slots. -/
def nth_core (m : imask_t) (t : tree_t) (n : Nat) : M tree_t := do
  let item ← lookup_item tree_object t m
  tree_array_nth item n

/-- The part shared by the adders after their assertions: the append and the write barrier. -/
def add_core (m : imask_t) (t : tree_t) (x : tree_t) : M Unit := do
  tree_array_add (← lookup_item tree_object t m) x
  object_write_barrier t x

/-- The append, as tree_add_genmap does it. -/
def add_core_nb (m : imask_t) (t : tree_t) (x : tree_t) : M Unit := do
  tree_array_add (← lookup_item tree_object t m) x

end

/-- The update of an item by an append. -/
def push (x : Nat) : item_t → item_t := fun it => { it with obj_array := APUSH it.obj_array x }

/-- The state h1 differs from the state h, as far as the nodes go, at most in the slot m of
the node t: every other address holds what it held, and the node t has kept its kind, its
location and every other slot. -/
def touches_only (m : imask_t) (t : Nat) (h h1 : heap) : Prop :=
  (∀ p : Nat, p ≠ t → h1.objs p = h.objs p) ∧
  (h.objs t = none → h1.objs t = none) ∧
  (∀ o : object_t, h.objs t = some o →
    ∃ o1 : object_t, h1.objs t = some o1 ∧ o1.kind = o.kind ∧ o1.loc = o.loc ∧
      ∀ m1 : imask_t, m1 ≠ m → o1.items m1 = o.items m1)

/-- The pairs of change_allowed whose new kind has every slot of the old kind. -/
def superset_retags : List (Int × Int) := [
  ( T_REF, T_FCALL),
  ( T_ASSERT, T_CASSERT),
  ( T_DESIGN_UNIT, T_ENTITY),
  ( T_DESIGN_UNIT, T_PACKAGE),
  ( T_DESIGN_UNIT, T_PACK_BODY),
  ( T_DESIGN_UNIT, T_ARCH),
  ( T_DESIGN_UNIT, T_CONTEXT),
  ( T_FUNC_DECL, T_FUNC_BODY),
  ( T_PROC_DECL, T_PROC_BODY),
  ( T_PCALL, T_CPCALL),
  ( T_FCALL, T_PROT_FCALL),
  ( T_PCALL, T_PROT_PCALL)
]

/-! ## States for evaluation -/

/-- An assignment of bits to slots for evaluation: every slot takes the bit of its number in
the order of slot_t. -/
def sample_bits : object_h where
  bit := fun s => s.toCtorIdx
  bit_inj := by
    intro a b hab
    have h1 := congrArg slot_t.ofNat hab
    simpa [slot_t.ofNat_toCtorIdx] using h1
  bit_lt := by
    intro a
    cases a <;> decide
  L_STRING := 3
  L_STRING_lt := by decide
  OBJECT_TAG_TREE := 0

/-- A fresh object of a kind: no slot was written. -/
def sample_obj (k : tree_kind_t) : object_t :=
  { kind := k, loc := 0, items := fun _ => item_zero }

/-- The state with fresh objects of the listed kinds at the addresses 1, 2, ... and no call
of object_write_barrier made yet. -/
def sample_heap (ks : List tree_kind_t) : heap :=
  { objs := fun p => if p = 0 then none else (ks.get? (p - 1)).map sample_obj,
    barriers := [],
    brk := ks.length + 1 }

/-- The state in which the T_PARAM node 2 has the T_REF node 3 as its value; node 1 is a
T_INSTANCE. -/
def genmap_state : heap :=
  (@tree_set_value sample_bits 2 3 (sample_heap [T_INSTANCE, T_PARAM, T_REF])).state

/-- The schema of every kind as a list of slots, in the order of has_map; it is shown below
to be the table has_map read bit by bit, and serves to decide facts about has_map for every
assignment of bits to slots. -/
def schema : List (List slot_t) := [
  [slot_t.IDENT, slot_t.PORTS, slot_t.GENERICS, slot_t.CONTEXT, slot_t.DECLS, slot_t.STMTS],
  [slot_t.IDENT, slot_t.IDENT2, slot_t.DECLS, slot_t.STMTS, slot_t.CONTEXT, slot_t.PRIMARY],
  [slot_t.IDENT, slot_t.VALUE, slot_t.TYPE, slot_t.SUBKIND, slot_t.CLASS, slot_t.FLAGS],
  [slot_t.IDENT, slot_t.PARAMS, slot_t.TYPE, slot_t.REF, slot_t.FLAGS],
  [slot_t.SUBKIND, slot_t.TYPE, slot_t.IVAL, slot_t.DVAL, slot_t.CHARS, slot_t.FLAGS, slot_t.IDENT, slot_t.REF],
  [slot_t.IDENT, slot_t.VALUE, slot_t.TYPE, slot_t.FLAGS, slot_t.IDENT2],
  [slot_t.IDENT, slot_t.VALUE, slot_t.TYPE, slot_t.FLAGS, slot_t.IDENT2],
  [slot_t.IDENT, slot_t.DECLS, slot_t.STMTS, slot_t.TRIGGERS, slot_t.FLAGS],
  [slot_t.IDENT, slot_t.TYPE, slot_t.REF, slot_t.FLAGS],
  [slot_t.IDENT, slot_t.VALUE, slot_t.DELAY, slot_t.TRIGGERS, slot_t.FLAGS],
  [slot_t.IDENT, slot_t.TYPE],
  [slot_t.IDENT, slot_t.VALUE, slot_t.TARGET],
  [slot_t.IDENT, slot_t.DECLS, slot_t.CONTEXT],
  [slot_t.IDENT, slot_t.TARGET, slot_t.WAVES, slot_t.REJECT],
  [slot_t.IDENT, slot_t.VALUE, slot_t.TYPE],
  [slot_t.IDENT, slot_t.TYPE, slot_t.POS],
  [slot_t.IDENT, slot_t.VALUE, slot_t.TYPE, slot_t.FLAGS, slot_t.IDENT2],
  [slot_t.IDENT, slot_t.PORTS, slot_t.TYPE, slot_t.FLAGS, slot_t.IDENT2, slot_t.SUBKIND],
  [slot_t.IDENT, slot_t.DECLS, slot_t.STMTS, slot_t.CONTEXT, slot_t.EOPT],
  [slot_t.TYPE, slot_t.ASSOCS, slot_t.FLAGS],
  [slot_t.IDENT, slot_t.VALUE, slot_t.SEVERITY, slot_t.MESSAGE],
  [slot_t.NAME, slot_t.VALUE, slot_t.IDENT, slot_t.PARAMS, slot_t.TYPE, slot_t.SUBKIND],
  [slot_t.VALUE, slot_t.PARAMS, slot_t.TYPE, slot_t.FLAGS],
  [slot_t.VALUE, slot_t.TYPE, slot_t.RANGES],
  [slot_t.IDENT, slot_t.IDENT2, slot_t.PARAMS, slot_t.GENMAPS, slot_t.REF, slot_t.CLASS, slot_t.SPEC],
  [slot_t.IDENT, slot_t.VALUE, slot_t.STMTS, slot_t.ELSES],
  [slot_t.IDENT],
  [slot_t.IDENT, slot_t.DECLS, slot_t.CONTEXT, slot_t.PRIMARY],
  [slot_t.IDENT, slot_t.DECLS, slot_t.STMTS, slot_t.PORTS, slot_t.TYPE, slot_t.FLAGS, slot_t.IDENT2, slot_t.SUBKIND],
  [slot_t.IDENT, slot_t.VALUE],
  [slot_t.IDENT, slot_t.TARGET, slot_t.CONDS, slot_t.GUARD],
  [slot_t.IDENT, slot_t.VALUE, slot_t.STMTS],
  [slot_t.VALUE, slot_t.DELAY],
  [slot_t.IDENT, slot_t.VALUE, slot_t.TYPE, slot_t.IDENT2],
  [slot_t.IDENT, slot_t.STMTS, slot_t.RANGES, slot_t.DECLS],
  [slot_t.IDENT, slot_t.TYPE],
  [slot_t.IDENT, slot_t.VALUE, slot_t.IDENT2, slot_t.CLASS, slot_t.REF],
  [slot_t.IDENT, slot_t.PORTS, slot_t.TYPE, slot_t.FLAGS, slot_t.IDENT2, slot_t.SUBKIND],
  [slot_t.IDENT, slot_t.DECLS, slot_t.STMTS, slot_t.PORTS, slot_t.TYPE, slot_t.FLAGS, slot_t.IDENT2, slot_t.SUBKIND],
  [slot_t.IDENT, slot_t.VALUE, slot_t.IDENT2],
  [slot_t.IDENT, slot_t.IDENT2, slot_t.PARAMS, slot_t.REF],
  [slot_t.IDENT, slot_t.VALUE, slot_t.ASSOCS],
  [slot_t.IDENT, slot_t.DECLS, slot_t.STMTS, slot_t.PORTS, slot_t.GENERICS, slot_t.PARAMS, slot_t.GENMAPS],
  [slot_t.VALUE, slot_t.WAVES, slot_t.REJECT],
  [slot_t.VALUE, slot_t.TYPE, slot_t.FLAGS],
  [slot_t.IDENT, slot_t.VALUE, slot_t.ASSOCS, slot_t.GUARD],
  [slot_t.IDENT, slot_t.PORTS, slot_t.GENERICS],
  [slot_t.IDENT, slot_t.VALUE, slot_t.DECLS, slot_t.STMTS],
  [slot_t.IDENT, slot_t.DECLS, slot_t.STMTS, slot_t.RANGES],
  [slot_t.IDENT, slot_t.VALUE, slot_t.TYPE, slot_t.FILE_MODE, slot_t.IDENT2],
  [slot_t.TYPE],
  [slot_t.IDENT, slot_t.TYPE, slot_t.POS],
  [slot_t.IDENT, slot_t.VALUE, slot_t.TYPE, slot_t.REF],
  [slot_t.VALUE, slot_t.TYPE],
  [slot_t.VALUE, slot_t.TYPE],
  [slot_t.IDENT, slot_t.VALUE, slot_t.SEVERITY, slot_t.MESSAGE, slot_t.FLAGS],
  [slot_t.IDENT, slot_t.IDENT2, slot_t.PARAMS, slot_t.REF],
  [slot_t.IDENT, slot_t.VALUE, slot_t.TYPE],
  [slot_t.IDENT, slot_t.VALUE, slot_t.IDENT2],
  [slot_t.IDENT, slot_t.TYPE, slot_t.FLAGS],
  [slot_t.VALUE, slot_t.POS, slot_t.SUBKIND, slot_t.NAME],
  [slot_t.VALUE, slot_t.POS, slot_t.NAME, slot_t.RANGES, slot_t.SUBKIND],
  [slot_t.IDENT, slot_t.IDENT2, slot_t.REF],
  [slot_t.IDENT, slot_t.SUBKIND, slot_t.IDENT2],
  [slot_t.IDENT, slot_t.IDENT2, slot_t.VALUE, slot_t.REF, slot_t.DECLS],
  [slot_t.PARAMS, slot_t.GENMAPS, slot_t.IDENT, slot_t.IDENT2, slot_t.CLASS, slot_t.REF],
  [slot_t.IDENT, slot_t.IDENT2],
  [slot_t.CONTEXT],
  [slot_t.IDENT, slot_t.IDENT2, slot_t.DECLS, slot_t.PRIMARY],
  [slot_t.IDENT, slot_t.TYPE, slot_t.DECLS],
  [slot_t.CONTEXT, slot_t.IDENT],
  [slot_t.IDENT, slot_t.REF],
  [slot_t.SUBKIND, slot_t.RANGES],
  [slot_t.DECLS, slot_t.IDENT, slot_t.VALUE, slot_t.RANGES, slot_t.REF],
  [slot_t.IDENT, slot_t.PARAMS, slot_t.TYPE, slot_t.REF, slot_t.FLAGS, slot_t.NAME],
  [slot_t.IDENT, slot_t.IDENT2, slot_t.PARAMS, slot_t.REF, slot_t.NAME],
  [slot_t.SUBKIND, slot_t.VALUE, slot_t.LEFT, slot_t.RIGHT, slot_t.TYPE],
  [slot_t.IDENT, slot_t.TYPE, slot_t.SUBKIND, slot_t.VALUE, slot_t.FLAGS],
  [slot_t.IDENT, slot_t.REF, slot_t.TYPE, slot_t.DELAY],
  [slot_t.IDENT],
  [slot_t.IDENT, slot_t.REF],
  [slot_t.IDENT, slot_t.TYPE]
]

/-- The mask with the bits of the listed slots. -/
def mask_of [object_h] (l : List slot_t) : imask_t :=
  l.foldr (fun s m => slot_mask s ||| m) 0

/-! ## Sequences of calls -/

/-- The calls of a list made one after the other; the process stops at the first call that
terminates it. -/
def run_all {c : Type} (run : c → M Unit) : List c → M Unit
  | [] => pure ()
  | x :: xs => do
    run x
    run_all run xs

/-- Every address of the list holds a node of one of the kinds. -/
def list_ok (h : heap) (kinds : List tree_kind_t) (xs : List Nat) : Prop :=
  ∀ x ∈ xs, ∃ ox : object_t, node h x ox ∧ ox.kind ∈ kinds

section
variable [object_h]

/-- The slots whose elements are statements or declarations, each with the kinds that
tree_add_stmt, tree_add_else_stmt, tree_add_decl, tree_insert_decl, tree_add_port and
tree_add_generic assert of the element. -/
def kinded_slots : List (imask_t × List tree_kind_t) := [
  (I_STMTS, stmt_kinds),
  (I_ELSES, stmt_kinds),
  (I_DECLS, decl_kinds),
  (I_PORTS, decl_kinds),
  (I_GENERICS, decl_kinds)
]

/-- Every element stored in a statements or else-statements array is a node of a statement
kind, and every element stored in a declarations, ports or generics array is a node of a
declaration kind. -/
def well_kinded (h : heap) : Prop :=
  ∀ (t : Nat) (o : object_t), node h t o → ∀ p ∈ kinded_slots, list_ok h p.2 (o.seq p.1)

/-- A call of one of the operations that fill the statement and declaration sequences, or of
tree_change_kind. -/
inductive list_call where
  | add_stmt (t s : tree_t)
  | add_else_stmt (t s : tree_t)
  | add_decl (t d : tree_t)
  | insert_decl (t : tree_t) (pos : Nat) (d : tree_t)
  | add_port (t d : tree_t)
  | add_generic (t d : tree_t)
  | change_kind (t : tree_t) (kind : tree_kind_t)

def list_call.run : list_call → M Unit
  | list_call.add_stmt t s => tree_add_stmt t s
  | list_call.add_else_stmt t s => tree_add_else_stmt t s
  | list_call.add_decl t d => tree_add_decl t d
  | list_call.insert_decl t pos d => tree_insert_decl t pos d
  | list_call.add_port t d => tree_add_port t d
  | list_call.add_generic t d => tree_add_generic t d
  | list_call.change_kind t kind => tree_change_kind t kind

end

/-! ## Sequences of arena calls -/

section
variable [object_h]

/-- A call of make_new_arena, tree_new or tree_write. -/
inductive arena_call where
  | new_arena
  | new (kind : tree_kind_t)
  | write (t : tree_t) (f : Nat)

def arena_call.run : arena_call → M Unit
  | arena_call.new_arena => make_new_arena
  | arena_call.new kind => do
    let _ ← tree_new kind
    return ()
  | arena_call.write t f => tree_write t f

end

/-- The number of arenas that are not frozen. -/
def heap.open_arenas (h : heap) : Nat := h.arenas.count false

/-- The arenas are frozen up to the last one, which is the current arena when there is a
current arena and is frozen as well when there is none. -/
def arena_inv (h : heap) : Prop :=
  ∃ n : Nat, (h.arenas = List.replicate n true ∧ h.global_arena = NULL) ∨
    (h.arenas = List.replicate n true ++ [false] ∧ h.global_arena = n + 1)

/-- Every node is held by an arena. -/
def owned (h : heap) : Prop :=
  ∀ p : Nat, h.objs p ≠ none → h.is_arena (h.arena_of p) = true

/-- The state of a process that has made no call yet: no node, no arena, no current arena. -/
def initial_state : heap :=
  { objs := fun _ => none, barriers := [] }

/-- The state in which tree_write hands the node to object_write: the current arena, if there
was one, is frozen and there is no current arena. -/
def heap.freeze_current (h : heap) : heap :=
  if h.global_arena ≠ NULL then
    { h with arenas := h.arenas.set (h.global_arena - 1) true, global_arena := NULL }
  else h

/-! ## Sequences of traversal calls -/

section
variable [object_h]

/-- A call of tree_visit, tree_visit_only, tree_rewrite or tree_copy; the first argument of
the visits bounds the depth of the walk. -/
inductive traversal_call where
  | visit (fuel : Nat) (t : tree_t) (fn context : Nat)
  | visit_only (fuel : Nat) (t : tree_t) (fn context : Nat) (kind : tree_kind_t)
  | rewrite (t : tree_t) (pre_fn post_fn context : Nat)
  | copy (t : tree_t) (pred tree_callback type_callback context : Nat)

def traversal_call.run : traversal_call → M Unit
  | traversal_call.visit fuel t fn context => do
    let _ ← tree_visit fuel t fn context
    return ()
  | traversal_call.visit_only fuel t fn context kind => do
    let _ ← tree_visit_only fuel t fn context kind
    return ()
  | traversal_call.rewrite t pre_fn post_fn context => do
    let _ ← tree_rewrite t pre_fn post_fn context
    return ()
  | traversal_call.copy t pred tree_callback type_callback context => do
    let _ ← tree_copy t pred tree_callback type_callback context
    return ()

end

/-- The generations handed to the traversal engines so far are below the generation counter
and strictly increasing in the order of the calls. -/
def generations_fresh (h : heap) : Prop :=
  (∀ g ∈ h.traversals, g < h.next_generation) ∧ h.traversals.Pairwise (fun a b => a < b)

/-- What a traversal call that returns does to the generation counter, to the log of
generations and to the log of callback calls: it takes the value of the counter and uses it
for the engine and for every call of the callback. -/
def takes_one (h h1 : heap) : Prop :=
  h1.next_generation = h.next_generation + 1 ∧
  h1.traversals = h.traversals ++ [h.next_generation] ∧
  ∃ new : List visit_call, h1.callbacks = h.callbacks ++ new ∧
    ∀ c ∈ new, c.generation = h.next_generation

/-! ## Reachability -/

section
variable [object_h]

/-- The node a refers to the node b: b is the single reference or an element of the array of
a slot of the schema of a. -/
def refers (objs : Nat → Option object_t) (a b : Nat) : Prop :=
  a ≠ NULL ∧ b ≠ NULL ∧ (∃ o : object_t, objs a = some o ∧ b ∈ o.refs) ∧ objs b ≠ none

/-- The node x is reachable from the node r along references. -/
def reaches (objs : Nat → Option object_t) (r x : Nat) : Prop :=
  Relation.ReflTransGen (refers objs) r x

/-- The relation between the state s of a walk of generation g before the addresses xs are
walked and the state s1 after: the stamps of generation g are kept; a node stamped in between
is a node reachable from a node of xs, every node it refers to is stamped, and it is done
exactly once in between; and the nodes of xs are stamped. -/
def walk_post (objs : Nat → Option object_t) (g : Nat) (s s1 : (Nat → Nat) × List Nat)
    (xs : List Nat) : Prop :=
  (∀ y : Nat, s.1 y = g → s1.1 y = g) ∧
  (∀ y : Nat, s1.1 y = g → s.1 y ≠ g →
    y ≠ NULL ∧ objs y ≠ none ∧ ∃ x ∈ xs, x ≠ NULL ∧ objs x ≠ none ∧ reaches objs x y) ∧
  (∀ x ∈ xs, x ≠ NULL → objs x ≠ none → s1.1 x = g) ∧
  (∀ y : Nat, s1.1 y = g → s.1 y ≠ g → ∀ z : Nat, refers objs y z → s1.1 z = g) ∧
  (∃ new : List Nat, s1.2 = s.2 ++ new ∧ new.Nodup ∧
    ∀ y : Nat, y ∈ new ↔ (s1.1 y = g ∧ s.1 y ≠ g)) ∧
  (∀ y : Nat, s1.1 y = s.1 y ∨ s1.1 y = g)

end

/-- The number of objects at the addresses below n that are not stamped with the
generation g. -/
def unmarked (objs : Nat → Option object_t) (g n : Nat) (m : Nat → Nat) : Nat :=
  ((Finset.range n).filter (fun p => (objs p).isSome = true ∧ m p ≠ g)).card

/-- A graph with sharing for evaluation: the T_PROCESS node 1 has the statements 2 and 3, two
T_IF nodes, and each of them has the T_NULL node 4 as its only statement, as after
tree_add_stmt of 4 to 2 and to 3 and of 2 and 3 to 1. -/
def diamond_state : heap :=
  { objs := fun p =>
      if p = 1 then
        some { kind := T_PROCESS, loc := 0,
               items := fun m =>
                 if m = @I_STMTS sample_bits then { item_zero with obj_array := [2, 3] }
                 else item_zero }
      else if p = 2 ∨ p = 3 then
        some { kind := T_IF, loc := 0,
               items := fun m =>
                 if m = @I_STMTS sample_bits then { item_zero with obj_array := [4] }
                 else item_zero }
      else if p = 4 then some (sample_obj T_NULL)
      else none,
    barriers := [(2, 4), (3, 4), (1, 2), (1, 3)],
    brk := 5 }

/-! ## Expression slots -/

/-- The expression kinds together with the three statement kinds that change_allowed lets an
expression kind change into. -/
def expr_or_call_kinds : List tree_kind_t :=
  expr_kinds ++ [T_PCALL, T_CPCALL, T_PROT_PCALL]

/-- The pairs of change_allowed that take an expression kind to an expression kind. -/
def expr_retags : List (Int × Int) := [
  ( T_REF, T_FCALL),
  ( T_ARRAY_REF, T_FCALL),
  ( T_FCALL, T_ARRAY_REF),
  ( T_FCALL, T_TYPE_CONV),
  ( T_REF, T_TYPE_CONV),
  ( T_REF, T_RECORD_REF),
  ( T_REF, T_QUALIFIED),
  ( T_ARRAY_REF, T_ARRAY_SLICE),
  ( T_REF, T_ARRAY_SLICE),
  ( T_ATTR_REF, T_ARRAY_REF),
  ( T_FCALL, T_PROT_FCALL)
]

/-- The pairs of change_allowed that take an expression kind to a statement kind. -/
def call_retags : List (Int × Int) := [
  ( T_REF, T_PCALL),
  ( T_FCALL, T_PCALL),
  ( T_FCALL, T_CPCALL),
  ( T_REF, T_CPCALL),
  ( T_PROT_FCALL, T_PROT_PCALL)
]

/-- The addresses held in an item: the single reference, unless it is null, and the elements
of the array. -/
def item_t.held (it : item_t) : List Nat :=
  (if it.object = NULL then [] else [it.object]) ++ it.obj_array

section
variable [object_h]

/-- The slots whose setter asserts that the node stored is an expression: tree_set_delay,
tree_set_severity, tree_set_message, tree_set_left, tree_set_right, tree_set_reject,
tree_set_name and tree_add_trigger. -/
def expr_slots : List imask_t :=
  [I_DELAY, I_SEVERITY, I_MESSAGE, I_LEFT, I_RIGHT, I_REJECT, I_NAME, I_TRIGGERS]

/-- Every address held in an expression slot of a node is a node of one of the kinds. -/
def expr_held (kinds : List tree_kind_t) (h : heap) : Prop :=
  ∀ (t : Nat) (o : object_t), node h t o → ∀ m ∈ expr_slots,
    list_ok h kinds (o.items m).held

/-- A call of one of the operations that store into an expression slot, or of
tree_change_kind. -/
inductive expr_call where
  | set_delay (t d : tree_t)
  | set_severity (t s : tree_t)
  | set_message (t m : tree_t)
  | set_left (t left : tree_t)
  | set_right (t right : tree_t)
  | set_reject (t r : tree_t)
  | set_name (t n : tree_t)
  | add_trigger (t s : tree_t)
  | change_kind (t : tree_t) (kind : tree_kind_t)

def expr_call.run : expr_call → M Unit
  | expr_call.set_delay t d => tree_set_delay t d
  | expr_call.set_severity t s => tree_set_severity t s
  | expr_call.set_message t m => tree_set_message t m
  | expr_call.set_left t left => tree_set_left t left
  | expr_call.set_right t right => tree_set_right t right
  | expr_call.set_reject t r => tree_set_reject t r
  | expr_call.set_name t n => tree_set_name t n
  | expr_call.add_trigger t s => tree_add_trigger t s
  | expr_call.change_kind t kind => tree_change_kind t kind

end

section
variable [object_h]

/-- The body shared by the getters of a single reference that assert it to be set
(tree_delay, tree_severity, ...), with the mask of the slot as a parameter. -/
def ref_core (m : imask_t) (t : tree_t) : M tree_t := do
  let item ← lookup_item tree_object t m
  assert ((← rd item item_t.object) ≠ NULL)
  return container_of (← rd item item_t.object)

/-- The node that a call stores, if it stores one. -/
def expr_call.stored : expr_call → Option tree_t
  | expr_call.set_delay _ d => some d
  | expr_call.set_severity _ s => some s
  | expr_call.set_message _ m => some m
  | expr_call.set_left _ left => some left
  | expr_call.set_right _ right => some right
  | expr_call.set_reject _ r => some r
  | expr_call.set_name _ n => some n
  | expr_call.add_trigger _ s => some s
  | expr_call.change_kind _ _ => none

end

set_option linter.unusedTactic false
set_option linter.unreachableTactic false
set_option linter.unusedSectionVars false

/-! ### Running operations -/

section
variable {α β : Type}

@[simp] theorem run_pure (a : α) (h : heap) : (pure a : M α) h = outcome.ok a h := rfl

@[simp] theorem run_bind (x : M α) (f : α → M β) (h : heap) :
    (x >>= f) h =
      (match x h with
       | outcome.ok a h1 => f a h1
       | outcome.fatal h1 => outcome.fatal h1) := rfl

@[simp] theorem run_fatal_trace (h : heap) : (fatal_trace : M α) h = outcome.fatal h := rfl

@[simp] theorem run_assert (c : Prop) [Decidable c] (h : heap) :
    assert c h = if c then outcome.ok () h else outcome.fatal h := rfl

@[simp] theorem succeeds_ok (a : α) (h : heap) : (outcome.ok a h).succeeds = true := rfl

@[simp] theorem succeeds_fatal (h : heap) : (outcome.fatal h : outcome α).succeeds = false := rfl

@[simp] theorem state_ok (a : α) (h : heap) : (outcome.ok a h).state = h := rfl

@[simp] theorem state_fatal (h : heap) : (outcome.fatal h : outcome α).state = h := rfl

@[simp] theorem value_ok (a : α) (h : heap) : (outcome.ok a h).value = some a := rfl

@[simp] theorem value_fatal (h : heap) : (outcome.fatal h : outcome α).value = none := rfl

end


theorem deref_ok {h : heap} {t : Nat} {o : object_t} (hn : node h t o) :
    deref t h = outcome.ok o h := by
  simp [deref, hn.1, hn.2]

theorem deref_state {h h1 : heap} {t : Nat} {o : object_t} (hd : deref t h = outcome.ok o h1) :
    h1 = h ∧ node h t o := by
  unfold deref at hd
  split at hd
  · cases hd
  · rename_i hne
    split at hd
    · rename_i o1 ho
      cases hd
      exact ⟨rfl, hne, ho⟩
    · cases hd

section
variable {α β : Type}

theorem run_ite (c : Prop) [Decidable c] (x y : M α) (h : heap) :
    (if c then x else y) h = if c then x h else y h := by
  split <;> rfl

theorem pure_read_pure (a : α) : pure_read (pure a : M α) := fun _ => rfl

theorem pure_read_fatal_trace : pure_read (fatal_trace : M α) := fun _ => rfl

theorem pure_read_assert (c : Prop) [Decidable c] : pure_read (assert c) := by
  intro h
  simp only [run_assert]
  split <;> rfl

theorem pure_read_deref (t : Nat) : pure_read (deref t) := by
  intro h
  unfold deref
  split
  · rfl
  · split <;> rfl

theorem pure_read_bind {x : M α} {f : α → M β} (hx : pure_read x) (hf : ∀ a, pure_read (f a)) :
    pure_read (x >>= f) := by
  intro h
  have h1 := hx h
  simp only [run_bind]
  cases hxh : x h with
  | ok a h2 =>
    rw [hxh] at h1
    simp only [state_ok] at h1
    subst h1
    exact hf a _
  | fatal h2 =>
    rw [hxh] at h1
    simpa using h1

theorem pure_read_ite (c : Prop) [Decidable c] {x y : M α} (hx : pure_read x) (hy : pure_read y) :
    pure_read (if c then x else y) := by
  split <;> assumption

/-- Peeling a state-preserving step off the front of an operation. -/
theorem peel (P : outcome β → Prop) {x : M α} {f : α → M β} {h : heap} (hx : pure_read x)
    (hfatal : P (outcome.fatal h)) (hf : ∀ a, P (f a h)) : P ((x >>= f) h) := by
  have h1 := hx h
  simp only [run_bind]
  cases hxh : x h with
  | ok a h2 =>
    rw [hxh] at h1
    simp only [state_ok] at h1
    subst h1
    exact hf a
  | fatal h2 =>
    rw [hxh] at h1
    simp only [state_fatal] at h1
    subst h1
    exact hfatal

theorem pure_read_rd (item : item_ref) (f : item_t → α) : pure_read (rd item f) :=
  pure_read_bind (pure_read_deref _) (fun _ => pure_read_pure _)

theorem pure_read_lookup_item (cls : object_class_t) (t : Nat) (m : imask_t) :
    pure_read (lookup_item cls t m) :=
  pure_read_bind (pure_read_deref _)
    (fun _ => pure_read_ite _ pure_read_fatal_trace (pure_read_pure _))

theorem pure_read_AGET (a : List Nat) (n : Nat) : pure_read (AGET a n) :=
  pure_read_bind (pure_read_assert _) (fun _ => pure_read_pure _)

theorem pure_read_tree_kind_in (t : tree_t) (l : List tree_kind_t) : pure_read (tree_kind_in t l) :=
  pure_read_bind (pure_read_deref _) (fun _ => pure_read_pure _)

theorem pure_read_tree_assert_kind (t : tree_t) (l : List tree_kind_t) (w : String) :
    pure_read (tree_assert_kind t l w) :=
  pure_read_bind (pure_read_tree_kind_in _ _)
    (fun _ => pure_read_ite _ pure_read_fatal_trace (pure_read_pure _))

theorem pure_read_tree_assert_stmt (t : tree_t) : pure_read (tree_assert_stmt t) :=
  pure_read_tree_assert_kind _ _ _

theorem pure_read_tree_assert_expr (t : tree_t) : pure_read (tree_assert_expr t) :=
  pure_read_tree_assert_kind _ _ _

theorem pure_read_tree_assert_decl (t : tree_t) : pure_read (tree_assert_decl t) :=
  pure_read_tree_assert_kind _ _ _

theorem pure_read_tree_kind (t : tree_t) : pure_read (tree_kind t) :=
  pure_read_bind (pure_read_assert _)
    (fun _ => pure_read_bind (pure_read_deref _) (fun _ => pure_read_pure _))

end

section
variable [object_h]

theorem pure_read_tree_value (t : tree_t) : pure_read (tree_value t) :=
  pure_read_bind (pure_read_lookup_item _ _ _)
    (fun _ => pure_read_bind (pure_read_rd _ _)
      (fun _ => pure_read_bind (pure_read_assert _)
        (fun _ => pure_read_bind (pure_read_rd _ _) (fun _ => pure_read_pure _))))

theorem pure_read_tree_subkind (t : tree_t) : pure_read (tree_subkind t) :=
  pure_read_bind (pure_read_lookup_item _ _ _)
    (fun _ => pure_read_bind (pure_read_rd _ _) (fun _ => pure_read_pure _))

theorem pure_read_assert_string_literal (t : tree_t) : pure_read (assert_string_literal t) :=
  pure_read_bind (pure_read_deref _)
    (fun _ => pure_read_ite _
      (pure_read_bind (pure_read_tree_subkind _) (fun _ => pure_read_assert _))
      (pure_read_assert _))

theorem lookup_item_ok {h : heap} {t : Nat} {o : object_t} (hn : node h t o) {m : imask_t}
    (hm : has_map_at o.kind &&& m ≠ 0) :
    lookup_item tree_object t m h = outcome.ok { obj := t, slot := m } h := by
  simp only [lookup_item, run_bind, deref_ok hn, tree_object]
  have hm1 : ¬ (has_map.getD o.kind 0 &&& m = 0) := hm
  rw [if_neg hm1]
  rfl

theorem lookup_item_fatal {h : heap} {t : Nat} {o : object_t} (hn : node h t o) {m : imask_t}
    (hm : has_map_at o.kind &&& m = 0) :
    lookup_item tree_object t m h = outcome.fatal h := by
  simp only [lookup_item, run_bind, deref_ok hn, tree_object]
  have hm1 : (has_map.getD o.kind 0 &&& m = 0) := hm
  rw [if_pos hm1]
  rfl

theorem lookup_item_fails {β : Type} {h : heap} {t : Nat} {o : object_t} (hn : node h t o)
    {m : imask_t} (hm : has_map_at o.kind &&& m = 0) (f : item_ref → M β) :
    ((lookup_item tree_object t m >>= f) h).succeeds = false := by
  simp only [run_bind, lookup_item_fatal hn hm, succeeds_fatal]

end

/-! ### Facts about masks -/

theorem ONE_HOT_eq (x : Nat) : ONE_HOT x = 2 ^ x := by
  simp [ONE_HOT, Nat.one_shiftLeft]

theorem ONE_HOT_ne_zero (x : Nat) : ONE_HOT x ≠ 0 := by
  rw [ONE_HOT_eq]
  exact Nat.pos_iff_ne_zero.mp (Nat.two_pow_pos x)

theorem lor_eq_zero_iff (a b : Nat) : a ||| b = 0 ↔ a = 0 ∧ b = 0 := by
  constructor
  · intro h
    constructor
    · apply Nat.eq_of_testBit_eq
      intro i
      have := congrArg (fun n => Nat.testBit n i) h
      simp only [Nat.testBit_or, Nat.zero_testBit, Bool.or_eq_false_iff] at this
      simpa using this.1
    · apply Nat.eq_of_testBit_eq
      intro i
      have := congrArg (fun n => Nat.testBit n i) h
      simp only [Nat.testBit_or, Nat.zero_testBit, Bool.or_eq_false_iff] at this
      simpa using this.2
  · rintro ⟨rfl, rfl⟩
    simp

theorem kind_text_map_all_ne_empty : ∀ n ∈ kind_text_map, n ≠ "" := by
  decide

theorem and_two_pow_eq_zero (x i : Nat) : x &&& 2 ^ i = 0 ↔ x.testBit i = false := by
  constructor
  · intro h
    have := congrArg (fun n => Nat.testBit n i) h
    simpa [Nat.testBit_two_pow_self] using this
  · intro h
    apply Nat.eq_of_testBit_eq
    intro j
    simp only [Nat.testBit_and, Nat.zero_testBit, Nat.testBit_two_pow]
    by_cases hij : i = j
    · subst hij
      simp [h]
    · simp [hij]

section
variable [object_h]

theorem slot_mask_eq (s : slot_t) : slot_mask s = 2 ^ object_h.bit s := ONE_HOT_eq _

theorem bit_eq_iff (a b : slot_t) : object_h.bit a = object_h.bit b ↔ a = b :=
  ⟨object_h.bit_inj a b, fun h => by rw [h]⟩

theorem testBit_mask_of (l : List slot_t) (j : Nat) :
    (mask_of l).testBit j = true ↔ ∃ s ∈ l, object_h.bit s = j := by
  induction l with
  | nil => simp [mask_of]
  | cons a l ih =>
    have : mask_of (a :: l) = slot_mask a ||| mask_of l := rfl
    rw [this, Nat.testBit_or, Bool.or_eq_true, ih, slot_mask_eq, Nat.testBit_two_pow]
    simp

theorem testBit_mask_of_bit (l : List slot_t) (s : slot_t) :
    (mask_of l).testBit (object_h.bit s) = true ↔ s ∈ l := by
  rw [testBit_mask_of]
  constructor
  · rintro ⟨s1, h1, h2⟩
    rw [(bit_eq_iff _ _).mp h2] at h1
    exact h1
  · intro h
    exact ⟨s, h, rfl⟩

theorem mask_of_and_slot (l : List slot_t) (s : slot_t) :
    mask_of l &&& slot_mask s ≠ 0 ↔ s ∈ l := by
  rw [slot_mask_eq, Ne, and_two_pow_eq_zero, Bool.not_eq_false, testBit_mask_of_bit]

theorem mask_of_and_slot_eq_zero (l : List slot_t) (s : slot_t) :
    mask_of l &&& slot_mask s = 0 ↔ s ∉ l := by
  rw [← mask_of_and_slot, not_not]

theorem mask_of_and_not (l1 l2 : List slot_t) :
    mask_of l1 &&& imask_not (mask_of l2) = 0 ↔ ∀ s ∈ l1, s ∈ l2 := by
  constructor
  · intro h s hs
    have h1 := congrArg (fun n => Nat.testBit n (object_h.bit s)) h
    simp only [imask_not, Nat.testBit_and, Nat.testBit_xor, Nat.testBit_two_pow_sub_one,
      Nat.zero_testBit, (testBit_mask_of_bit l1 s).mpr hs, object_h.bit_lt s, decide_True,
      Bool.true_and, Bool.true_xor, Bool.not_eq_false'] at h1
    exact (testBit_mask_of_bit l2 s).mp h1
  · intro h
    apply Nat.eq_of_testBit_eq
    intro j
    simp only [imask_not, Nat.testBit_and, Nat.testBit_xor, Nat.testBit_two_pow_sub_one,
      Nat.zero_testBit]
    cases h1 : (mask_of l1).testBit j with
    | false => simp
    | true =>
      obtain ⟨s, hs, hj⟩ := (testBit_mask_of l1 j).mp h1
      subst hj
      have h2 := (testBit_mask_of_bit l2 s).mpr (h s hs)
      simp [h2, object_h.bit_lt s]

theorem has_map_eq_schema : has_map = schema.map mask_of := by
  simp only [has_map, has_map_entries, schema, List.map, mask_of, List.foldr, Nat.or_zero,
    Nat.or_assoc]

theorem has_map_at_eq (k : tree_kind_t) : has_map_at k = mask_of (schema.getD k []) := by
  unfold has_map_at
  rw [has_map_eq_schema]
  by_cases hk : k < schema.length
  · rw [List.getD_eq_getElem _ _ (by simpa using hk), List.getD_eq_getElem _ _ hk]
    simp
  · rw [List.getD_eq_default _ _ (by simpa using hk), List.getD_eq_default _ _ (by simpa using hk)]
    rfl

theorem has_slot_iff (k : tree_kind_t) (s : slot_t) :
    has_map_at k &&& slot_mask s ≠ 0 ↔ s ∈ schema.getD k [] := by
  rw [has_map_at_eq, mask_of_and_slot]


theorem slot_mask_ne_zero (s : slot_t) : slot_mask s ≠ 0 := ONE_HOT_ne_zero _

theorem has_map_all_ne_zero : ∀ m ∈ has_map, m ≠ 0 := by
  simp [has_map, has_map_entries, lor_eq_zero_iff, slot_mask_ne_zero]

/-- C1: has_map and kind_text_map have T_LAST_TREE_KIND = 82 entries each, the kinds that
label the has_map initialisers are the names of kind_text_map in the same order, and for
every kind k below T_LAST_TREE_KIND the mask has_map[k] is non-zero and tree_kind_str k is a
non-empty name. -/
theorem schema_complete :
    T_LAST_TREE_KIND = 82 ∧
    has_map.length = T_LAST_TREE_KIND ∧
    kind_text_map.length = T_LAST_TREE_KIND ∧
    has_map_entries.map Prod.fst = kind_text_map ∧
    ∀ k : tree_kind_t, k < T_LAST_TREE_KIND →
      has_map_at k ≠ 0 ∧ tree_kind_str k ≠ "" ∧ 0 < (tree_kind_str k).length := by
  refine ⟨rfl, by simp [has_map, has_map_entries, T_LAST_TREE_KIND], rfl, ?_, ?_⟩
  · simp [has_map_entries, kind_text_map]
  · intro k hk
    have hlen : has_map.length = 82 := by simp [has_map, has_map_entries]
    have h1 : has_map_at k ∈ has_map := by
      unfold has_map_at
      rw [List.getD_eq_getElem _ _ (by rw [hlen]; exact hk)]
      exact List.getElem_mem _
    have h2 : tree_kind_str k ∈ kind_text_map := by
      unfold tree_kind_str
      rw [List.getD_eq_getElem _ _ (by exact hk)]
      exact List.getElem_mem _
    have h3 := kind_text_map_all_ne_empty _ h2
    refine ⟨has_map_all_ne_zero _ h1, h3, ?_⟩
    rcases hs : tree_kind_str k with ⟨l⟩
    cases l with
    | nil => exact absurd hs h3
    | cons c cs => simp [String.length]


end

/-! ### Reading and writing slots of a node -/

theorem rd_ok {α : Type} {h : heap} {t : Nat} {o : object_t} (hn : node h t o) (m : imask_t)
    (f : item_t → α) : rd { obj := t, slot := m } f h = outcome.ok (f (o.items m)) h := by
  simp only [rd, run_bind, deref_ok hn, run_pure]

theorem wr_ok {h : heap} {t : Nat} {o : object_t} (hn : node h t o) (m : imask_t)
    (f : item_t → item_t) :
    wr { obj := t, slot := m } f h = outcome.ok () (h.put { obj := t, slot := m } o f) := by
  simp only [wr, deref_ok hn]

theorem node_put {h : heap} {t : Nat} {o : object_t} (hn : node h t o) (m : imask_t)
    (f : item_t → item_t) : node (h.put { obj := t, slot := m } o f) t (o.upd m f) := by
  refine ⟨hn.1, ?_⟩
  simp [heap.put]

theorem node_put_ne {h : heap} {t t1 : Nat} {o o1 : object_t} (m : imask_t)
    (f : item_t → item_t) (hne : t1 ≠ t) :
    node (h.put { obj := t, slot := m } o f) t1 o1 ↔ node h t1 o1 := by
  simp [node, heap.put, Function.update_noteq hne]

theorem node_log {h : heap} {t : Nat} {o : object_t} (l r : Nat) :
    node (h.log l r) t o ↔ node h t o := Iff.rfl

@[simp] theorem upd_loc (o : object_t) (m : imask_t) (f : item_t → item_t) :
    (o.upd m f).loc = o.loc := rfl

@[simp] theorem upd_items_same (o : object_t) (m : imask_t) (f : item_t → item_t) :
    (o.upd m f).items m = f (o.items m) := by
  simp [object_t.upd]

theorem upd_items_ne (o : object_t) {m m1 : imask_t} (f : item_t → item_t) (hne : m1 ≠ m) :
    (o.upd m f).items m1 = o.items m1 := by
  simp [object_t.upd, Function.update_noteq hne]

@[simp] theorem run_object_write_barrier (l r : Nat) (h : heap) :
    object_write_barrier l r h = outcome.ok () (h.log l r) := rfl

theorem to_unsigned_lt (n : Nat) : to_unsigned n < 2 ^ 32 :=
  Nat.mod_lt _ (Nat.two_pow_pos 32)

theorem to_unsigned_of_lt {n : Nat} (hn : n < 2 ^ 32) : to_unsigned n = n :=
  Nat.mod_eq_of_lt hn

theorem ARESIZE_succ (a : List Nat) : ARESIZE a (a.length + 1) = a ++ [NULL] := by
  simp [ARESIZE, List.take_of_length_le]

theorem APUSH_eq (a : List Nat) (x : Nat) : APUSH a x = a ++ [x] := by
  unfold APUSH
  simp only [ARESIZE_succ]
  simp [List.set_append_right]

theorem insert_shift (a : List Nat) (pos d : Nat) (hp : pos < a.length) :
    (memmove (ARESIZE a (a.length + 1)) (pos + 1) pos
        ((ARESIZE a (a.length + 1)).length - 1 - pos)).set pos d
      = a.take pos ++ d :: a.drop pos := by
  rw [ARESIZE_succ]
  unfold memmove
  have e1 : (a ++ [NULL]).length - 1 - pos = a.length - pos := by simp
  have e2 : List.take (a.length - pos) (List.drop pos (a ++ [NULL])) = a.drop pos := by
    rw [List.drop_append_of_le_length (by omega), List.take_append_of_le_length (by simp)]
    simp
  simp only [e1, e2]
  have e3 : (a ++ [NULL]).drop (pos + 1 + (a.drop pos).length) = [] := by
    apply List.drop_of_length_le
    simp
    omega
  have e4 : (a ++ [NULL]).take (pos + 1) = a.take (pos + 1) := by
    rw [List.take_append_of_le_length (by omega)]
  rw [e3, e4, List.append_nil]
  have e5 : a.take (pos + 1) = a.take pos ++ [a[pos]] := by
    rw [List.take_succ]
    simp [List.getElem?_eq_getElem hp]
  rw [e5, List.append_assoc, List.set_append_right _ _ (by simp)]
  have e6 : pos - (a.take pos).length = 0 := by simp; omega
  rw [e6]
  simp

/-! ### Sequence slots -/

theorem tree_array_add_run {h : heap} {t : Nat} {o : object_t} (hn : node h t o)
    (m : imask_t) (x : tree_t) :
    tree_array_add { obj := t, slot := m } x h
      = outcome.ok () (h.put { obj := t, slot := m } o (push x)) := by
  simp only [tree_array_add, wr_ok hn]
  rfl

theorem tree_assert_kind_run {h : heap} {d : Nat} {od : object_t} (hd : node h d od)
    (l : List tree_kind_t) (w : String) :
    tree_assert_kind d l w h = if od.kind ∈ l then outcome.ok () h else outcome.fatal h := by
  simp only [tree_assert_kind, tree_kind_in, run_bind, deref_ok hd, run_pure, run_ite,
    run_fatal_trace]
  by_cases hk : od.kind ∈ l
  · have : (l.any fun k => decide (od.kind = k)) = true := by
      simp only [List.any_eq_true, decide_eq_true_eq]
      exact ⟨_, hk, rfl⟩
    simp [this, hk]
  · have : (l.any fun k => decide (od.kind = k)) = false := by
      rw [Bool.eq_false_iff]
      simp only [ne_eq, List.any_eq_true, decide_eq_true_eq, not_exists, not_and]
      intro k hk1 hk2
      exact hk (hk2 ▸ hk1)
    simp [this, hk]

theorem tree_array_insert_run {h : heap} {t : Nat} {o : object_t} (hn : node h t o)
    (m : imask_t) (pos : Nat) (d : tree_t) (h32 : pos < 2 ^ 32)
    (hp : pos ≤ (o.seq m).length) :
    ∃ h1 o1, tree_array_insert { obj := t, slot := m } pos d h = outcome.ok () h1 ∧
      node h1 t o1 ∧ o1.kind = o.kind ∧ h1.barriers = h.barriers ∧
      o1.seq m = (o.seq m).take pos ++ d :: (o.seq m).drop pos := by
  have hp1 : pos ≤ (o.items m).obj_array.length := hp
  have e32 : to_unsigned pos = pos := to_unsigned_of_lt h32
  by_cases he : pos = (o.items m).obj_array.length
  · refine ⟨_, _, ?_, node_put hn m (push d), rfl, rfl, ?_⟩
    · simp only [tree_array_insert, e32, run_bind, rd_ok hn, run_assert, if_pos hp1, run_ite,
        if_pos he, wr_ok hn]
      rfl
    · simp only [object_t.seq, upd_items_same, push, APUSH_eq, he]
      simp
  · have hlt : pos < (o.items m).obj_array.length := by omega
    have hn1 := node_put hn m
      (fun it => { it with obj_array := ARESIZE it.obj_array (it.obj_array.length + 1) })
    have hn2 := node_put hn1 m
      (fun it =>
        { it with obj_array :=
                    memmove it.obj_array (pos + 1) pos (it.obj_array.length - 1 - pos) })
    have hn3 := node_put hn2 m (fun it => { it with obj_array := it.obj_array.set pos d })
    refine ⟨_, _, ?_, hn3, rfl, rfl, ?_⟩
    · simp only [tree_array_insert, e32, run_bind, rd_ok hn, run_assert, if_pos hp1, run_ite,
        if_neg he, wr_ok hn, wr_ok hn1, wr_ok hn2]
    · simp only [object_t.seq, upd_items_same]
      exact insert_shift _ pos d hlt

theorem tree_array_insert_fatal {h : heap} {t : Nat} {o : object_t} (hn : node h t o)
    (m : imask_t) (pos : Nat) (d : tree_t) (h32 : pos < 2 ^ 32)
    (hp : ¬ pos ≤ (o.seq m).length) :
    tree_array_insert { obj := t, slot := m } pos d h = outcome.fatal h := by
  have hp1 : ¬ pos ≤ (o.items m).obj_array.length := hp
  have e32 : to_unsigned pos = pos := to_unsigned_of_lt h32
  simp only [tree_array_insert, e32, run_bind, rd_ok hn, run_assert, if_neg hp1]

section
variable [object_h]

theorem lookup_item_inv {h h1 : heap} {t : Nat} {m : imask_t} {r : item_ref}
    (hl : lookup_item tree_object t m h = outcome.ok r h1) :
    h1 = h ∧ r = { obj := t, slot := m } ∧ ∃ o, node h t o ∧ has_map_at o.kind &&& m ≠ 0 := by
  simp only [lookup_item, run_bind] at hl
  cases hd : deref t h with
  | fatal h2 => rw [hd] at hl; cases hl
  | ok o h2 =>
    rw [hd] at hl
    obtain ⟨rfl, hn⟩ := deref_state hd
    simp only [run_ite, run_fatal_trace, run_pure] at hl
    split at hl
    · cases hl
    · rename_i hm
      cases hl
      exact ⟨rfl, rfl, o, hn, hm⟩

theorem nth_core_run {h : heap} {t : Nat} {o : object_t} (hn : node h t o) {m : imask_t}
    (hm : has_map_at o.kind &&& m ≠ 0) {i : Nat} (hi : i < (o.seq m).length) :
    nth_core m t i h = outcome.ok ((o.seq m).getD i NULL) h := by
  have hi1 : i < (o.items m).obj_array.length := hi
  simp only [nth_core, tree_array_nth, AGET, run_bind, lookup_item_ok hn hm, rd_ok hn, run_pure,
    object_t.seq, run_assert, hi1, if_true, container_of]

theorem nth_core_fatal {h : heap} {t : Nat} {o : object_t} (hn : node h t o) {m : imask_t}
    (hm : has_map_at o.kind &&& m ≠ 0) {i : Nat} (hi : ¬ i < (o.seq m).length) :
    nth_core m t i h = outcome.fatal h := by
  have hi1 : ¬ i < (o.items m).obj_array.length := hi
  simp only [nth_core, tree_array_nth, AGET, run_bind, lookup_item_ok hn hm, rd_ok hn, run_pure,
    object_t.seq, run_assert, hi1, if_false]

theorem add_core_run {h : heap} {t : Nat} {o : object_t} (hn : node h t o) {m : imask_t}
    (hm : has_map_at o.kind &&& m ≠ 0) (x : tree_t) :
    add_core m t x h
      = outcome.ok () ((h.put { obj := t, slot := m } o (push x)).log t x) := by
  simp only [add_core, run_bind, lookup_item_ok hn hm, tree_array_add_run hn,
    run_object_write_barrier]

theorem add_core_nb_run {h : heap} {t : Nat} {o : object_t} (hn : node h t o) {m : imask_t}
    (hm : has_map_at o.kind &&& m ≠ 0) (x : tree_t) :
    add_core_nb m t x h = outcome.ok () (h.put { obj := t, slot := m } o (push x)) := by
  simp only [add_core_nb, run_bind, lookup_item_ok hn hm, tree_array_add_run hn]

end

section
variable [object_h]

end

/-! ### Appending to a sequence slot -/

section
variable [object_h]

end

section
variable [object_h]

theorem slot_mask_inj {a b : slot_t} (hab : slot_mask a = slot_mask b) : a = b := by
  rw [slot_mask_eq, slot_mask_eq] at hab
  exact object_h.bit_inj a b (Nat.pow_right_injective (le_refl 2) hab)

end

theorem tree_kind_run {h : heap} {e : Nat} {oe : object_t} (he : node h e oe) :
    tree_kind e h = outcome.ok oe.kind h := by
  simp only [tree_kind, run_bind, run_assert, he.1, ne_eq, not_false_eq_true, if_true,
    deref_ok he, run_pure]

section
variable [object_h]

end

/-! ### The retag table -/

theorem change_allowed_scan_iff (l : List (Int × Int)) (hl : ∀ p ∈ l, p.1 ≠ -1) (a b : Int) :
    change_allowed_scan (l ++ [(-1, -1)]) a b = true ↔ (a, b) ∈ l := by
  induction l with
  | nil => simp [change_allowed_scan]
  | cons p l ih =>
    obtain ⟨f, t⟩ := p
    have hf : f ≠ -1 := hl (f, t) (List.mem_cons_self _ _)
    have ih1 := ih (fun q hq => hl q (List.mem_cons_of_mem _ hq))
    simp only [List.cons_append, change_allowed_scan, if_neg hf, List.append_eq]
    by_cases hab : f = a ∧ t = b
    · obtain ⟨rfl, rfl⟩ := hab
      simp
    · rw [if_neg hab, ih1]
      constructor
      · intro h1
        exact List.mem_cons_of_mem _ h1
      · intro h1
        rcases List.mem_cons.mp h1 with h2 | h2
        · exact absurd ⟨(Prod.mk.inj h2).1.symm, (Prod.mk.inj h2).2.symm⟩ hab
        · exact h2

theorem change_allowed_split : change_allowed = change_allowed.dropLast ++ [(-1, -1)] := by
  decide

theorem change_allowed_ne_terminator : ∀ p ∈ change_allowed.dropLast, p.1 ≠ -1 := by
  decide

theorem retag_allowed_iff (a b : Int) :
    change_allowed_scan change_allowed a b = true ↔ (a, b) ∈ change_allowed.dropLast := by
  rw [change_allowed_split]
  simp only [List.dropLast_concat]
  exact change_allowed_scan_iff _ change_allowed_ne_terminator a b


/-! ### Sequences of calls -/

theorem peel_ok (P : outcome β → Prop) {x : M α} {f : α → M β} {h : heap} (hx : pure_read x)
    (hfatal : P (outcome.fatal h)) (hf : ∀ a, x h = outcome.ok a h → P (f a h)) :
    P ((x >>= f) h) := by
  have h1 := hx h
  simp only [run_bind]
  cases hxh : x h with
  | ok a h2 =>
    rw [hxh] at h1
    simp only [state_ok] at h1
    subst h1
    exact hf a hxh
  | fatal h2 =>
    rw [hxh] at h1
    simp only [state_fatal] at h1
    subst h1
    exact hfatal

theorem run_all_invariant {c : Type} (run : c → M Unit) (I : heap → Prop)
    (hstep : ∀ (x : c) (h : heap), I h → I (run x h).state) :
    ∀ (cs : List c) (h : heap), I h → I (run_all run cs h).state := by
  intro cs
  induction cs with
  | nil => intro h hI; exact hI
  | cons x xs ih =>
    intro h hI
    have e : run_all run (x :: xs) h = (run x >>= fun _ => run_all run xs) h := rfl
    rw [e, run_bind]
    have h1 := hstep x h hI
    cases hx : run x h with
    | ok a h2 =>
      rw [hx, state_ok] at h1
      exact ih h2 h1
    | fatal h2 =>
      rw [hx, state_fatal] at h1
      exact h1


/-! ### Arenas -/

theorem replicate_set_last (n : Nat) :
    (List.replicate n true ++ [false]).set n true = List.replicate (n + 1) true := by
  induction n with
  | zero => rfl
  | succ k ih =>
    simp only [List.replicate_succ, List.cons_append, List.set_cons_succ, ih]

theorem arena_inv_unfrozen {h : heap} (hi : arena_inv h) (a : Nat) (ha : h.unfrozen a = true) :
    a = h.global_arena ∧ h.global_arena ≠ NULL := by
  obtain ⟨n, ⟨e, g⟩ | ⟨e, g⟩⟩ := hi
  · simp only [heap.unfrozen, heap.is_arena, e, Bool.and_eq_true, decide_eq_true_eq,
      List.length_replicate, Bool.not_eq_true', NULL] at ha
    obtain ⟨⟨h0, hle⟩, hf⟩ := ha
    have : (List.replicate n true).getD (a - 1) false = true := by
      rw [List.getD_eq_getElem _ _ (by simp; omega)]
      simp
    rw [this] at hf
    cases hf
  · simp only [heap.unfrozen, heap.is_arena, e, Bool.and_eq_true, decide_eq_true_eq,
      List.length_append, List.length_replicate, List.length_singleton, Bool.not_eq_true',
      NULL] at ha
    obtain ⟨⟨h0, hle⟩, hf⟩ := ha
    by_cases hlt : a - 1 < n
    · have : (List.replicate n true ++ [false]).getD (a - 1) false = true := by
        rw [List.getD_eq_getElem _ _ (by simp; omega), List.getElem_append_left (by simpa using hlt)]
        simp
      rw [this] at hf
      cases hf
    · rw [g]
      simp only [NULL]
      omega

theorem arena_inv_open {h : heap} (hi : arena_inv h) :
    h.open_arenas = if h.global_arena = NULL then 0 else 1 := by
  obtain ⟨n, ⟨e, g⟩ | ⟨e, g⟩⟩ := hi
  · simp [heap.open_arenas, e, g, List.count_replicate]
  · simp [heap.open_arenas, e, g, List.count_replicate, NULL]

theorem arena_inv_current {h : heap} (hi : arena_inv h) (hg : h.global_arena ≠ NULL) :
    h.unfrozen h.global_arena = true ∧ h.global_arena = h.arenas.length := by
  obtain ⟨n, ⟨e, g⟩ | ⟨e, g⟩⟩ := hi
  · exact absurd g hg
  · simp [heap.unfrozen, heap.is_arena, e, g, NULL]

/-- Every arena is frozen when there is no current arena. -/
theorem arena_inv_all_frozen {h : heap} (hi : arena_inv h) (hg : h.global_arena = NULL)
    (a : Nat) (ha : h.is_arena a = true) : h.frozen a = true := by
  have hu : ¬ (h.unfrozen a = true) := fun hu => (arena_inv_unfrozen hi a hu).2 hg
  simp only [heap.unfrozen, ha, Bool.true_and, Bool.not_eq_true', Bool.not_eq_false] at hu
  simp only [heap.frozen, ha, Bool.true_and, hu]

theorem getD_append_false (l : List Bool) (i : Nat) :
    (l ++ [false]).getD i false = l.getD i false := by
  by_cases hi : i < l.length
  · rw [List.getD_eq_getElem _ _ (by simp; omega), List.getD_eq_getElem _ _ hi,
      List.getElem_append_left hi]
  · rw [List.getD_eq_default l false (by omega)]
    by_cases he : i = l.length
    · subst he
      simp
    · rw [List.getD_eq_default _ _ (by simp; omega)]

theorem getD_set_true {l : List Bool} {i : Nat} (j : Nat) (hl : l.getD i false = true) :
    (l.set j true).getD i false = true := by
  by_cases hi : i < l.length
  · rw [List.getD_eq_getElem _ _ hi] at hl
    rw [List.getD_eq_getElem _ _ (by simpa using hi), List.getElem_set]
    split
    · rfl
    · exact hl
  · rw [List.getD_eq_default _ _ (by omega)] at hl
    cases hl

theorem frozen_mono {h h1 : heap} (hlen : h.arenas.length ≤ h1.arenas.length)
    (hget : ∀ i, h.arenas.getD i false = true → h1.arenas.getD i false = true) (a : Nat)
    (ha : h.frozen a = true) : h1.frozen a = true := by
  simp only [heap.frozen, heap.is_arena, Bool.and_eq_true, decide_eq_true_eq] at ha ⊢
  exact ⟨⟨ha.1.1, le_trans ha.1.2 hlen⟩, hget _ ha.2⟩

theorem is_arena_mono {h h1 : heap} (hlen : h.arenas.length ≤ h1.arenas.length) (a : Nat)
    (ha : h.is_arena a = true) : h1.is_arena a = true := by
  simp only [heap.is_arena, Bool.and_eq_true, decide_eq_true_eq] at ha ⊢
  exact ⟨ha.1, le_trans ha.2 hlen⟩

section
variable [object_h]

theorem make_new_arena_step {h : heap} (hi : arena_inv h) :
    ∃ h1, make_new_arena h = outcome.ok () h1 ∧ arena_inv h1 ∧
      h1.global_arena = h.arenas.length + 1 ∧ h1.arenas.length = h.arenas.length + 1 ∧
      h1.unfrozen h1.global_arena = true ∧
      (h.global_arena ≠ NULL → h1.frozen h.global_arena = true) ∧
      (∀ a, h.frozen a = true → h1.frozen a = true) ∧
      h1.objs = h.objs ∧ h1.arena_of = h.arena_of := by
  obtain ⟨n, ⟨e, g⟩ | ⟨e, g⟩⟩ := hi
  · refine ⟨{ h with arenas := h.arenas ++ [false], global_arena := h.arenas.length + 1 },
      ?_, ⟨n, Or.inr ⟨by simp [e], by simp [e]⟩⟩, rfl, by simp, ?_, fun hg => absurd g hg, ?_,
      rfl, rfl⟩
    · simp only [make_new_arena, run_bind, get_global_arena, g, ne_eq, not_true_eq_false,
        if_false, run_ite, run_pure, object_arena_new, set_global_arena]
    · simp [heap.unfrozen, heap.is_arena, NULL]
    · exact frozen_mono (by simp) (fun i hi => by
        show (h.arenas ++ [false]).getD i false = true
        rw [getD_append_false]
        exact hi)
  · have hg : h.global_arena ≠ NULL := by rw [g]; simp [NULL]
    have hia : h.is_arena h.global_arena = true := by simp [heap.is_arena, e, g, NULL]
    refine ⟨{ h with arenas := h.arenas.set (h.global_arena - 1) true ++ [false],
                     global_arena := h.arenas.length + 1 },
      ?_, ⟨n + 1, Or.inr ⟨?_, by simp [e]⟩⟩, ?_, by simp, ?_, fun _ => ?_, ?_, rfl, rfl⟩
    · simp only [make_new_arena, run_bind, get_global_arena, hg, ne_eq, not_false_eq_true,
        if_true, run_ite, object_arena_freeze, hia, object_arena_new, set_global_arena,
        List.length_set]
    · simp only [e, g, Nat.add_sub_cancel, replicate_set_last]
    · rfl
    · simp [heap.unfrozen, heap.is_arena, NULL]
    · simp only [heap.frozen, heap.is_arena, e, g, Nat.add_sub_cancel, replicate_set_last,
        getD_append_false, Bool.and_eq_true, decide_eq_true_eq]
      refine ⟨⟨by simp [NULL], by simp⟩, ?_⟩
      rw [List.getD_eq_getElem _ _ (by simp)]
      simp
    · exact frozen_mono (by simp) (fun i hi => by
        show (h.arenas.set (h.global_arena - 1) true ++ [false]).getD i false = true
        rw [getD_append_false]
        exact getD_set_true _ hi)

theorem freeze_current_spec {h : heap} (hi : arena_inv h) :
    arena_inv h.freeze_current ∧ h.freeze_current.global_arena = NULL ∧
    h.freeze_current.arenas.length = h.arenas.length ∧
    (h.global_arena ≠ NULL → h.freeze_current.frozen h.global_arena = true) ∧
    (∀ a, h.is_arena a = true → h.freeze_current.frozen a = true) ∧
    h.freeze_current.objs = h.objs ∧ h.freeze_current.arena_of = h.arena_of ∧
    h.freeze_current.written = h.written := by
  by_cases hg : h.global_arena = NULL
  · have e : h.freeze_current = h := by simp [heap.freeze_current, hg]
    rw [e]
    exact ⟨hi, hg, rfl, fun hne => absurd hg hne, arena_inv_all_frozen hi hg, rfl, rfl, rfl⟩
  · have e : h.freeze_current
        = { h with arenas := h.arenas.set (h.global_arena - 1) true, global_arena := NULL } := by
      simp [heap.freeze_current, hg]
    obtain ⟨n, ⟨e1, g⟩ | ⟨e1, g⟩⟩ := hi
    · exact absurd g hg
    · have hi1 : arena_inv h.freeze_current := by
        rw [e]
        exact ⟨n + 1, Or.inl ⟨by simp only [e1, g, Nat.add_sub_cancel, replicate_set_last], rfl⟩⟩
      have hall : ∀ a, h.is_arena a = true → h.freeze_current.frozen a = true := by
        intro a ha
        refine arena_inv_all_frozen hi1 (by rw [e]) a ?_
        rw [e]
        simpa [heap.is_arena] using ha
      refine ⟨hi1, by rw [e], by rw [e]; simp, fun _ => hall _ ?_, hall, by rw [e], by rw [e],
        by rw [e]⟩
      simp [heap.is_arena, e1, g, NULL]

theorem tree_write_factor {h : heap} (hi : arena_inv h) (t : tree_t) (f : Nat) :
    tree_write t f h = object_write t f h.freeze_current := by
  by_cases hg : h.global_arena = NULL
  · have e : h.freeze_current = h := by simp [heap.freeze_current, hg]
    rw [e]
    simp only [tree_write, run_bind, get_global_arena, hg, ne_eq, not_true_eq_false, if_false,
      run_ite, run_pure]
  · have e : h.freeze_current
        = { h with arenas := h.arenas.set (h.global_arena - 1) true, global_arena := NULL } := by
      simp [heap.freeze_current, hg]
    have hia : h.is_arena h.global_arena = true := by
      have := (arena_inv_current hi hg).1
      simp only [heap.unfrozen, Bool.and_eq_true] at this
      exact this.1
    rw [e]
    simp only [tree_write, run_bind, get_global_arena, hg, ne_eq, not_false_eq_true, if_true,
      run_ite, object_arena_freeze, hia, set_global_arena]

theorem object_write_run {h : heap} {t : tree_t} {o : object_t} (hn : node h t o) (f : Nat) :
    object_write t f h =
      if h.frozen (h.arena_of t) = true then
        outcome.ok () { h with written := h.written ++ [t] }
      else outcome.fatal h := by
  by_cases hf : h.frozen (h.arena_of t) = true
  · simp only [object_write, run_bind, deref_ok hn, get_state, run_assert, hf, if_true]
  · simp only [object_write, run_bind, deref_ok hn, get_state, run_assert, hf, if_false]
    rfl

theorem object_write_state (t : tree_t) (f : Nat) (h : heap) :
    (object_write t f h).state = h ∨
      (object_write t f h).state = { h with written := h.written ++ [t] } := by
  cases hd : deref t h with
  | fatal h2 =>
    have e := pure_read_deref t h
    rw [hd, state_fatal] at e
    subst e
    left
    simp only [object_write, run_bind, hd, state_fatal]
  | ok o h2 =>
    obtain ⟨rfl, hn⟩ := deref_state hd
    rw [object_write_run hn]
    split
    · right; rfl
    · left; rfl

theorem tree_new_run (h : heap) (kind : tree_kind_t) :
    tree_new kind h =
      if h.unfrozen h.global_arena = true then
        outcome.ok h.brk
          { h with
            objs := Function.update h.objs h.brk
                      (some { kind := kind, loc := 0, items := fun _ => item_zero }),
            arena_of := Function.update h.arena_of h.brk h.global_arena,
            brk := h.brk + 1 }
      else outcome.fatal h := by
  simp only [tree_new, run_bind, get_global_arena, object_new]

theorem arena_step (c : arena_call) (h : heap) (hi : arena_inv h) :
    arena_inv (c.run h).state ∧ (owned h → owned (c.run h).state) := by
  cases c with
  | new_arena =>
    obtain ⟨h1, hr, hi1, -, hlen, -, -, -, ho, ha⟩ := make_new_arena_step hi
    simp only [arena_call.run, hr, state_ok]
    refine ⟨hi1, fun hown p hp => ?_⟩
    rw [ha]
    rw [ho] at hp
    exact is_arena_mono (by omega) _ (hown p hp)
  | new kind =>
    simp only [arena_call.run, run_bind, tree_new_run]
    by_cases hu : h.unfrozen h.global_arena = true
    · simp only [hu, if_true, run_pure, state_ok]
      refine ⟨hi, fun hown p hp => ?_⟩
      by_cases e : p = h.brk
      · subst e
        simp only [Function.update_same]
        simp only [heap.unfrozen, Bool.and_eq_true] at hu
        exact hu.1
      · simp only [Function.update_noteq e] at hp ⊢
        exact hown p hp
    · simp only [hu, Bool.false_eq_true, if_false, state_fatal]
      exact ⟨hi, fun hown => hown⟩
  | write t f =>
    obtain ⟨hi1, -, hlen, -, -, ho, ha, -⟩ := freeze_current_spec hi
    have hown : owned h → owned h.freeze_current := by
      intro hown p hp
      rw [ha]
      rw [ho] at hp
      exact is_arena_mono (by omega) _ (hown p hp)
    simp only [arena_call.run, tree_write_factor hi]
    rcases object_write_state t f h.freeze_current with e | e
    · rw [e]
      exact ⟨hi1, hown⟩
    · rw [e]
      exact ⟨hi1, hown⟩

theorem arena_reachable (cs : List arena_call) (h0 : heap) (hi : arena_inv h0) :
    arena_inv (run_all arena_call.run cs h0).state ∧
      (owned h0 → owned (run_all arena_call.run cs h0).state) := by
  have key := run_all_invariant arena_call.run (fun h => arena_inv h ∧ (owned h0 → owned h))
    (fun c h hI => ⟨(arena_step c h hI.1).1, fun ho => (arena_step c h hI.1).2 (hI.2 ho)⟩)
    cs h0 ⟨hi, fun ho => ho⟩
  exact key

theorem initial_inv {h0 : heap} (ha : h0.arenas = []) (hg : h0.global_arena = NULL) :
    arena_inv h0 :=
  ⟨0, Or.inl ⟨ha, hg⟩⟩

end

/-! ### Traversals -/

section
variable [object_h]

theorem tree_visit_only_run (fuel : Nat) (t : tree_t) (fn context : Nat) (kind : tree_kind_t)
    (h : heap) (ht : t ≠ NULL) :
    tree_visit_only fuel t fn context kind h =
      (object_visit fuel t
        { count := 0, postorder := fn, preorder := NULL, context := context, kind := kind,
          generation := h.next_generation, deep := false } >>= fun ctx => pure ctx.count)
        { h with next_generation := h.next_generation + 1 } := by
  simp only [tree_visit_only, run_bind, run_assert, ht, ne_eq, not_false_eq_true, if_true,
    object_next_generation]

theorem tree_visit_run (fuel : Nat) (t : tree_t) (fn context : Nat) (h : heap) (ht : t ≠ NULL) :
    tree_visit fuel t fn context h =
      (object_visit fuel t
        { count := 0, postorder := fn, preorder := NULL, context := context,
          kind := T_LAST_TREE_KIND, generation := h.next_generation, deep := false }
        >>= fun ctx => pure ctx.count)
        { h with next_generation := h.next_generation + 1 } := by
  simp only [tree_visit, run_bind, run_assert, ht, ne_eq, not_false_eq_true, if_true,
    object_next_generation]

theorem tree_visit_null (fuel : Nat) (fn context : Nat) (h : heap) :
    tree_visit fuel NULL fn context h = outcome.fatal h := by
  simp only [tree_visit, run_bind, run_assert, ne_eq, not_true_eq_false, if_false]

theorem tree_visit_only_null (fuel : Nat) (fn context : Nat) (kind : tree_kind_t) (h : heap) :
    tree_visit_only fuel NULL fn context kind h = outcome.fatal h := by
  simp only [tree_visit_only, run_bind, run_assert, ne_eq, not_true_eq_false, if_false]

end

/-! ### The walk of a visit -/

theorem unmarked_mono (objs : Nat → Option object_t) (g n : Nat) {m m1 : Nat → Nat}
    (hm : ∀ y, m y = g → m1 y = g) : unmarked objs g n m1 ≤ unmarked objs g n m := by
  apply Finset.card_le_card
  intro p hp
  simp only [Finset.mem_filter] at hp ⊢
  exact ⟨hp.1, hp.2.1, fun e => hp.2.2 (hm p e)⟩

theorem unmarked_lt (objs : Nat → Option object_t) (g n : Nat) {m : Nat → Nat} {x : Nat}
    {o : object_t} (hx : x < n) (ho : objs x = some o) (hm : m x ≠ g) :
    unmarked objs g n (Function.update m x g) < unmarked objs g n m := by
  apply Finset.card_lt_card
  constructor
  · intro p hp
    simp only [Finset.mem_filter] at hp ⊢
    refine ⟨hp.1, hp.2.1, fun e => hp.2.2 ?_⟩
    by_cases hpx : p = x
    · subst hpx; simp
    · simpa [Function.update_noteq hpx] using e
  · intro hsub
    have hin : x ∈ (Finset.range n).filter (fun p => (objs p).isSome = true ∧ m p ≠ g) := by
      simp only [Finset.mem_filter, Finset.mem_range]
      exact ⟨hx, by simp [ho], hm⟩
    have := hsub hin
    simp only [Finset.mem_filter, Function.update_same, ne_eq, not_true_eq_false,
      and_false] at this

section
variable [object_h]

theorem walk_post_nil (objs : Nat → Option object_t) (g : Nat) (s : (Nat → Nat) × List Nat) :
    walk_post objs g s s [] :=
  ⟨fun _ h => h, fun y h1 h2 => absurd h1 h2, fun x hx => (by cases hx),
    fun y h1 h2 => absurd h1 h2,
    ⟨[], by simp, List.nodup_nil, fun y => ⟨fun h => (by cases h), fun h => absurd h.1 h.2⟩⟩,
    fun _ => Or.inl rfl⟩

theorem walk_post_skip (objs : Nat → Option object_t) (g : Nat) (s : (Nat → Nat) × List Nat)
    (x : Nat) (hx : x = NULL ∨ objs x = none ∨ s.1 x = g) : walk_post objs g s s [x] := by
  refine ⟨fun _ h => h, fun y h1 h2 => absurd h1 h2, ?_, fun y h1 h2 => absurd h1 h2,
    ⟨[], by simp, List.nodup_nil, fun y => ⟨fun h => (by cases h), fun h => absurd h.1 h.2⟩⟩,
    fun _ => Or.inl rfl⟩
  intro x1 hx1 hne hobj
  simp only [List.mem_singleton] at hx1
  subst hx1
  rcases hx with h | h | h
  · exact absurd h hne
  · exact absurd h hobj
  · exact h

theorem walk_post_cons {objs : Nat → Option object_t} {g : Nat}
    {s s1 s2 : (Nat → Nat) × List Nat} {c : Nat} {cs : List Nat}
    (h1 : walk_post objs g s s1 [c]) (h2 : walk_post objs g s1 s2 cs) :
    walk_post objs g s s2 (c :: cs) := by
  obtain ⟨a1, a2, a3, a4, ⟨n1, a5, a6, a7⟩, a8⟩ := h1
  obtain ⟨b1, b2, b3, b4, ⟨n2, b5, b6, b7⟩, b8⟩ := h2
  refine ⟨fun y hy => b1 y (a1 y hy), ?_, ?_, ?_, ⟨n1 ++ n2, ?_, ?_, ?_⟩, ?_⟩
  · intro y hy2 hy0
    by_cases hy1 : s1.1 y = g
    · obtain ⟨p1, p2, x, hx, p3⟩ := a2 y hy1 hy0
      simp only [List.mem_singleton] at hx
      subst hx
      exact ⟨p1, p2, x, List.mem_cons_self _ _, p3⟩
    · obtain ⟨p1, p2, x, hx, p3⟩ := b2 y hy2 hy1
      exact ⟨p1, p2, x, List.mem_cons_of_mem _ hx, p3⟩
  · intro x hx hne hobj
    rcases List.mem_cons.mp hx with rfl | hx
    · exact b1 x (a3 x (List.mem_singleton_self x) hne hobj)
    · exact b3 x hx hne hobj
  · intro y hy2 hy0 z hz
    by_cases hy1 : s1.1 y = g
    · exact b1 z (a4 y hy1 hy0 z hz)
    · exact b4 y hy2 hy1 z hz
  · rw [b5, a5, List.append_assoc]
  · rw [List.nodup_append]
    refine ⟨a6, b6, ?_⟩
    intro y hy1 hy2
    exact ((b7 y).mp hy2).2 ((a7 y).mp hy1).1
  · intro y
    rw [List.mem_append, a7, b7]
    constructor
    · rintro (⟨p, q⟩ | ⟨p, q⟩)
      · exact ⟨b1 y p, q⟩
      · exact ⟨p, fun e => q (a1 y e)⟩
    · rintro ⟨p, q⟩
      by_cases hy1 : s1.1 y = g
      · exact Or.inl ⟨hy1, q⟩
      · exact Or.inr ⟨p, hy1⟩
  · intro y
    rcases b8 y with e | e
    · rcases a8 y with e1 | e1
      · exact Or.inl (e.trans e1)
      · exact Or.inr (e.trans e1)
    · exact Or.inr e

theorem walk_post_node {objs : Nat → Option object_t} {g : Nat}
    {s s2 : (Nat → Nat) × List Nat} {x : Nat} {o : object_t} (hx : x ≠ NULL)
    (ho : objs x = some o) (hm : s.1 x ≠ g)
    (h2 : walk_post objs g (Function.update s.1 x g, s.2) s2 o.refs) :
    walk_post objs g s (s2.1, s2.2 ++ [x]) [x] := by
  obtain ⟨b1, b2, b3, b4, ⟨n2, b5, b6, b7⟩, b8⟩ := h2
  dsimp only at b1 b2 b4 b5 b7 b8
  have hobj : objs x ≠ none := by rw [ho]; simp
  have hxg : s2.1 x = g := b1 x (by simp)
  have up : ∀ y, y ≠ x → Function.update s.1 x g y = s.1 y := fun y hy =>
    Function.update_noteq hy _ _
  refine ⟨?_, ?_, ?_, ?_, ⟨n2 ++ [x], ?_, ?_, ?_⟩, ?_⟩
  · intro y hy
    apply b1
    by_cases e : y = x
    · subst e; simp
    · simp only [up y e]; exact hy
  · intro y hy2 hy0
    by_cases e : y = x
    · subst e
      exact ⟨hx, hobj, y, List.mem_singleton_self y, hx, hobj, Relation.ReflTransGen.refl⟩
    · obtain ⟨p1, p2, c, hc, p3, p4, p5⟩ := b2 y hy2 (by simp only [up y e]; exact hy0)
      refine ⟨p1, p2, x, List.mem_singleton_self x, hx, hobj, ?_⟩
      exact Relation.ReflTransGen.head ⟨hx, p3, ⟨o, ho, hc⟩, p4⟩ p5
  · intro x1 hx1 _ _
    simp only [List.mem_singleton] at hx1
    subst hx1
    exact hxg
  · intro y hy2 hy0 z hz
    by_cases e : y = x
    · subst e
      obtain ⟨-, hz1, ⟨o1, ho1, hmem⟩, hz2⟩ := hz
      have : o1 = o := Option.some.inj (ho1.symm.trans ho)
      subst this
      exact b3 z hmem hz1 hz2
    · exact b4 y hy2 (by simp only [up y e]; exact hy0) z hz
  · show s2.2 ++ [x] = s.2 ++ (n2 ++ [x])
    rw [b5, List.append_assoc]
  · rw [List.nodup_append]
    refine ⟨b6, List.nodup_singleton x, ?_⟩
    intro y hy1 hy2
    simp only [List.mem_singleton] at hy2
    subst hy2
    exact ((b7 y).mp hy1).2 (by simp)
  · intro y
    rw [List.mem_append, b7, List.mem_singleton]
    constructor
    · rintro (⟨p, q⟩ | rfl)
      · have e : y ≠ x := fun e => q (by subst e; simp)
        exact ⟨p, by simpa only [up y e] using q⟩
      · exact ⟨hxg, hm⟩
    · rintro ⟨p, q⟩
      by_cases e : y = x
      · exact Or.inr e
      · exact Or.inl ⟨p, by simp only [up y e]; exact q⟩
  · intro y
    by_cases e : y = x
    · subst e
      exact Or.inr hxg
    · rcases b8 y with e1 | e1
      · left
        show s2.1 y = s.1 y
        rw [e1, up y e]
      · exact Or.inr e1

theorem object_walk_fold {objs : Nat → Option object_t} {g n fuel : Nat}
    (hW : ∀ (s : (Nat → Nat) × List Nat) (x : Nat), unmarked objs g n s.1 < fuel →
      walk_post objs g s (object_walk objs g fuel s x) [x]) :
    ∀ (xs : List Nat) (s : (Nat → Nat) × List Nat), unmarked objs g n s.1 < fuel →
      walk_post objs g s (xs.foldl (object_walk objs g fuel) s) xs := by
  intro xs
  induction xs with
  | nil => intro s _; exact walk_post_nil objs g s
  | cons c cs ih =>
    intro s hu
    rw [List.foldl_cons]
    have h1 := hW s c hu
    exact walk_post_cons h1 (ih _ (lt_of_le_of_lt (unmarked_mono objs g n h1.1) hu))

theorem object_walk_spec {objs : Nat → Option object_t} (g : Nat) {n : Nat}
    (hn : ∀ p : Nat, n ≤ p → objs p = none) :
    ∀ (fuel : Nat) (s : (Nat → Nat) × List Nat) (x : Nat), unmarked objs g n s.1 < fuel →
      walk_post objs g s (object_walk objs g fuel s x) [x] := by
  intro fuel
  induction fuel with
  | zero => intro s x hu; omega
  | succ fuel ih =>
    intro s x hu
    by_cases hx : x = NULL
    · have e : object_walk objs g (fuel + 1) s x = s := by simp only [object_walk, hx, if_true]
      rw [e]
      exact walk_post_skip objs g s x (Or.inl hx)
    · cases ho : objs x with
      | none =>
        have e : object_walk objs g (fuel + 1) s x = s := by
          simp only [object_walk, hx, if_false, ho]
        rw [e]
        exact walk_post_skip objs g s x (Or.inr (Or.inl ho))
      | some o =>
        by_cases hm : s.1 x = g
        · have e : object_walk objs g (fuel + 1) s x = s := by
            simp only [object_walk, hx, if_false, ho, hm, if_true]
          rw [e]
          exact walk_post_skip objs g s x (Or.inr (Or.inr hm))
        · have e : object_walk objs g (fuel + 1) s x =
              ((o.refs.foldl (object_walk objs g fuel) (Function.update s.1 x g, s.2)).1,
               (o.refs.foldl (object_walk objs g fuel) (Function.update s.1 x g, s.2)).2
                 ++ [x]) := by
            simp only [object_walk, hx, if_false, ho, hm]
          rw [e]
          have hlt : x < n := by
            by_contra hge
            have := hn x (by omega)
            rw [ho] at this
            cases this
          have hu1 : unmarked objs g n (Function.update s.1 x g) < fuel := by
            have := unmarked_lt objs g n hlt ho hm
            omega
          exact walk_post_node hx ho hm (object_walk_fold ih o.refs _ hu1)

theorem unmarked_le (objs : Nat → Option object_t) (g n : Nat) (m : Nat → Nat) :
    unmarked objs g n m ≤ n := by
  have := Finset.card_filter_le (Finset.range n) (fun p => (objs p).isSome = true ∧ m p ≠ g)
  simpa [unmarked] using this

/-- The walk from a node, started with no stamp of its generation and with more fuel than
there are addresses in use, does the nodes reachable from the root, each once. -/
theorem object_walk_reaches {objs : Nat → Option object_t} (g : Nat) {n fuel : Nat}
    (hn : ∀ p : Nat, n ≤ p → objs p = none) (hfuel : n < fuel) (m : Nat → Nat)
    (hm : ∀ x : Nat, m x ≠ g) (r : Nat) (hr : r ≠ NULL) (hor : objs r ≠ none) :
    (object_walk objs g fuel (m, []) r).2.Nodup ∧
    (∀ x : Nat, x ∈ (object_walk objs g fuel (m, []) r).2 ↔ reaches objs r x) ∧
    (∀ x : Nat, x ∈ (object_walk objs g fuel (m, []) r).2 → x ≠ NULL ∧ objs x ≠ none) ∧
    (∀ x : Nat, (object_walk objs g fuel (m, []) r).1 x = g ↔ reaches objs r x) ∧
    (∀ x : Nat, (object_walk objs g fuel (m, []) r).1 x = m x ∨
      (object_walk objs g fuel (m, []) r).1 x = g) := by
  have hp := object_walk_spec g hn fuel (m, []) r
    (lt_of_le_of_lt (unmarked_le objs g n m) hfuel)
  obtain ⟨a1, a2, a3, a4, ⟨new, a5, a6, a7⟩, a8⟩ := hp
  dsimp only at a1 a2 a4 a5 a7 a8
  have hnew : (object_walk objs g fuel (m, []) r).2 = new := by simpa using a5
  have mark_iff : ∀ x, (object_walk objs g fuel (m, []) r).1 x = g ↔ reaches objs r x := by
    intro x
    constructor
    · intro hx
      obtain ⟨-, -, c, hc, -, -, hreach⟩ := a2 x hx (hm x)
      simp only [List.mem_singleton] at hc
      subst hc
      exact hreach
    · intro hx
      induction hx with
      | refl => exact a3 r (List.mem_singleton_self r) hr hor
      | tail _ hyz ih => exact a4 _ ih (hm _) _ hyz
  refine ⟨by rw [hnew]; exact a6, ?_, ?_, mark_iff, a8⟩
  · intro x
    rw [hnew, a7, ← mark_iff]
    exact ⟨fun h => h.1, fun h => ⟨h, hm x⟩⟩
  · intro x hx
    rw [hnew, a7] at hx
    obtain ⟨p1, p2, -⟩ := a2 x hx.1 hx.2
    exact ⟨p1, p2⟩

end

/-! ### Runs of tree_change_kind -/

section
variable [object_h]

theorem tree_change_kind_run {h : heap} {t : tree_t} {o : object_t} (hn : node h t o)
    (kind : tree_kind_t) :
    tree_change_kind t kind h =
      if ((o.kind : Int), (kind : Int)) ∈ change_allowed.dropLast then
        outcome.ok () (h.set t (o.retag tree_object kind))
      else outcome.fatal h := by
  by_cases hp : ((o.kind : Int), (kind : Int)) ∈ change_allowed.dropLast
  · have hs : change_allowed_scan tree_object.change_allowed o.kind kind = true :=
      (retag_allowed_iff _ _).mpr hp
    simp only [tree_change_kind, object_change_kind, deref_ok hn, hs, if_true, hp]
  · have hs : ¬ (change_allowed_scan tree_object.change_allowed o.kind kind = true) :=
      fun hs => hp ((retag_allowed_iff _ _).mp hs)
    simp only [tree_change_kind, object_change_kind, deref_ok hn, hs, if_false, hp,
      Bool.false_eq_true]

theorem node_set {h : heap} {t : Nat} (ht : t ≠ NULL) (o1 : object_t) :
    node (h.set t o1) t o1 :=
  ⟨ht, by simp [heap.set]⟩

theorem node_set_ne {h : heap} {t x : Nat} {o1 ox : object_t} (hne : x ≠ t) :
    node (h.set t o1) x ox ↔ node h x ox := by
  simp [node, heap.set, Function.update_noteq hne]

theorem mem_map_ofNat (l : List tree_kind_t) (n : Nat) :
    (n : Int) ∈ l.map Int.ofNat ↔ n ∈ l := by
  simp only [List.mem_map]
  constructor
  · rintro ⟨k, hk1, hk2⟩
    have : k = n := Int.ofNat.inj hk2
    exact this ▸ hk1
  · intro hn
    exact ⟨n, hn, rfl⟩

end

/-! ### C2 -/

section
variable [object_h]

/-- C2: on a node whose kind does not have the slot in has_map, every accessor of the facade
that reaches the slot (getter, has_ probe, setter, count, indexed access, add, insert) is
terminated instead of returning, so an accessor that returns has its slot in has_map of the
kind of the node; tree_ports is terminated on a T_LITERAL node and tree_has_value on a
T_ENTITY node. -/
theorem schema_gated_access (h : heap) (t : tree_t) (o : object_t) (n v : Nat) (i : Int)
    (hn : node h t o) :
    (∀ a ∈ slot_accessors t n v i, has_map_at o.kind &&& a.1 = 0 → a.2 h = false) ∧
    (∀ a ∈ slot_accessors t n v i, a.2 h = true → has_map_at o.kind &&& a.1 ≠ 0) ∧
    (o.kind = T_LITERAL → (tree_ports t h).succeeds = false) ∧
    (o.kind = T_ENTITY → (tree_has_value t h).succeeds = false) := by
  have main : ∀ a ∈ slot_accessors t n v i, has_map_at o.kind &&& a.1 = 0 → a.2 h = false := by
    simp only [slot_accessors, List.forall_mem_cons, List.not_mem_nil, false_imp_iff,
      implies_true, and_true]
    repeat' apply And.intro
    all_goals intro hm
    all_goals simp only [tree_ident, tree_has_ident, tree_set_ident, tree_ident2, tree_set_ident2, tree_has_ident2, tree_ports, tree_port, tree_add_port, tree_subkind, tree_set_subkind, tree_generics, tree_generic, tree_add_generic, tree_type, tree_set_type, tree_has_type, tree_params, tree_param, tree_add_param, tree_value, tree_genmaps, tree_genmap, tree_add_genmap, tree_ival, tree_set_ival, tree_dval, tree_set_dval, tree_flags, tree_set_flag, tree_clear_flag, tree_eopt, tree_set_eopt, tree_primary, tree_has_primary, tree_set_primary, tree_chars, tree_char, tree_add_char, tree_has_value, tree_set_value, tree_decls, tree_decl, tree_add_decl, tree_insert_decl, tree_stmts, tree_stmt, tree_add_stmt, tree_waveforms, tree_waveform, tree_add_waveform, tree_else_stmts, tree_else_stmt, tree_add_else_stmt, tree_conds, tree_cond, tree_add_cond, tree_has_delay, tree_delay, tree_set_delay, tree_triggers, tree_trigger, tree_add_trigger, tree_target, tree_set_target, tree_ref, tree_has_ref, tree_set_ref, tree_spec, tree_has_spec, tree_set_spec, tree_contexts, tree_context, tree_add_context, tree_assocs, tree_assoc, tree_add_assoc, tree_severity, tree_set_severity, tree_message, tree_has_message, tree_set_message, tree_add_range, tree_range, tree_ranges, tree_pos, tree_set_pos, tree_left, tree_set_left, tree_right, tree_set_right, tree_class, tree_set_class, tree_reject, tree_set_reject, tree_has_reject, tree_guard, tree_set_guard, tree_has_guard, tree_name, tree_set_name, tree_has_name, tree_file_mode, tree_set_file_mode]
    all_goals
      repeat' (first
        | exact lookup_item_fails hn hm _
        | (rw [run_ite]; split)
        | refine peel (fun r => r.succeeds = false) (by first
            | exact pure_read_tree_assert_decl _ | exact pure_read_deref _
            | exact pure_read_tree_kind _ | exact pure_read_assert _
            | exact pure_read_tree_value _
            | exact pure_read_assert_string_literal _ | exact pure_read_tree_assert_stmt _
            | exact pure_read_tree_assert_expr _ | exact pure_read_pure _) rfl (fun _ => ?_))
  refine ⟨main, ?_, ?_, ?_⟩
  · intro a ha hs hz
    rw [main a ha hz] at hs
    exact Bool.false_ne_true hs
  · intro hk
    refine main (I_PORTS, fun h => (tree_ports t h).succeeds) (by simp [slot_accessors]) ?_
    show has_map_at o.kind &&& slot_mask slot_t.PORTS = 0
    rw [hk, has_map_at_eq, mask_of_and_slot_eq_zero]
    decide
  · intro hk
    refine main (I_VALUE, fun h => (tree_has_value t h).succeeds) (by simp [slot_accessors]) ?_
    show has_map_at o.kind &&& slot_mask slot_t.VALUE = 0
    rw [hk, has_map_at_eq, mask_of_and_slot_eq_zero]
    decide

end

theorem schema_gated_access_witness :
    node (sample_heap [T_LITERAL]) 1 (sample_obj T_LITERAL) ∧
    (@tree_ports sample_bits 1 (sample_heap [T_LITERAL])).succeeds = false :=
  ⟨⟨by decide, rfl⟩,
   (@schema_gated_access sample_bits (sample_heap [T_LITERAL]) 1 (sample_obj T_LITERAL) 0 0 0
      ⟨by decide, rfl⟩).2.2.1 rfl⟩

/-! ### C3 -/

section
variable [object_h]

end

section
variable [object_h]

end

section
variable [object_h]

end

section
variable [object_h]

end

/-- C7, refuted as stated: (T_REF, T_PCALL) is a pair of change_allowed, and has_map of T_REF
has a slot (the type slot) that has_map of T_PCALL does not have, so
has_map[T_REF] & ~has_map[T_PCALL] is not zero, whichever bits the slots have. -/
theorem retag_not_superset :
    (((T_REF : Int), (T_PCALL : Int)) ∈ change_allowed.dropLast) ∧
    @has_map_at sample_bits T_REF &&& imask_not (@has_map_at sample_bits T_PCALL) ≠ 0 ∧
    @has_map_at sample_bits T_REF &&& @I_TYPE sample_bits ≠ 0 ∧
    @has_map_at sample_bits T_PCALL &&& @I_TYPE sample_bits = 0 ∧
    ∀ L : object_h, @has_map_at L T_REF &&& imask_not (@has_map_at L T_PCALL) ≠ 0 := by
  refine ⟨by decide, by decide, by decide, by decide, ?_⟩
  intro L
  rw [has_map_at_eq, has_map_at_eq, Ne, mask_of_and_not]
  decide

section
variable [object_h]

/-- C7, amended: for a pair (from, to) of change_allowed the slot set of the new kind is a
superset of the slot set of the old kind, has_map[from] & ~has_map[to] = 0, exactly when the
pair is one of the twelve pairs of superset_retags; for each of the other fifteen pairs some
slot of the old kind is not in has_map of the new kind. -/
theorem retag_superset_pairs :
    superset_retags.length = 12 ∧
    (∀ p ∈ superset_retags, p ∈ change_allowed.dropLast) ∧
    ∀ p ∈ change_allowed.dropLast,
      (has_map_at p.1.toNat &&& imask_not (has_map_at p.2.toNat) = 0 ↔ p ∈ superset_retags) ∧
      (p ∉ superset_retags →
        ∃ s : slot_t, has_map_at p.1.toNat &&& slot_mask s ≠ 0 ∧
          has_map_at p.2.toNat &&& slot_mask s = 0) := by
  refine ⟨rfl, by decide, ?_⟩
  have key : ∀ p ∈ change_allowed.dropLast,
      ((∀ s ∈ schema.getD p.1.toNat [], s ∈ schema.getD p.2.toNat []) ↔ p ∈ superset_retags) ∧
      (p ∉ superset_retags → ∃ s : slot_t, s ∈ schema.getD p.1.toNat [] ∧
          s ∉ schema.getD p.2.toNat []) := by
    decide
  intro p hp
  obtain ⟨k1, k2⟩ := key p hp
  constructor
  · rw [has_map_at_eq, has_map_at_eq, mask_of_and_not]
    exact k1
  · intro hnp
    obtain ⟨s, hs1, hs2⟩ := k2 hnp
    refine ⟨s, ?_, ?_⟩
    · rw [has_slot_iff]; exact hs1
    · rw [has_map_at_eq, mask_of_and_slot_eq_zero]; exact hs2

end

theorem retag_superset_pairs_witness :
    @has_map_at sample_bits T_ASSERT &&& imask_not (@has_map_at sample_bits T_CASSERT) = 0 :=
  ((@retag_superset_pairs sample_bits).2.2 ((T_ASSERT : Int), (T_CASSERT : Int))
    (by decide)).1.mpr (by decide)

/-! ### C8 -/

section
variable [object_h]

theorem add_core_nb_barriers (m : imask_t) (t x : tree_t) (h : heap) :
    (add_core_nb m t x h).state.barriers = h.barriers := by
  cases hl : lookup_item tree_object t m h with
  | fatal h1 =>
    have h2 := pure_read_lookup_item tree_object t m h
    rw [hl, state_fatal] at h2
    subst h2
    simp only [add_core_nb, run_bind, hl, state_fatal]
  | ok r h1 =>
    obtain ⟨-, -, o, hn, hm⟩ := lookup_item_inv hl
    rw [add_core_nb_run hn hm]
    rfl

theorem tree_add_genmap_barriers (h : heap) (t e : tree_t) :
    (tree_add_genmap t e h).state.barriers = h.barriers := by
  unfold tree_add_genmap
  repeat' (first
    | exact add_core_nb_barriers _ t e h
    | refine peel (fun r => r.state.barriers = h.barriers) (by first
        | exact pure_read_tree_value _
        | exact pure_read_tree_assert_expr _) rfl (fun _ => ?_))

end

/-- C8, the failing input: in a state where node 2 is a T_PARAM whose value is an expression,
tree_add_genmap 1 2 returns and stores node 2 in the genmaps of the T_INSTANCE node 1, and no
call of object_write_barrier is made for the store (no call of tree_add_genmap ever makes
one); tree_add_param 1 2 in the same state makes the call object_write_barrier(1, 2). -/
theorem add_genmap_skips_write_barrier :
    (@tree_add_genmap sample_bits 1 2 genmap_state).succeeds = true ∧
    (@tree_genmap sample_bits 1 0 (@tree_add_genmap sample_bits 1 2 genmap_state).state).value
      = some 2 ∧
    genmap_state.barriers = [(2, 3)] ∧
    (@tree_add_genmap sample_bits 1 2 genmap_state).state.barriers = [(2, 3)] ∧
    (@tree_add_param sample_bits 1 2 genmap_state).succeeds = true ∧
    (@tree_add_param sample_bits 1 2 genmap_state).state.barriers = [(2, 3), (1, 2)] ∧
    ∀ (L : object_h) (h : heap) (t e : tree_t),
      (@tree_add_genmap L t e h).state.barriers = h.barriers :=
  ⟨by decide, by decide, by decide, by decide, by decide, by decide,
   fun L h t e => @tree_add_genmap_barriers L h t e⟩


/-! ### C9 -/

section
variable [object_h]

end

section
variable [object_h]

end

section
variable [object_h]

/-- The getters of a single reference that assert it to be non-null are terminated on a node
whose kind has the slot while the slot is unset. -/
theorem unset_reference_getters_fail (h : heap) (t : tree_t) (o : object_t) (hn : node h t o) :
      (has_map_at o.kind &&& I_VALUE ≠ 0 → (o.items I_VALUE).object = NULL →
        tree_value t h = outcome.fatal h) ∧
      (has_map_at o.kind &&& I_DELAY ≠ 0 → (o.items I_DELAY).object = NULL →
        tree_delay t h = outcome.fatal h) ∧
      (has_map_at o.kind &&& I_TARGET ≠ 0 → (o.items I_TARGET).object = NULL →
        tree_target t h = outcome.fatal h) ∧
      (has_map_at o.kind &&& I_REF ≠ 0 → (o.items I_REF).object = NULL →
        tree_ref t h = outcome.fatal h) ∧
      (has_map_at o.kind &&& I_SPEC ≠ 0 → (o.items I_SPEC).object = NULL →
        tree_spec t h = outcome.fatal h) ∧
      (has_map_at o.kind &&& I_SEVERITY ≠ 0 → (o.items I_SEVERITY).object = NULL →
        tree_severity t h = outcome.fatal h) ∧
      (has_map_at o.kind &&& I_MESSAGE ≠ 0 → (o.items I_MESSAGE).object = NULL →
        tree_message t h = outcome.fatal h) ∧
      (has_map_at o.kind &&& I_LEFT ≠ 0 → (o.items I_LEFT).object = NULL →
        tree_left t h = outcome.fatal h) ∧
      (has_map_at o.kind &&& I_RIGHT ≠ 0 → (o.items I_RIGHT).object = NULL →
        tree_right t h = outcome.fatal h) ∧
      (has_map_at o.kind &&& I_REJECT ≠ 0 → (o.items I_REJECT).object = NULL →
        tree_reject t h = outcome.fatal h) ∧
      (has_map_at o.kind &&& I_GUARD ≠ 0 → (o.items I_GUARD).object = NULL →
        tree_guard t h = outcome.fatal h) ∧
      (has_map_at o.kind &&& I_NAME ≠ 0 → (o.items I_NAME).object = NULL →
        tree_name t h = outcome.fatal h) ∧
      (has_map_at o.kind &&& I_PRIMARY ≠ 0 → (o.items I_PRIMARY).object = NULL →
        tree_primary t h = outcome.fatal h) ∧
      (has_map_at o.kind &&& I_EOPT ≠ 0 → (o.items I_EOPT).object = NULL →
        tree_eopt t h = outcome.fatal h) ∧
      (has_map_at o.kind &&& I_TYPE ≠ 0 → (o.items I_TYPE).type = NULL →
        tree_type t h = outcome.fatal h) := by
  refine ⟨?_, ?_, ?_, ?_, ?_, ?_, ?_, ?_, ?_, ?_, ?_, ?_, ?_, ?_, ?_⟩
  · intro hm hz
    simp only [tree_value, run_bind, lookup_item_ok hn hm, rd_ok hn, run_assert, hz, ne_eq,
      not_true_eq_false, if_false]
  · intro hm hz
    simp only [tree_delay, run_bind, lookup_item_ok hn hm, rd_ok hn, run_assert, hz, ne_eq,
      not_true_eq_false, if_false]
  · intro hm hz
    simp only [tree_target, run_bind, lookup_item_ok hn hm, rd_ok hn, run_assert, hz, ne_eq,
      not_true_eq_false, if_false]
  · intro hm hz
    simp only [tree_ref, run_bind, lookup_item_ok hn hm, rd_ok hn, run_assert, hz, ne_eq,
      not_true_eq_false, if_false]
  · intro hm hz
    simp only [tree_spec, run_bind, lookup_item_ok hn hm, rd_ok hn, run_assert, hz, ne_eq,
      not_true_eq_false, if_false]
  · intro hm hz
    simp only [tree_severity, run_bind, lookup_item_ok hn hm, rd_ok hn, run_assert, hz, ne_eq,
      not_true_eq_false, if_false]
  · intro hm hz
    simp only [tree_message, run_bind, lookup_item_ok hn hm, rd_ok hn, run_assert, hz, ne_eq,
      not_true_eq_false, if_false]
  · intro hm hz
    simp only [tree_left, run_bind, lookup_item_ok hn hm, rd_ok hn, run_assert, hz, ne_eq,
      not_true_eq_false, if_false]
  · intro hm hz
    simp only [tree_right, run_bind, lookup_item_ok hn hm, rd_ok hn, run_assert, hz, ne_eq,
      not_true_eq_false, if_false]
  · intro hm hz
    simp only [tree_reject, run_bind, lookup_item_ok hn hm, rd_ok hn, run_assert, hz, ne_eq,
      not_true_eq_false, if_false]
  · intro hm hz
    simp only [tree_guard, run_bind, lookup_item_ok hn hm, rd_ok hn, run_assert, hz, ne_eq,
      not_true_eq_false, if_false]
  · intro hm hz
    simp only [tree_name, run_bind, lookup_item_ok hn hm, rd_ok hn, run_assert, hz, ne_eq,
      not_true_eq_false, if_false]
  · intro hm hz
    simp only [tree_primary, run_bind, lookup_item_ok hn hm, rd_ok hn, run_assert, hz, ne_eq,
      not_true_eq_false, if_false]
  · intro hm hz
    simp only [tree_eopt, run_bind, lookup_item_ok hn hm, rd_ok hn, run_assert, hz, ne_eq,
      not_true_eq_false, if_false]
  · intro hm hz
    simp only [tree_type, run_bind, lookup_item_ok hn hm, rd_ok hn, run_assert, hz, ne_eq,
      not_true_eq_false, if_false]

theorem tree_file_mode_run {h : heap} {t : tree_t} {o : object_t} (hn : node h t o)
    (hm : has_map_at o.kind &&& I_FILE_MODE ≠ 0) :
    tree_file_mode t h = outcome.ok (o.items I_FILE_MODE).object h := by
  simp only [tree_file_mode, run_bind, lookup_item_ok hn hm, rd_ok hn, run_pure, container_of]

end

/-- C11, the failing input: a T_FILE_DECL node has the file mode slot; on a fresh one, whose
slot was never set, tree_file_mode returns the null reference instead of failing, and so it
does on every node whose kind has the slot and whose slot is unset; the fifteen other getters
of the list are terminated on such a node. -/
theorem file_mode_returns_null :
    @has_map_at sample_bits T_FILE_DECL &&& @I_FILE_MODE sample_bits ≠ 0 ∧
    (sample_obj T_FILE_DECL).items (@I_FILE_MODE sample_bits) = item_zero ∧
    @tree_file_mode sample_bits 1 (sample_heap [T_FILE_DECL])
      = outcome.ok NULL (sample_heap [T_FILE_DECL]) ∧
    (@tree_value sample_bits 1 (sample_heap [T_FILE_DECL])).succeeds = false ∧
    (∀ (L : object_h) (h : heap) (t : tree_t) (o : object_t), node h t o →
      @has_map_at L o.kind &&& @I_FILE_MODE L ≠ 0 → (o.items (@I_FILE_MODE L)).object = NULL →
      @tree_file_mode L t h = outcome.ok NULL h) ∧
    (∀ (L : object_h) (h : heap) (t : tree_t) (o : object_t), node h t o →
      (@has_map_at L o.kind &&& @I_VALUE L ≠ 0 → (o.items (@I_VALUE L)).object = NULL →
        @tree_value L t h = outcome.fatal h) ∧
      (@has_map_at L o.kind &&& @I_TYPE L ≠ 0 → (o.items (@I_TYPE L)).type = NULL →
        @tree_type L t h = outcome.fatal h)) := by
  refine ⟨by decide, rfl, ?_, by decide, ?_, ?_⟩
  · rw [@tree_file_mode_run sample_bits (sample_heap [T_FILE_DECL]) 1 (sample_obj T_FILE_DECL)
      ⟨by decide, rfl⟩ (by decide)]
    rfl
  · intro L h t o hn hm hz
    rw [@tree_file_mode_run L _ _ _ hn hm, hz]
  · intro L h t o hn
    have w := @unset_reference_getters_fail L h t o hn
    exact ⟨w.1, w.2.2.2.2.2.2.2.2.2.2.2.2.2.2⟩

/-! ### C12 -/

section
variable [object_h]

end

section
variable [object_h]

/-- C13: in every state reached from a state with no arena and no current arena by calls of
make_new_arena, tree_new and tree_write, at most one arena is not frozen, an arena that is not
frozen is the current one, and make_new_arena returns, having frozen the arena that was
current, if any, and installed as current a new arena that is not frozen. -/
theorem at_most_one_open_arena (h0 : heap) (ha : h0.arenas = []) (hg : h0.global_arena = NULL)
    (cs : List arena_call) :
    (run_all arena_call.run cs h0).state.open_arenas ≤ 1 ∧
    (∀ a b : Nat, (run_all arena_call.run cs h0).state.unfrozen a = true →
      (run_all arena_call.run cs h0).state.unfrozen b = true → a = b) ∧
    (∀ a : Nat, (run_all arena_call.run cs h0).state.unfrozen a = true →
      a = (run_all arena_call.run cs h0).state.global_arena) ∧
    ((run_all arena_call.run cs h0).state.global_arena ≠ NULL →
      (run_all arena_call.run cs h0).state.unfrozen
        (run_all arena_call.run cs h0).state.global_arena = true) ∧
    ∃ h1 : heap, make_new_arena (run_all arena_call.run cs h0).state = outcome.ok () h1 ∧
      ((run_all arena_call.run cs h0).state.global_arena ≠ NULL →
        h1.frozen (run_all arena_call.run cs h0).state.global_arena = true) ∧
      (run_all arena_call.run cs h0).state.is_arena h1.global_arena = false ∧
      h1.unfrozen h1.global_arena = true ∧
      h1.open_arenas = 1 ∧
      (∀ a : Nat, h1.unfrozen a = true → a = h1.global_arena) := by
  have hi := (arena_reachable cs h0 (initial_inv ha hg)).1
  generalize (run_all arena_call.run cs h0).state = h at hi ⊢
  refine ⟨?_, ?_, fun a hu => (arena_inv_unfrozen hi a hu).1, fun hne =>
    (arena_inv_current hi hne).1, ?_⟩
  · rw [arena_inv_open hi]
    split <;> omega
  · intro a b hua hub
    rw [(arena_inv_unfrozen hi a hua).1, (arena_inv_unfrozen hi b hub).1]
  · obtain ⟨h1, hr, hi1, hcur, hlen, hun, hfr, -, -, -⟩ := make_new_arena_step hi
    refine ⟨h1, hr, hfr, ?_, hun, ?_, fun a hu => (arena_inv_unfrozen hi1 a hu).1⟩
    · simp [heap.is_arena, hcur]
    · rw [arena_inv_open hi1, if_neg]
      rw [hcur]
      simp [NULL]

end

theorem at_most_one_open_arena_witness :
    (@run_all arena_call (@arena_call.run sample_bits)
      [arena_call.new_arena, arena_call.new T_ENTITY, arena_call.new_arena,
       arena_call.write 1 0, arena_call.new_arena] initial_state).state.open_arenas ≤ 1 :=
  (@at_most_one_open_arena sample_bits initial_state rfl rfl
    [arena_call.new_arena, arena_call.new T_ENTITY, arena_call.new_arena,
     arena_call.write 1 0, arena_call.new_arena]).1

/-! ### C14 -/

section
variable [object_h]

/-- C14: in every state reached from the state of a process with no node and no arena by
calls of make_new_arena, tree_new and tree_write, tree_write of a node hands the node to
object_write in a state in which the arena that holds the node is frozen, and it returns; after
the call the arena that was current is frozen and there is no current arena. -/
theorem nothing_written_is_mutable (h0 : heap) (ha : h0.arenas = [])
    (hg : h0.global_arena = NULL) (ho : ∀ p : Nat, h0.objs p = none) (cs : List arena_call)
    (t : tree_t) (o : object_t) (f : Nat)
    (hn : node (run_all arena_call.run cs h0).state t o) :
    tree_write t f (run_all arena_call.run cs h0).state
      = object_write t f (run_all arena_call.run cs h0).state.freeze_current ∧
    (run_all arena_call.run cs h0).state.freeze_current.arena_of t
      = (run_all arena_call.run cs h0).state.arena_of t ∧
    (run_all arena_call.run cs h0).state.freeze_current.frozen
      ((run_all arena_call.run cs h0).state.arena_of t) = true ∧
    ∃ h2 : heap, tree_write t f (run_all arena_call.run cs h0).state = outcome.ok () h2 ∧
      h2.written = (run_all arena_call.run cs h0).state.written ++ [t] ∧
      h2.frozen (h2.arena_of t) = true ∧
      h2.global_arena = NULL ∧
      ((run_all arena_call.run cs h0).state.global_arena ≠ NULL →
        h2.frozen (run_all arena_call.run cs h0).state.global_arena = true) ∧
      h2.open_arenas = 0 := by
  have hr := arena_reachable cs h0 (initial_inv ha hg)
  have hi := hr.1
  have hown := hr.2 (fun p hp => absurd (ho p) hp)
  generalize (run_all arena_call.run cs h0).state = h at hi hown hn ⊢
  obtain ⟨hi1, hg1, hlen, hcur, hall, hobjs, harena, hwr⟩ := freeze_current_spec hi
  have hfr : h.freeze_current.frozen (h.arena_of t) = true :=
    hall _ (hown t (by rw [hn.2]; simp))
  have hn1 : node h.freeze_current t o := ⟨hn.1, by rw [hobjs]; exact hn.2⟩
  have hfr1 : h.freeze_current.frozen (h.freeze_current.arena_of t) = true := by
    rw [harena]; exact hfr
  refine ⟨tree_write_factor hi t f, by rw [harena], hfr,
    { h.freeze_current with written := h.freeze_current.written ++ [t] },
    ?_, ?_, ?_, ?_, ?_, ?_⟩
  · rw [tree_write_factor hi t f, object_write_run hn1, if_pos hfr1]
  · simp only [hwr]
  · exact hfr1
  · exact hg1
  · exact hcur
  · have := arena_inv_open hi1
    rw [if_pos hg1] at this
    exact this

end

theorem nothing_written_is_mutable_witness :
    (tree_write 1 7
      (@run_all arena_call (@arena_call.run sample_bits)
        [arena_call.new_arena, arena_call.new T_ENTITY] initial_state).state).succeeds = true :=
  have w := @nothing_written_is_mutable sample_bits initial_state rfl rfl (fun _ => rfl)
    [arena_call.new_arena, arena_call.new T_ENTITY] 1
    { kind := T_ENTITY, loc := 0, items := fun _ => item_zero } 7
    ⟨by decide, by simp [run_all, arena_call.run, make_new_arena, tree_new, object_new,
      get_global_arena, set_global_arena, object_arena_new, initial_state, run_bind, run_ite,
      heap.unfrozen, heap.is_arena, NULL]⟩
  by
    obtain ⟨h2, e, -⟩ := w.2.2.2
    rw [e]
    rfl

/-! ### C16 -/

section
variable [object_h]

theorem object_visit_takes (fuel : Nat) (t : tree_t) (ctx : object_visit_ctx_t) (h : heap)
    (hg : ctx.generation = h.next_generation) :
    ∃ r h1, object_visit fuel t ctx { h with next_generation := h.next_generation + 1 }
        = outcome.ok r h1 ∧ takes_one h h1 := by
  refine ⟨_, _, rfl, rfl, by simp only [hg], _, rfl, ?_⟩
  intro c hc
  simp only [List.mem_map] at hc
  obtain ⟨x, -, rfl⟩ := hc
  exact hg

theorem traversal_step (c : traversal_call) (h : heap) :
    ((c.run h).succeeds = false ∧ (c.run h).state = h) ∨
    ((c.run h).succeeds = true ∧ takes_one h (c.run h).state) := by
  cases c with
  | visit fuel t fn context =>
    by_cases ht : t = NULL
    · subst ht
      left
      simp only [traversal_call.run, run_bind, tree_visit_null, succeeds_fatal, state_fatal,
        and_self]
    · right
      obtain ⟨r, h1, e, htk⟩ := object_visit_takes fuel t
        { count := 0, postorder := fn, preorder := NULL, context := context,
          kind := T_LAST_TREE_KIND, generation := h.next_generation, deep := false } h rfl
      simp only [traversal_call.run, run_bind, tree_visit_run fuel t fn context h ht, e,
        run_pure, succeeds_ok, state_ok, true_and]
      exact htk
  | visit_only fuel t fn context kind =>
    by_cases ht : t = NULL
    · subst ht
      left
      simp only [traversal_call.run, run_bind, tree_visit_only_null, succeeds_fatal,
        state_fatal, and_self]
    · right
      obtain ⟨r, h1, e, htk⟩ := object_visit_takes fuel t
        { count := 0, postorder := fn, preorder := NULL, context := context,
          kind := kind, generation := h.next_generation, deep := false } h rfl
      simp only [traversal_call.run, run_bind, tree_visit_only_run fuel t fn context kind h ht,
        e, run_pure, succeeds_ok, state_ok, true_and]
      exact htk
  | rewrite t pre_fn post_fn context =>
    right
    simp only [traversal_call.run, tree_rewrite, run_bind, object_next_generation,
      get_global_arena, object_rewrite, run_pure, succeeds_ok, state_ok, true_and]
    exact ⟨rfl, rfl, [], by simp, by simp⟩
  | copy t pred tree_callback type_callback context =>
    right
    simp only [traversal_call.run, tree_copy, run_bind, object_next_generation,
      get_global_arena, object_copy, run_pure, succeeds_ok, state_ok, true_and]
    exact ⟨rfl, rfl, [], by simp, by simp⟩

theorem traversals_run (cs : List traversal_call) :
    ∀ h : heap, ∃ new : List Nat,
      (run_all traversal_call.run cs h).state.traversals = h.traversals ++ new ∧
      (run_all traversal_call.run cs h).state.next_generation
        = h.next_generation + new.length ∧
      new = List.range' h.next_generation new.length ∧
      new.length ≤ cs.length ∧
      ((run_all traversal_call.run cs h).succeeds = true → new.length = cs.length) := by
  induction cs with
  | nil =>
    intro h
    exact ⟨[], by simp [run_all], by simp [run_all], rfl, by simp, fun _ => rfl⟩
  | cons c cs ih =>
    intro h
    have e : run_all traversal_call.run (c :: cs) h
        = (traversal_call.run c >>= fun _ => run_all traversal_call.run cs) h := rfl
    rw [e, run_bind]
    rcases traversal_step c h with ⟨hs, hst⟩ | ⟨hs, hst⟩
    · cases hc : traversal_call.run c h with
      | ok a h1 => rw [hc] at hs; cases hs
      | fatal h1 =>
        rw [hc, state_fatal] at hst
        subst hst
        exact ⟨[], by simp, by simp, rfl, by simp, fun hx => by cases hx⟩
    · cases hc : traversal_call.run c h with
      | fatal h1 => rw [hc] at hs; cases hs
      | ok a h1 =>
        rw [hc, state_ok] at hst
        obtain ⟨hg, htr, -⟩ := hst
        obtain ⟨new, e1, e2, e3, e4, e5⟩ := ih h1
        refine ⟨h.next_generation :: new, ?_, ?_, ?_, ?_, ?_⟩
        · simp only [e1, htr, List.append_assoc, List.singleton_append]
        · simp only [e2, hg, List.length_cons]
          omega
        · rw [List.length_cons, List.range'_succ, ← hg, ← e3]
        · simp only [List.length_cons]
          omega
        · intro hx
          simp only [List.length_cons, e5 hx]

/-- C16: a call of tree_visit, tree_visit_only, tree_rewrite or tree_copy that returns has
taken one value from the generation counter, which is then one higher, and has handed that
value to its engine and to every call of the callback; a call that does not return has taken
none.  Hence, from a state in which the generations used so far are below the counter and
strictly increasing, after every sequence of such calls the generations used are strictly
increasing, no two are equal, and there is one for every call when all of them return. -/
theorem one_generation_per_traversal (h0 : heap) (hf : generations_fresh h0)
    (cs : List traversal_call) :
    (∀ (c : traversal_call) (h : heap),
      ((c.run h).succeeds = false ∧ (c.run h).state = h) ∨
      ((c.run h).succeeds = true ∧ takes_one h (c.run h).state)) ∧
    generations_fresh (run_all traversal_call.run cs h0).state ∧
    (run_all traversal_call.run cs h0).state.traversals.Nodup ∧
    (∃ new : List Nat,
      (run_all traversal_call.run cs h0).state.traversals = h0.traversals ++ new ∧
      new = List.range' h0.next_generation new.length ∧
      new.length ≤ cs.length ∧
      ((run_all traversal_call.run cs h0).succeeds = true → new.length = cs.length)) := by
  obtain ⟨new, e1, e2, e3, e4, e5⟩ := traversals_run cs h0
  have hfresh : generations_fresh (run_all traversal_call.run cs h0).state := by
    constructor
    · intro g hg
      rw [e1, List.mem_append] at hg
      rw [e2]
      rcases hg with hg | hg
      · have := hf.1 g hg
        omega
      · rw [e3, List.mem_range'_1] at hg
        exact hg.2
    · rw [e1, List.pairwise_append]
      refine ⟨hf.2, ?_, ?_⟩
      · rw [e3]
        exact List.pairwise_lt_range' _ _
      · intro a ha b hb
        rw [e3, List.mem_range'_1] at hb
        have := hf.1 a ha
        omega
  refine ⟨traversal_step, hfresh, ?_, new, e1, e3, e4, e5⟩
  exact hfresh.2.imp (fun hab => Nat.ne_of_lt hab)

end

theorem one_generation_per_traversal_witness :
    (@run_all traversal_call (@traversal_call.run sample_bits)
      [traversal_call.visit 5 1 0 0, traversal_call.rewrite 1 0 0 0,
       traversal_call.copy 1 0 0 0 0, traversal_call.visit_only 5 2 0 0 T_REF]
      (sample_heap [T_ENTITY, T_REF])).state.traversals.Nodup :=
  (@one_generation_per_traversal sample_bits (sample_heap [T_ENTITY, T_REF])
    ⟨by simp [sample_heap], by simp [sample_heap]⟩
    [traversal_call.visit 5 1 0 0, traversal_call.rewrite 1 0 0 0,
     traversal_call.copy 1 0 0 0 0, traversal_call.visit_only 5 2 0 0 T_REF]).2.2.1

/-! ### C17 -/

section
variable [object_h]

/-- C17: tree_visit of a node R, with more fuel than there are addresses in use and no node
stamped with a generation that is still to come, returns; it calls fn on the nodes reachable
from R and on no other, on each exactly once, so on a node X that two reachable nodes A and B
both refer to exactly once, and the count it returns is the number of nodes reachable
from R. -/
theorem traversal_exactly_once (h : heap) (n fuel : Nat)
    (hn : ∀ p : Nat, n ≤ p → h.objs p = none) (hfuel : n < fuel)
    (hfresh : ∀ x : Nat, h.marks x < h.next_generation)
    (R : tree_t) (oR : object_t) (hR : node h R oR) (fn context : Nat) :
    ∃ (post : List Nat) (h1 : heap),
      tree_visit fuel R fn context h = outcome.ok post.length h1 ∧
      h1.callbacks = h.callbacks ++ post.map
        (fun x => { fn := fn, generation := h.next_generation, object := x }) ∧
      post.Nodup ∧
      (∀ x : Nat, x ∈ post ↔ reaches h.objs R x) ∧
      (∀ x : Nat, post.count x ≤ 1) ∧
      (∀ x : Nat, reaches h.objs R x → post.count x = 1) ∧
      (∀ A B X : Nat, reaches h.objs R A → reaches h.objs R B → refers h.objs A X →
        refers h.objs B X → post.count X = 1) ∧
      Set.ncard { x : Nat | reaches h.objs R x } = post.length := by
  have hor : h.objs R ≠ none := by rw [hR.2]; simp
  obtain ⟨w1, w2, w3, -, -⟩ := object_walk_reaches h.next_generation hn hfuel h.marks
    (fun x => Nat.ne_of_lt (hfresh x)) R hR.1 hor
  have hfilter : ((object_walk h.objs h.next_generation fuel (h.marks, []) R).2.filter
      (visit_filter h.objs
        { count := 0, postorder := fn, preorder := NULL, context := context,
          kind := T_LAST_TREE_KIND, generation := h.next_generation, deep := false }))
      = (object_walk h.objs h.next_generation fuel (h.marks, []) R).2 := by
    rw [List.filter_eq_self]
    intro x hx
    have := (w3 x hx).2
    cases ho : h.objs x with
    | none => exact absurd ho this
    | some o => simp [visit_filter, ho, tree_object]
  refine ⟨(object_walk h.objs h.next_generation fuel (h.marks, []) R).2,
    { h with
      next_generation := h.next_generation + 1,
      marks := (object_walk h.objs h.next_generation fuel (h.marks, []) R).1,
      traversals := h.traversals ++ [h.next_generation],
      callbacks := h.callbacks ++
        (object_walk h.objs h.next_generation fuel (h.marks, []) R).2.map
          (fun x => { fn := fn, generation := h.next_generation, object := x }) },
    ?_, rfl, w1, w2, fun x => List.nodup_iff_count_le_one.mp w1 x, ?_, ?_, ?_⟩
  · rw [tree_visit_run fuel R fn context h hR.1]
    simp only [run_bind, object_visit, hfilter, run_pure, Nat.zero_add]
  · intro x hx
    exact List.count_eq_one_of_mem w1 ((w2 x).mpr hx)
  · intro A B X hA _ hAX _
    exact List.count_eq_one_of_mem w1 ((w2 X).mpr (Relation.ReflTransGen.tail hA hAX))
  · have e : { x : Nat | reaches h.objs R x }
        = ((object_walk h.objs h.next_generation fuel (h.marks, []) R).2.toFinset : Set Nat) := by
      ext x
      simp only [Set.mem_setOf_eq, List.coe_toFinset]
      exact (w2 x).symm
    rw [e, Set.ncard_coe_Finset, List.toFinset_card_of_nodup w1]

end

theorem traversal_exactly_once_witness :
    (@tree_visit sample_bits 6 1 0 0 diamond_state).value = some 4 ∧
    ((@tree_visit sample_bits 6 1 0 0 diamond_state).state.callbacks.map
      (fun c => c.object)) = [4, 2, 3, 1] ∧
    ∃ (post : List Nat) (h1 : heap),
      @tree_visit sample_bits 6 1 0 0 diamond_state = outcome.ok post.length h1 ∧
      post.Nodup ∧ post.count 4 = 1 :=
  have w := @traversal_exactly_once sample_bits diamond_state 5 6
    (fun p hp => by
      have h1 : p ≠ 1 := by omega
      have h2 : ¬ (p = 2 ∨ p = 3) := by omega
      have h4 : p ≠ 4 := by omega
      simp [diamond_state, h1, h2, h4])
    (by decide) (fun _ => Nat.lt_succ_self 0) 1 _ ⟨by decide, rfl⟩ 0 0
  ⟨by decide, by decide,
    by
      obtain ⟨post, h1, e, -, hnd, hmem, -, hcount, -⟩ := w
      refine ⟨post, h1, e, hnd, hcount 4 ?_⟩
      have r12 : @refers sample_bits diamond_state.objs 1 2 :=
        ⟨by decide, by decide, ⟨_, rfl, by decide⟩, by simp [diamond_state]⟩
      have r24 : @refers sample_bits diamond_state.objs 2 4 :=
        ⟨by decide, by decide, ⟨_, rfl, by decide⟩, by simp [diamond_state]⟩
      exact Relation.ReflTransGen.tail (Relation.ReflTransGen.single r12) r24⟩

/-! ### C18 -/

/-- C18: stmt_kinds, expr_kinds and decl_kinds list their kinds without repetition and no
kind is in two of them, so every kind is in at most one of the three categories, and none of
the 8 root kinds of tree_object is in any of them. -/
theorem categories_disjoint :
    stmt_kinds.Nodup ∧ expr_kinds.Nodup ∧ decl_kinds.Nodup ∧
    (∀ k ∈ stmt_kinds, k ∉ expr_kinds ∧ k ∉ decl_kinds) ∧
    (∀ k ∈ expr_kinds, k ∉ stmt_kinds ∧ k ∉ decl_kinds) ∧
    (∀ k ∈ decl_kinds, k ∉ stmt_kinds ∧ k ∉ expr_kinds) ∧
    (∀ k : tree_kind_t,
      ¬ (k ∈ stmt_kinds ∧ k ∈ expr_kinds) ∧ ¬ (k ∈ stmt_kinds ∧ k ∈ decl_kinds) ∧
      ¬ (k ∈ expr_kinds ∧ k ∈ decl_kinds)) ∧
    (∀ L : object_h, (@tree_object L).gc_num_roots = 8 ∧ (@tree_object L).gc_roots.length = 8 ∧
      ∀ k ∈ (@tree_object L).gc_roots, k ∉ stmt_kinds ∧ k ∉ expr_kinds ∧ k ∉ decl_kinds) := by
  have h1 : ∀ k ∈ stmt_kinds, k ∉ expr_kinds ∧ k ∉ decl_kinds := by decide
  have h2 : ∀ k ∈ expr_kinds, k ∉ stmt_kinds ∧ k ∉ decl_kinds := by decide
  have h3 : ∀ k ∈ decl_kinds, k ∉ stmt_kinds ∧ k ∉ expr_kinds := by decide
  refine ⟨by decide, by decide, by decide, h1, h2, h3, ?_, ?_⟩
  · intro k
    exact ⟨fun h => (h1 k h.1).1 h.2, fun h => (h1 k h.1).2 h.2, fun h => (h2 k h.1).2 h.2⟩
  · intro L
    refine ⟨rfl, rfl, ?_⟩
    show ∀ k ∈ [T_ARCH, T_ENTITY, T_PACKAGE, T_ELAB, T_PACK_BODY, T_CONTEXT, T_CONFIGURATION,
      T_DESIGN_UNIT], k ∉ stmt_kinds ∧ k ∉ expr_kinds ∧ k ∉ decl_kinds
    decide

/-! ### C19 -/

theorem touches_only_refl (m : imask_t) (t : Nat) (h : heap) : touches_only m t h h :=
  ⟨fun _ _ => rfl, fun hn => hn, fun o ho => ⟨o, ho, rfl, rfl, fun _ _ => rfl⟩⟩

theorem touches_only_trans {m : imask_t} {t : Nat} {h h1 h2 : heap}
    (h01 : touches_only m t h h1) (h12 : touches_only m t h1 h2) : touches_only m t h h2 := by
  refine ⟨fun p hp => (h12.1 p hp).trans (h01.1 p hp), fun hn => h12.2.1 (h01.2.1 hn), ?_⟩
  intro o ho
  obtain ⟨o1, ho1, k1, l1, i1⟩ := h01.2.2 o ho
  obtain ⟨o2, ho2, k2, l2, i2⟩ := h12.2.2 o1 ho1
  exact ⟨o2, ho2, k2.trans k1, l2.trans l1, fun m1 hm1 => (i2 m1 hm1).trans (i1 m1 hm1)⟩

theorem touches_only_put {h : heap} {t : Nat} {o : object_t} (hn : node h t o) (m : imask_t)
    (f : item_t → item_t) : touches_only m t h (h.put { obj := t, slot := m } o f) := by
  refine ⟨?_, ?_, ?_⟩
  · intro p hp
    simp [heap.put, Function.update_noteq hp]
  · intro hnone
    rw [hn.2] at hnone
    cases hnone
  · intro o0 ho0
    have : o0 = o := Option.some.inj (ho0.symm.trans hn.2)
    subst this
    refine ⟨o0.upd m f, by simp [heap.put], rfl, rfl, ?_⟩
    intro m1 hm1
    exact upd_items_ne o0 f hm1

theorem touches_only_log {m : imask_t} {t : Nat} {h h1 : heap} (l r : Nat)
    (h01 : touches_only m t h h1) : touches_only m t h (h1.log l r) := h01

theorem lookup_item_fatal_state {cls : object_class_t} {t : Nat} {m : imask_t} {h h1 : heap}
    (hl : lookup_item cls t m h = outcome.fatal h1) : h1 = h := by
  have h2 := pure_read_lookup_item cls t m h
  rw [hl, state_fatal] at h2
  exact h2

theorem tree_array_insert_frame {h : heap} {t : Nat} {o : object_t} (hn : node h t o)
    (m : imask_t) (pos : Nat) (d : tree_t) (h32 : pos < 2 ^ 32) :
    touches_only m t h (tree_array_insert { obj := t, slot := m } pos d h).state := by
  have e32 : to_unsigned pos = pos := to_unsigned_of_lt h32
  by_cases hp : pos ≤ (o.items m).obj_array.length
  · by_cases he : pos = (o.items m).obj_array.length
    · have : tree_array_insert { obj := t, slot := m } pos d h
          = outcome.ok () (h.put { obj := t, slot := m } o (push d)) := by
        simp only [tree_array_insert, e32, run_bind, rd_ok hn, run_assert, if_pos hp, run_ite,
          if_pos he, wr_ok hn]
        rfl
      rw [this]
      exact touches_only_put hn m _
    · have hn1 := node_put hn m
        (fun it => { it with obj_array := ARESIZE it.obj_array (it.obj_array.length + 1) })
      have hn2 := node_put hn1 m
        (fun it =>
          { it with obj_array :=
                      memmove it.obj_array (pos + 1) pos (it.obj_array.length - 1 - pos) })
      have ht := touches_only_trans (touches_only_trans (touches_only_put hn m _)
        (touches_only_put hn1 m _))
        (touches_only_put hn2 m (fun it => { it with obj_array := it.obj_array.set pos d }))
      simp only [tree_array_insert, e32, run_bind, rd_ok hn, run_assert, if_pos hp, run_ite,
        if_neg he, wr_ok hn, wr_ok hn1, wr_ok hn2, state_ok]
      exact ht
  · have : tree_array_insert { obj := t, slot := m } pos d h = outcome.fatal h := by
      simp only [tree_array_insert, e32, run_bind, rd_ok hn, run_assert, if_neg hp]
    rw [this]
    exact touches_only_refl m t h

section
variable [object_h]

theorem add_core_frame (m : imask_t) (t x : tree_t) (h : heap) :
    touches_only m t h (add_core m t x h).state := by
  cases hl : lookup_item tree_object t m h with
  | fatal h1 =>
    have := lookup_item_fatal_state hl
    subst this
    have : add_core m t x h1 = outcome.fatal h1 := by simp only [add_core, run_bind, hl]
    rw [this]
    exact touches_only_refl m t h1
  | ok r h1 =>
    obtain ⟨-, -, o, hn, hm⟩ := lookup_item_inv hl
    rw [add_core_run hn hm, state_ok]
    exact touches_only_log t x (touches_only_put hn m _)

theorem insert_core_frame (t d : tree_t) (pos : Nat) (h32 : pos < 2 ^ 32) (h : heap) :
    touches_only I_DECLS t h
      ((lookup_item tree_object t I_DECLS >>= fun item =>
        tree_array_insert item pos d >>= fun _ => object_write_barrier t d) h).state := by
  cases hl : lookup_item tree_object t I_DECLS h with
  | fatal h1 =>
    have := lookup_item_fatal_state hl
    subst this
    simp only [run_bind, hl, state_fatal]
    exact touches_only_refl _ t h1
  | ok r h1 =>
    obtain ⟨rfl, rfl, o, hn, hm⟩ := lookup_item_inv hl
    have hf := tree_array_insert_frame hn I_DECLS pos d h32
    simp only [run_bind, hl]
    cases hi : tree_array_insert { obj := t, slot := I_DECLS } pos d h1 with
    | fatal h2 =>
      rw [hi] at hf
      exact hf
    | ok u h2 =>
      rw [hi] at hf
      exact touches_only_log t d hf

end

theorem tree_assert_kind_inv {h h1 : heap} {d : Nat} {l : List tree_kind_t} {w : String}
    (hr : tree_assert_kind d l w h = outcome.ok () h1) :
    ∃ od, node h d od ∧ od.kind ∈ l := by
  cases hd : deref d h with
  | fatal h2 =>
    simp only [tree_assert_kind, tree_kind_in, run_bind, hd] at hr
    cases hr
  | ok od h2 =>
    obtain ⟨rfl, hn⟩ := deref_state hd
    refine ⟨od, hn, ?_⟩
    rw [tree_assert_kind_run hn] at hr
    by_contra hk
    rw [if_neg hk] at hr
    cases hr

theorem kinds_kept {m : imask_t} {t : Nat} {h h1 : heap} (hf : touches_only m t h h1)
    {y : Nat} {oy : object_t} (hy : node h y oy) :
    ∃ oy1, node h1 y oy1 ∧ oy1.kind = oy.kind := by
  by_cases e : y = t
  · subst e
    obtain ⟨o1, ho1, hk, -⟩ := hf.2.2 oy hy.2
    exact ⟨o1, ⟨hy.1, ho1⟩, hk⟩
  · exact ⟨oy, ⟨hy.1, (hf.1 y e).trans hy.2⟩, rfl⟩

theorem list_ok_mono {h h1 : heap} {l : List tree_kind_t}
    (hk : ∀ y oy, node h y oy → oy.kind ∈ l → ∃ oy1, node h1 y oy1 ∧ oy1.kind ∈ l)
    {xs : List Nat} (hx : list_ok h l xs) : list_ok h1 l xs := by
  intro x hmem
  obtain ⟨ox, hn, hkx⟩ := hx x hmem
  exact hk x ox hn hkx

section
variable [object_h]

theorem kinded_slots_inj {p q : imask_t × List tree_kind_t} (hp : p ∈ kinded_slots)
    (hq : q ∈ kinded_slots) (e : q.1 = p.1) : q.2 = p.2 := by
  simp only [kinded_slots, List.mem_cons, List.not_mem_nil, or_false] at hp hq
  rcases hp with rfl | rfl | rfl | rfl | rfl <;> rcases hq with rfl | rfl | rfl | rfl | rfl <;>
    first
    | rfl
    | exact absurd (slot_mask_inj e) (by decide)

/-- A step that touches one kinded slot of one node, and puts there only addresses that were
there or the address x, keeps the sequences well-kinded when x is of the kinds of the slot. -/
theorem well_kinded_step {h h1 : heap} {t x : Nat} {p : imask_t × List tree_kind_t}
    (hp : p ∈ kinded_slots) (hw : well_kinded h) (hf : touches_only p.1 t h h1)
    (hnew : ∀ o o1, h.objs t = some o → h1.objs t = some o1 →
      ∀ y ∈ o1.seq p.1, y ∈ o.seq p.1 ∨ y = x)
    (hx : (∃ o, h.objs t = some o) → ∃ ox, node h x ox ∧ ox.kind ∈ p.2) : well_kinded h1 := by
  have keep : ∀ (l : List tree_kind_t) (y : Nat) (oy : object_t), node h y oy → oy.kind ∈ l →
      ∃ oy1, node h1 y oy1 ∧ oy1.kind ∈ l := by
    intro l y oy hy hk
    obtain ⟨oy1, hy1, e⟩ := kinds_kept hf hy
    exact ⟨oy1, hy1, e ▸ hk⟩
  intro t1 o1 hn1 q hq
  by_cases e : t1 = t
  · subst e
    cases ho : h.objs t1 with
    | none =>
      have := hf.2.1 ho
      rw [hn1.2] at this
      cases this
    | some o =>
      obtain ⟨o2, ho2, -, -, hi⟩ := hf.2.2 o ho
      have e2 : o2 = o1 := Option.some.inj (ho2.symm.trans hn1.2)
      subst e2
      have hold := hw t1 o ⟨hn1.1, ho⟩ q hq
      by_cases em : q.1 = p.1
      · have el := kinded_slots_inj hp hq em
        intro y hy
        rw [em] at hy
        rcases hnew o o2 ho hn1.2 y hy with hy1 | rfl
        · rw [← em] at hy1
          obtain ⟨oy, hny, hky⟩ := hold y hy1
          exact keep q.2 y oy hny hky
        · obtain ⟨ox, hnx, hkx⟩ := hx ⟨o, ho⟩
          rw [el]
          exact keep p.2 y ox hnx hkx
      · have : o2.seq q.1 = o.seq q.1 := by
          simp only [object_t.seq, hi q.1 em]
        rw [this]
        exact list_ok_mono (keep q.2) hold
  · have ho : h.objs t1 = some o1 := (hf.1 t1 e).symm.trans hn1.2
    exact list_ok_mono (keep q.2) (hw t1 o1 ⟨hn1.1, ho⟩ q hq)

theorem add_core_elems (m : imask_t) (t x : tree_t) (h : heap) :
    ∀ o o1, h.objs t = some o → (add_core m t x h).state.objs t = some o1 →
      ∀ y ∈ o1.seq m, y ∈ o.seq m ∨ y = x := by
  intro o o1 ho ho1 y hy
  cases hl : lookup_item tree_object t m h with
  | fatal h1 =>
    have := lookup_item_fatal_state hl
    subst this
    have e : add_core m t x h1 = outcome.fatal h1 := by simp only [add_core, run_bind, hl]
    rw [e, state_fatal, ho] at ho1
    cases ho1
    exact Or.inl hy
  | ok r h1 =>
    obtain ⟨-, -, o2, hn, hm⟩ := lookup_item_inv hl
    have e2 : o2 = o := Option.some.inj (hn.2.symm.trans ho)
    subst e2
    rw [add_core_run hn hm, state_ok] at ho1
    have e1 := (node_log t x).mpr (node_put hn m (push x))
    have e3 : o1 = o2.upd m (push x) := Option.some.inj (ho1.symm.trans e1.2)
    subst e3
    simp only [object_t.seq, upd_items_same, push, APUSH_eq, List.mem_append,
      List.mem_singleton] at hy
    exact hy

theorem insert_core_elems (t d : tree_t) (pos : Nat) (h32 : pos < 2 ^ 32) (h : heap) :
    ∀ o o1, h.objs t = some o →
      ((lookup_item tree_object t I_DECLS >>= fun item =>
        tree_array_insert item pos d >>= fun _ => object_write_barrier t d) h).state.objs t
        = some o1 →
      ∀ y ∈ o1.seq I_DECLS, y ∈ o.seq I_DECLS ∨ y = d := by
  intro o o1 ho ho1 y hy
  cases hl : lookup_item tree_object t I_DECLS h with
  | fatal h1 =>
    have := lookup_item_fatal_state hl
    subst this
    simp only [run_bind, hl, state_fatal, ho] at ho1
    cases ho1
    exact Or.inl hy
  | ok r h1 =>
    obtain ⟨rfl, rfl, o2, hn, hm⟩ := lookup_item_inv hl
    have e2 : o2 = o := Option.some.inj (hn.2.symm.trans ho)
    subst e2
    by_cases hp : pos ≤ (o2.seq I_DECLS).length
    · obtain ⟨h2, o3, hr, hn3, -, -, hs⟩ := tree_array_insert_run hn I_DECLS pos d h32 hp
      simp only [run_bind, hl, hr, run_object_write_barrier, state_ok] at ho1
      have e3 : o1 = o3 := Option.some.inj (ho1.symm.trans ((node_log t d).mpr hn3).2)
      subst e3
      rw [hs, List.mem_append, List.mem_cons] at hy
      rcases hy with hy | rfl | hy
      · exact Or.inl (List.mem_of_mem_take hy)
      · exact Or.inr rfl
      · exact Or.inl (List.mem_of_mem_drop hy)
    · simp only [run_bind, hl, tree_array_insert_fatal hn I_DECLS pos d h32 hp, state_fatal,
        ho] at ho1
      cases ho1
      exact Or.inl hy

theorem retag_keeps_category :
    ∀ p ∈ change_allowed.dropLast,
      (p.1 ∈ stmt_kinds.map Int.ofNat → p.2 ∈ stmt_kinds.map Int.ofNat) ∧
      (p.1 ∈ decl_kinds.map Int.ofNat → p.2 ∈ decl_kinds.map Int.ofNat) := by
  decide

theorem kinded_slots_kinds {q : imask_t × List tree_kind_t} (hq : q ∈ kinded_slots) :
    q.2 = stmt_kinds ∨ q.2 = decl_kinds := by
  simp only [kinded_slots, List.mem_cons, List.not_mem_nil, or_false] at hq
  rcases hq with rfl | rfl | rfl | rfl | rfl <;> simp

theorem retag_kind_mem {a b : tree_kind_t} {l : List tree_kind_t}
    (hl : l = stmt_kinds ∨ l = decl_kinds)
    (hs : change_allowed_scan tree_object.change_allowed a b = true) (ha : a ∈ l) : b ∈ l := by
  have hp := (retag_allowed_iff a b).mp hs
  have hk := retag_keeps_category _ hp
  have cast : ∀ (l0 : List tree_kind_t) (n : Nat), (n : Int) ∈ l0.map Int.ofNat ↔ n ∈ l0 := by
    intro l0 n
    simp only [List.mem_map]
    constructor
    · rintro ⟨k, hk1, hk2⟩
      have : k = n := Int.ofNat.inj hk2
      exact this ▸ hk1
    · intro hn
      exact ⟨n, hn, rfl⟩
  rcases hl with rfl | rfl
  · exact (cast _ b).mp (hk.1 ((cast _ a).mpr ha))
  · exact (cast _ b).mp (hk.2 ((cast _ a).mpr ha))

theorem well_kinded_change_kind (t : tree_t) (kind : tree_kind_t) (h : heap)
    (hw : well_kinded h) : well_kinded (tree_change_kind t kind h).state := by
  cases hd : deref t h with
  | fatal h2 =>
    have e := pure_read_deref t h
    rw [hd, state_fatal] at e
    subst e
    simp only [tree_change_kind, object_change_kind, hd, state_fatal]
    exact hw
  | ok o h2 =>
    obtain ⟨rfl, hn⟩ := deref_state hd
    by_cases hs : change_allowed_scan tree_object.change_allowed o.kind kind = true
    · simp only [tree_change_kind, object_change_kind, hd, hs, if_true, state_ok]
      have keep : ∀ (l : List tree_kind_t), (l = stmt_kinds ∨ l = decl_kinds) →
          ∀ (y : Nat) (oy : object_t), node h2 y oy → oy.kind ∈ l →
          ∃ oy1, node (h2.set t (o.retag tree_object kind)) y oy1 ∧ oy1.kind ∈ l := by
        intro l hl y oy hy hk
        by_cases e : y = t
        · subst e
          have eo : oy = o := Option.some.inj (hy.2.symm.trans hn.2)
          subst eo
          exact ⟨oy.retag tree_object kind, ⟨hy.1, by simp [heap.set]⟩,
            retag_kind_mem hl hs hk⟩
        · exact ⟨oy, ⟨hy.1, by simp [heap.set, Function.update_noteq e, hy.2]⟩, hk⟩
      intro t1 o1 hn1 q hq
      have hl := kinded_slots_kinds hq
      by_cases e : t1 = t
      · subst e
        have e1 : o1 = o.retag tree_object kind := by
          have := hn1.2
          simp only [heap.set, Function.update_same] at this
          exact (Option.some.inj this).symm
        subst e1
        intro y hy
        have hy1 : y ∈ o.seq q.1 := by
          simp only [object_t.seq, object_t.retag] at hy
          split at hy
          · simp [item_zero] at hy
          · exact hy
        obtain ⟨oy, hny, hky⟩ := hw t1 o hn q hq y hy1
        exact keep q.2 hl y oy hny hky
      · have ho : h2.objs t1 = some o1 := by
          have := hn1.2
          simp only [heap.set, Function.update_noteq e] at this
          exact this
        exact list_ok_mono (keep q.2 hl) (hw t1 o1 ⟨hn1.1, ho⟩ q hq)
    · simp only [tree_change_kind, object_change_kind, hd, hs, if_false, state_fatal]
      exact hw

theorem nth_core_mem {m : imask_t} {t s : tree_t} {i : Nat} {h : heap}
    (hv : (nth_core m t i h).value = some s) : ∃ o, node h t o ∧ s ∈ o.seq m := by
  cases hl : lookup_item tree_object t m h with
  | fatal h1 =>
    simp only [nth_core, run_bind, hl, value_fatal] at hv
    cases hv
  | ok r h1 =>
    obtain ⟨-, -, o, hn, hm⟩ := lookup_item_inv hl
    refine ⟨o, hn, ?_⟩
    by_cases hi : i < (o.seq m).length
    · rw [nth_core_run hn hm hi, value_ok] at hv
      have e := Option.some.inj hv
      rw [← e, List.getD_eq_getElem _ _ hi]
      exact List.getElem_mem _
    · rw [nth_core_fatal hn hm hi, value_fatal] at hv
      cases hv

theorem well_kinded_add {p : imask_t × List tree_kind_t} (hp : p ∈ kinded_slots)
    (t x : tree_t) (w : String) (h : heap) (hw : well_kinded h) :
    well_kinded ((tree_assert_kind x p.2 w >>= fun _ => add_core p.1 t x) h).state := by
  refine peel_ok (fun r => well_kinded r.state) (pure_read_tree_assert_kind _ _ _) hw
    (fun a ha => ?_)
  exact well_kinded_step hp hw (add_core_frame p.1 t x h) (add_core_elems p.1 t x h)
    (fun _ => tree_assert_kind_inv ha)

theorem well_kinded_call (c : list_call) (h : heap) (hw : well_kinded h) :
    well_kinded (c.run h).state := by
  cases c with
  | add_stmt t s =>
    exact well_kinded_add (show (I_STMTS, stmt_kinds) ∈ kinded_slots by simp [kinded_slots])
      t s _ h hw
  | add_else_stmt t s =>
    exact well_kinded_add (show (I_ELSES, stmt_kinds) ∈ kinded_slots by simp [kinded_slots])
      t s _ h hw
  | add_decl t d =>
    exact well_kinded_add (show (I_DECLS, decl_kinds) ∈ kinded_slots by simp [kinded_slots])
      t d _ h hw
  | add_port t d =>
    exact well_kinded_add (show (I_PORTS, decl_kinds) ∈ kinded_slots by simp [kinded_slots])
      t d _ h hw
  | add_generic t d =>
    exact well_kinded_add (show (I_GENERICS, decl_kinds) ∈ kinded_slots by simp [kinded_slots])
      t d _ h hw
  | insert_decl t pos d =>
    refine peel_ok (fun r => well_kinded r.state) (pure_read_tree_assert_decl _) hw
      (fun a ha => ?_)
    exact well_kinded_step
      (show (I_DECLS, decl_kinds) ∈ kinded_slots by simp [kinded_slots]) hw
      (insert_core_frame t d (to_unsigned pos) (to_unsigned_lt pos) h)
      (insert_core_elems t d (to_unsigned pos) (to_unsigned_lt pos) h)
      (fun _ => tree_assert_kind_inv ha)
  | change_kind t kind => exact well_kinded_change_kind t kind h hw

/-- C20: a pair of change_allowed takes a statement kind to a statement kind and a
declaration kind to a declaration kind; and every call of tree_add_stmt, tree_add_else_stmt,
tree_add_decl, tree_insert_decl, tree_add_port, tree_add_generic and tree_change_kind, hence
every sequence of such calls, keeps the state well-kinded, in which every element that
tree_stmt and tree_else_stmt return is a node of a statement kind and every element that
tree_decl, tree_port and tree_generic return is a node of a declaration kind. -/
theorem lists_stay_well_kinded (h0 : heap) (hw : well_kinded h0) :
    (∀ p ∈ change_allowed.dropLast,
      (p.1 ∈ stmt_kinds.map Int.ofNat → p.2 ∈ stmt_kinds.map Int.ofNat) ∧
      (p.1 ∈ decl_kinds.map Int.ofNat → p.2 ∈ decl_kinds.map Int.ofNat)) ∧
    (∀ c : list_call, well_kinded (c.run h0).state) ∧
    (∀ cs : List list_call, well_kinded (run_all list_call.run cs h0).state) ∧
    (∀ (cs : List list_call) (t s : tree_t) (i : Nat),
      ((tree_stmt t i (run_all list_call.run cs h0).state).value = some s ∨
       (tree_else_stmt t i (run_all list_call.run cs h0).state).value = some s) →
      ∃ os, node (run_all list_call.run cs h0).state s os ∧ os.kind ∈ stmt_kinds) ∧
    (∀ (cs : List list_call) (t d : tree_t) (i : Nat),
      ((tree_decl t i (run_all list_call.run cs h0).state).value = some d ∨
       (tree_port t i (run_all list_call.run cs h0).state).value = some d ∨
       (tree_generic t i (run_all list_call.run cs h0).state).value = some d) →
      ∃ od, node (run_all list_call.run cs h0).state d od ∧ od.kind ∈ decl_kinds) := by
  have hall := fun cs => run_all_invariant list_call.run well_kinded well_kinded_call cs h0 hw
  have get : ∀ (cs : List list_call) (p : imask_t × List tree_kind_t), p ∈ kinded_slots →
      ∀ (t s : tree_t) (i : Nat),
      (nth_core p.1 t i (run_all list_call.run cs h0).state).value = some s →
      ∃ os, node (run_all list_call.run cs h0).state s os ∧ os.kind ∈ p.2 := by
    intro cs p hp t s i hv
    obtain ⟨o, hn, hmem⟩ := nth_core_mem hv
    exact hall cs t o hn p hp s hmem
  refine ⟨retag_keeps_category, fun c => well_kinded_call c h0 hw, hall, ?_, ?_⟩
  · intro cs t s i hv
    rcases hv with hv | hv
    · exact get cs (I_STMTS, stmt_kinds) (by simp [kinded_slots]) t s i hv
    · exact get cs (I_ELSES, stmt_kinds) (by simp [kinded_slots]) t s i hv
  · intro cs t d i hv
    rcases hv with hv | hv | hv
    · exact get cs (I_DECLS, decl_kinds) (by simp [kinded_slots]) t d i hv
    · exact get cs (I_PORTS, decl_kinds) (by simp [kinded_slots]) t d i hv
    · exact get cs (I_GENERICS, decl_kinds) (by simp [kinded_slots]) t d i hv

end

theorem well_kinded_sample (ks : List tree_kind_t) : @well_kinded sample_bits (sample_heap ks) := by
  intro t o hn p _ x hx
  have ho := hn.2
  simp only [sample_heap] at ho
  split at ho
  · cases ho
  · cases hk : ks.get? (t - 1) with
    | none => rw [hk] at ho; cases ho
    | some k =>
      rw [hk] at ho
      have e : o = sample_obj k := (Option.some.inj ho).symm
      subst e
      simp [object_t.seq, sample_obj, item_zero] at hx

theorem lists_stay_well_kinded_witness :
    @well_kinded sample_bits (sample_heap [T_PROCESS, T_ASSERT, T_SIGNAL_DECL]) ∧
    ∃ os, node (@run_all list_call (@list_call.run sample_bits)
        [list_call.add_stmt 1 2, list_call.add_decl 1 3, list_call.change_kind 2 T_CASSERT]
        (sample_heap [T_PROCESS, T_ASSERT, T_SIGNAL_DECL])).state 2 os ∧ os.kind ∈ stmt_kinds :=
  ⟨well_kinded_sample _,
   (@lists_stay_well_kinded sample_bits (sample_heap [T_PROCESS, T_ASSERT, T_SIGNAL_DECL])
      (well_kinded_sample _)).2.2.2.1
      [list_call.add_stmt 1 2, list_call.add_decl 1 3, list_call.change_kind 2 T_CASSERT]
      1 2 0 (Or.inl (by decide))⟩

/-! ### C21 -/

/-- C21, refuted as stated: (T_REF, T_PCALL) is a pair of change_allowed, T_REF is an
expression kind and T_PCALL is not; the T_REF node 2 is stored as the delay and as a trigger
of the T_WAIT node 1 and is then changed into a T_PCALL, after which tree_delay and
tree_trigger of node 1 return a node that is not of an expression kind. -/
theorem delay_slot_holds_statement :
    ((T_REF : Int), (T_PCALL : Int)) ∈ change_allowed.dropLast ∧
    T_REF ∈ expr_kinds ∧ T_PCALL ∉ expr_kinds ∧ T_PCALL ∈ stmt_kinds ∧
    (@run_all expr_call (@expr_call.run sample_bits)
      [expr_call.set_delay 1 2, expr_call.add_trigger 1 2, expr_call.change_kind 2 T_PCALL]
      (sample_heap [T_WAIT, T_REF])).succeeds = true ∧
    (@tree_delay sample_bits 1
      (@run_all expr_call (@expr_call.run sample_bits)
        [expr_call.set_delay 1 2, expr_call.add_trigger 1 2, expr_call.change_kind 2 T_PCALL]
        (sample_heap [T_WAIT, T_REF])).state).value = some 2 ∧
    (@tree_trigger sample_bits 1 0
      (@run_all expr_call (@expr_call.run sample_bits)
        [expr_call.set_delay 1 2, expr_call.add_trigger 1 2, expr_call.change_kind 2 T_PCALL]
        (sample_heap [T_WAIT, T_REF])).state).value = some 2 ∧
    (tree_kind 2
      (@run_all expr_call (@expr_call.run sample_bits)
        [expr_call.set_delay 1 2, expr_call.add_trigger 1 2, expr_call.change_kind 2 T_PCALL]
        (sample_heap [T_WAIT, T_REF])).state).value = some T_PCALL := by
  decide

theorem expr_retag_table :
    (∀ p ∈ change_allowed.dropLast, p.1 ∈ expr_kinds.map Int.ofNat →
      (p ∈ expr_retags ∧ p.2 ∈ expr_kinds.map Int.ofNat) ∨
      (p ∈ call_retags ∧ p.2 ∉ expr_kinds.map Int.ofNat ∧ p.2 ∈ stmt_kinds.map Int.ofNat)) ∧
    (∀ p ∈ expr_retags, p ∈ change_allowed.dropLast ∧ p.1 ∈ expr_kinds.map Int.ofNat) ∧
    (∀ p ∈ call_retags, p ∈ change_allowed.dropLast ∧ p.1 ∈ expr_kinds.map Int.ofNat) ∧
    expr_retags.length = 11 ∧ call_retags.length = 5 ∧
    (∀ p ∈ change_allowed.dropLast, p.1 ∈ expr_or_call_kinds.map Int.ofNat →
      p.2 ∈ expr_or_call_kinds.map Int.ofNat) := by
  decide

theorem held_set_object (it : item_t) (d : Nat) :
    ∀ y ∈ ({ it with object := d } : item_t).held, y ∈ it.held ∨ y = d := by
  intro y hy
  simp only [item_t.held, List.mem_append] at hy ⊢
  rcases hy with hy | hy
  · split at hy
    · cases hy
    · simp only [List.mem_singleton] at hy
      exact Or.inr hy
  · exact Or.inl (Or.inr hy)

theorem held_push (it : item_t) (x : Nat) :
    ∀ y ∈ (push x it).held, y ∈ it.held ∨ y = x := by
  intro y hy
  simp only [item_t.held, push, APUSH_eq, List.mem_append, List.mem_singleton] at hy ⊢
  rcases hy with hy | hy | hy
  · exact Or.inl (Or.inl hy)
  · exact Or.inl (Or.inr hy)
  · exact Or.inr hy

theorem held_zero : item_zero.held = [] := rfl

section
variable [object_h]

/-- A step that touches one expression slot of one node, and puts there only addresses that
were there or the address x, keeps the invariant when x is a node of the kinds. -/
theorem expr_held_step {kinds : List tree_kind_t} {h h1 : heap} {t x : Nat} {m : imask_t}
    (hw : expr_held kinds h) (hf : touches_only m t h h1)
    (hnew : ∀ o o1, h.objs t = some o → h1.objs t = some o1 →
      ∀ y ∈ (o1.items m).held, y ∈ (o.items m).held ∨ y = x)
    (hx : (∃ o, h.objs t = some o) → ∃ ox, node h x ox ∧ ox.kind ∈ kinds) :
    expr_held kinds h1 := by
  have keep : ∀ (y : Nat) (oy : object_t), node h y oy → oy.kind ∈ kinds →
      ∃ oy1, node h1 y oy1 ∧ oy1.kind ∈ kinds := by
    intro y oy hy hk
    obtain ⟨oy1, hy1, e⟩ := kinds_kept hf hy
    exact ⟨oy1, hy1, e ▸ hk⟩
  intro t1 o1 hn1 q hq
  by_cases e : t1 = t
  · subst e
    cases ho : h.objs t1 with
    | none =>
      have := hf.2.1 ho
      rw [hn1.2] at this
      cases this
    | some o =>
      obtain ⟨o2, ho2, -, -, hi⟩ := hf.2.2 o ho
      have e2 : o2 = o1 := Option.some.inj (ho2.symm.trans hn1.2)
      subst e2
      have hold := hw t1 o ⟨hn1.1, ho⟩ q hq
      by_cases em : q = m
      · subst em
        intro y hy
        rcases hnew o o2 ho hn1.2 y hy with hy1 | rfl
        · obtain ⟨oy, hny, hky⟩ := hold y hy1
          exact keep y oy hny hky
        · obtain ⟨ox, hnx, hkx⟩ := hx ⟨o, ho⟩
          exact keep y ox hnx hkx
      · rw [hi q em]
        exact list_ok_mono keep hold
  · have ho : h.objs t1 = some o1 := (hf.1 t1 e).symm.trans hn1.2
    exact list_ok_mono keep (hw t1 o1 ⟨hn1.1, ho⟩ q hq)

theorem set_core_spec (m : imask_t) (t d : tree_t) (h : heap) :
    touches_only m t h
      ((lookup_item tree_object t m >>= fun item =>
        wr item (fun it => { it with object := d }) >>= fun _ =>
        object_write_barrier t d) h).state ∧
    ∀ o o1, h.objs t = some o →
      ((lookup_item tree_object t m >>= fun item =>
        wr item (fun it => { it with object := d }) >>= fun _ =>
        object_write_barrier t d) h).state.objs t = some o1 →
      ∀ y ∈ (o1.items m).held, y ∈ (o.items m).held ∨ y = d := by
  cases hl : lookup_item tree_object t m h with
  | fatal h1 =>
    have := lookup_item_fatal_state hl
    subst this
    simp only [run_bind, hl, state_fatal]
    refine ⟨touches_only_refl m t h1, ?_⟩
    intro o o1 ho ho1 y hy
    have : o1 = o := Option.some.inj (ho1.symm.trans ho)
    subst this
    exact Or.inl hy
  | ok r h1 =>
    obtain ⟨rfl, rfl, o2, hn, hm⟩ := lookup_item_inv hl
    simp only [run_bind, hl, wr_ok hn, run_object_write_barrier, state_ok]
    refine ⟨touches_only_log t d (touches_only_put hn m _), ?_⟩
    intro o o1 ho ho1 y hy
    have e2 : o2 = o := Option.some.inj (hn.2.symm.trans ho)
    subst e2
    have e1 := (node_log t d).mpr (node_put hn m (fun it => { it with object := d }))
    have e3 : o1 = o2.upd m (fun it => { it with object := d }) :=
      Option.some.inj (ho1.symm.trans e1.2)
    subst e3
    rw [upd_items_same] at hy
    exact held_set_object _ d y hy

theorem add_core_held (m : imask_t) (t x : tree_t) (h : heap) :
    ∀ o o1, h.objs t = some o → (add_core m t x h).state.objs t = some o1 →
      ∀ y ∈ (o1.items m).held, y ∈ (o.items m).held ∨ y = x := by
  intro o o1 ho ho1 y hy
  cases hl : lookup_item tree_object t m h with
  | fatal h1 =>
    have := lookup_item_fatal_state hl
    subst this
    have e : add_core m t x h1 = outcome.fatal h1 := by simp only [add_core, run_bind, hl]
    rw [e, state_fatal, ho] at ho1
    cases ho1
    exact Or.inl hy
  | ok r h1 =>
    obtain ⟨-, -, o2, hn, hm⟩ := lookup_item_inv hl
    have e2 : o2 = o := Option.some.inj (hn.2.symm.trans ho)
    subst e2
    rw [add_core_run hn hm, state_ok] at ho1
    have e1 := (node_log t x).mpr (node_put hn m (push x))
    have e3 : o1 = o2.upd m (push x) := Option.some.inj (ho1.symm.trans e1.2)
    subst e3
    rw [upd_items_same] at hy
    exact held_push _ x y hy

theorem retag_expr_or_call_mem {a b : tree_kind_t}
    (hs : ((a : Int), (b : Int)) ∈ change_allowed.dropLast) (ha : a ∈ expr_or_call_kinds) :
    b ∈ expr_or_call_kinds := by
  have hk := expr_retag_table.2.2.2.2.2 _ hs
  exact (mem_map_ofNat _ b).mp (hk ((mem_map_ofNat _ a).mpr ha))

theorem retag_held_subset (o : object_t) (kind : tree_kind_t) (m : imask_t) :
    ∀ y ∈ ((o.retag tree_object kind).items m).held, y ∈ (o.items m).held := by
  intro y hy
  simp only [object_t.retag] at hy
  split at hy
  · rw [held_zero] at hy
    cases hy
  · exact hy

theorem expr_held_change_kind (t : tree_t) (kind : tree_kind_t) (h : heap)
    (hw : expr_held expr_or_call_kinds h) :
    expr_held expr_or_call_kinds (tree_change_kind t kind h).state := by
  cases hd : deref t h with
  | fatal h2 =>
    have e := pure_read_deref t h
    rw [hd, state_fatal] at e
    subst e
    simp only [tree_change_kind, object_change_kind, hd, state_fatal]
    exact hw
  | ok o h2 =>
    obtain ⟨rfl, hn⟩ := deref_state hd
    rw [tree_change_kind_run hn]
    by_cases hs : ((o.kind : Int), (kind : Int)) ∈ change_allowed.dropLast
    · rw [if_pos hs, state_ok]
      have keep : ∀ (y : Nat) (oy : object_t), node h2 y oy → oy.kind ∈ expr_or_call_kinds →
          ∃ oy1, node (h2.set t (o.retag tree_object kind)) y oy1 ∧
            oy1.kind ∈ expr_or_call_kinds := by
        intro y oy hy hk
        by_cases e : y = t
        · subst e
          have eo : oy = o := Option.some.inj (hy.2.symm.trans hn.2)
          subst eo
          exact ⟨oy.retag tree_object kind, node_set hy.1 _, retag_expr_or_call_mem hs hk⟩
        · exact ⟨oy, (node_set_ne e).mpr hy, hk⟩
      intro t1 o1 hn1 q hq
      by_cases e : t1 = t
      · subst e
        have e1 : o1 = o.retag tree_object kind :=
          Option.some.inj (hn1.2.symm.trans (node_set hn1.1 (o.retag tree_object kind)).2)
        subst e1
        intro y hy
        obtain ⟨oy, hny, hky⟩ := hw t1 o hn q hq y (retag_held_subset o kind q y hy)
        exact keep y oy hny hky
      · exact list_ok_mono keep (hw t1 o1 ((node_set_ne e).mp hn1) q hq)
    · rw [if_neg hs, state_fatal]
      exact hw

theorem expr_held_set (m : imask_t) (t d : tree_t) (h : heap)
    (hw : expr_held expr_or_call_kinds h) :
    expr_held expr_or_call_kinds
      ((tree_assert_expr d >>= fun _ => lookup_item tree_object t m >>= fun item =>
        wr item (fun it => { it with object := d }) >>= fun _ =>
        object_write_barrier t d) h).state := by
  refine peel_ok (fun r => expr_held expr_or_call_kinds r.state)
    (pure_read_tree_assert_expr _) hw (fun a ha => ?_)
  obtain ⟨od, hnd, hkd⟩ := tree_assert_kind_inv ha
  exact expr_held_step hw (set_core_spec m t d h).1 (set_core_spec m t d h).2
    (fun _ => ⟨od, hnd, List.mem_append_left _ hkd⟩)

theorem expr_held_call (c : expr_call) (h : heap) (hw : expr_held expr_or_call_kinds h) :
    expr_held expr_or_call_kinds (c.run h).state := by
  cases c with
  | set_delay t d => exact expr_held_set I_DELAY t d h hw
  | set_severity t d => exact expr_held_set I_SEVERITY t d h hw
  | set_message t d => exact expr_held_set I_MESSAGE t d h hw
  | set_left t d => exact expr_held_set I_LEFT t d h hw
  | set_right t d => exact expr_held_set I_RIGHT t d h hw
  | set_reject t d => exact expr_held_set I_REJECT t d h hw
  | set_name t d => exact expr_held_set I_NAME t d h hw
  | add_trigger t s =>
    refine peel_ok (fun r => expr_held expr_or_call_kinds r.state)
      (pure_read_tree_assert_expr _) hw (fun a ha => ?_)
    obtain ⟨od, hnd, hkd⟩ := tree_assert_kind_inv ha
    exact expr_held_step hw (add_core_frame I_TRIGGERS t s h) (add_core_held I_TRIGGERS t s h)
      (fun _ => ⟨od, hnd, List.mem_append_left _ hkd⟩)
  | change_kind t kind => exact expr_held_change_kind t kind h hw

theorem bind_succeeds_left {α β : Type} {x : M α} {f : α → M β} {h : heap}
    (hs : ((x >>= f) h).succeeds = true) : ∃ a h1, x h = outcome.ok a h1 := by
  cases hx : x h with
  | ok a h1 => exact ⟨a, h1, rfl⟩
  | fatal h1 =>
    rw [run_bind, hx] at hs
    cases hs

theorem ref_core_held {m : imask_t} {t x : tree_t} {h : heap}
    (hv : (ref_core m t h).value = some x) :
    ∃ o, node h t o ∧ x ∈ (o.items m).held := by
  cases hl : lookup_item tree_object t m h with
  | fatal h1 =>
    have e : ref_core m t h = outcome.fatal h1 := by simp only [ref_core, run_bind, hl]
    rw [e] at hv
    cases hv
  | ok r h1 =>
    obtain ⟨-, -, o, hn, hm⟩ := lookup_item_inv hl
    refine ⟨o, hn, ?_⟩
    by_cases hz : (o.items m).object = NULL
    · have e : ref_core m t h = outcome.fatal h := by
        simp only [ref_core, run_bind, lookup_item_ok hn hm, rd_ok hn, run_assert, hz, ne_eq,
          not_true_eq_false, if_false]
      rw [e] at hv
      cases hv
    · have e : ref_core m t h = outcome.ok (o.items m).object h := by
        simp only [ref_core, run_bind, lookup_item_ok hn hm, rd_ok hn, run_assert, hz, ne_eq,
          not_false_eq_true, if_true, run_pure, container_of]
      rw [e, value_ok] at hv
      have e1 := Option.some.inj hv
      subst e1
      simp [item_t.held, hz]

theorem nth_core_held {m : imask_t} {t x : tree_t} {i : Nat} {h : heap}
    (hv : (nth_core m t i h).value = some x) :
    ∃ o, node h t o ∧ x ∈ (o.items m).held := by
  obtain ⟨o, hn, hmem⟩ := nth_core_mem hv
  exact ⟨o, hn, List.mem_append_right _ hmem⟩

theorem expr_call_stores_expr (c : expr_call) (h : heap) (hs : (c.run h).succeeds = true)
    (d : tree_t) (hd : c.stored = some d) : ∃ od, node h d od ∧ od.kind ∈ expr_kinds := by
  cases c with
  | change_kind t kind => cases hd
  | set_delay t x | set_severity t x | set_message t x | set_left t x | set_right t x
  | set_reject t x | set_name t x | add_trigger t x =>
    have e : x = d := Option.some.inj hd
    subst e
    obtain ⟨a, h1, ha⟩ := bind_succeeds_left hs
    exact tree_assert_kind_inv ha

/-- C21, amended: a pair of change_allowed whose old kind is an expression kind is one of 11
pairs whose new kind is an expression kind or one of 5 pairs whose new kind is the statement
kind T_PCALL, T_CPCALL or T_PROT_PCALL, and these three kinds change into each other only.
tree_set_delay, tree_set_severity, tree_set_message, tree_set_left, tree_set_right,
tree_set_reject, tree_set_name and tree_add_trigger return only for a node that is of an
expression kind at the call; hence after every sequence of calls of these operations and of
tree_change_kind, from a state in which it holds, every node that tree_delay, tree_severity,
tree_message, tree_left, tree_right, tree_reject, tree_name or tree_trigger returns is of an
expression kind or of kind T_PCALL, T_CPCALL or T_PROT_PCALL. -/
theorem expression_slots_after_retag (h0 : heap) (hw : expr_held expr_or_call_kinds h0)
    (cs : List expr_call) :
    (∀ p ∈ change_allowed.dropLast, p.1 ∈ expr_kinds.map Int.ofNat →
      (p ∈ expr_retags ∧ p.2 ∈ expr_kinds.map Int.ofNat) ∨
      (p ∈ call_retags ∧ p.2 ∉ expr_kinds.map Int.ofNat ∧ p.2 ∈ stmt_kinds.map Int.ofNat)) ∧
    (∀ p ∈ expr_retags, p ∈ change_allowed.dropLast ∧ p.1 ∈ expr_kinds.map Int.ofNat) ∧
    (∀ p ∈ call_retags, p ∈ change_allowed.dropLast ∧ p.1 ∈ expr_kinds.map Int.ofNat) ∧
    expr_retags.length = 11 ∧ call_retags.length = 5 ∧
    (∀ p ∈ change_allowed.dropLast, p.1 ∈ expr_or_call_kinds.map Int.ofNat →
      p.2 ∈ expr_or_call_kinds.map Int.ofNat) ∧
    (∀ (c : expr_call) (h : heap), (c.run h).succeeds = true → ∀ d : tree_t,
      c.stored = some d → ∃ od, node h d od ∧ od.kind ∈ expr_kinds) ∧
    (∀ (c : expr_call) (h : heap), expr_held expr_or_call_kinds h →
      expr_held expr_or_call_kinds (c.run h).state) ∧
    expr_held expr_or_call_kinds (run_all expr_call.run cs h0).state ∧
    (∀ (t x : tree_t) (i : Nat),
      ((tree_delay t (run_all expr_call.run cs h0).state).value = some x ∨
       (tree_severity t (run_all expr_call.run cs h0).state).value = some x ∨
       (tree_message t (run_all expr_call.run cs h0).state).value = some x ∨
       (tree_left t (run_all expr_call.run cs h0).state).value = some x ∨
       (tree_right t (run_all expr_call.run cs h0).state).value = some x ∨
       (tree_reject t (run_all expr_call.run cs h0).state).value = some x ∨
       (tree_name t (run_all expr_call.run cs h0).state).value = some x ∨
       (tree_trigger t i (run_all expr_call.run cs h0).state).value = some x) →
      ∃ ox, node (run_all expr_call.run cs h0).state x ox ∧
        ox.kind ∈ expr_or_call_kinds) := by
  have hall := run_all_invariant expr_call.run (expr_held expr_or_call_kinds) expr_held_call
    cs h0 hw
  have get : ∀ (m : imask_t), m ∈ expr_slots → ∀ (t x : tree_t),
      (∃ o, node (run_all expr_call.run cs h0).state t o ∧ x ∈ (o.items m).held) →
      ∃ ox, node (run_all expr_call.run cs h0).state x ox ∧ ox.kind ∈ expr_or_call_kinds := by
    intro m hm t x hx
    obtain ⟨o, hn, hmem⟩ := hx
    exact hall t o hn m hm x hmem
  refine ⟨expr_retag_table.1, expr_retag_table.2.1, expr_retag_table.2.2.1,
    expr_retag_table.2.2.2.1, expr_retag_table.2.2.2.2.1, expr_retag_table.2.2.2.2.2,
    expr_call_stores_expr, expr_held_call, hall, ?_⟩
  intro t x i hv
  rcases hv with hv | hv | hv | hv | hv | hv | hv | hv
  · exact get I_DELAY (by simp [expr_slots]) t x (ref_core_held hv)
  · exact get I_SEVERITY (by simp [expr_slots]) t x (ref_core_held hv)
  · exact get I_MESSAGE (by simp [expr_slots]) t x (ref_core_held hv)
  · exact get I_LEFT (by simp [expr_slots]) t x (ref_core_held hv)
  · exact get I_RIGHT (by simp [expr_slots]) t x (ref_core_held hv)
  · exact get I_REJECT (by simp [expr_slots]) t x (ref_core_held hv)
  · exact get I_NAME (by simp [expr_slots]) t x (ref_core_held hv)
  · exact get I_TRIGGERS (by simp [expr_slots]) t x (nth_core_held hv)

end

theorem expr_held_sample (ks : List tree_kind_t) :
    @expr_held sample_bits expr_or_call_kinds (sample_heap ks) := by
  intro t o hn m _ x hx
  have ho := hn.2
  simp only [sample_heap] at ho
  split at ho
  · cases ho
  · cases hk : ks.get? (t - 1) with
    | none => rw [hk] at ho; cases ho
    | some k =>
      rw [hk] at ho
      have e : o = sample_obj k := (Option.some.inj ho).symm
      subst e
      simp [sample_obj, item_t.held, item_zero, NULL] at hx

theorem expression_slots_after_retag_witness :
    @expr_held sample_bits expr_or_call_kinds (sample_heap [T_WAIT, T_REF]) ∧
    ∃ ox, node (@run_all expr_call (@expr_call.run sample_bits)
        [expr_call.set_delay 1 2, expr_call.add_trigger 1 2, expr_call.change_kind 2 T_PCALL]
        (sample_heap [T_WAIT, T_REF])).state 2 ox ∧ ox.kind ∈ expr_or_call_kinds :=
  ⟨expr_held_sample _,
   (@expression_slots_after_retag sample_bits (sample_heap [T_WAIT, T_REF])
      (expr_held_sample _)
      [expr_call.set_delay 1 2, expr_call.add_trigger 1 2,
       expr_call.change_kind 2 T_PCALL]).2.2.2.2.2.2.2.2.2
      1 2 0 (Or.inl (by decide))⟩

/-! ### C22 -/

section
variable [object_h]

end

section
variable [object_h]

theorem gc_roots_eq :
    tree_object.gc_roots = [T_ARCH, T_ENTITY, T_PACKAGE, T_ELAB, T_PACK_BODY, T_CONTEXT,
      T_CONFIGURATION, T_DESIGN_UNIT] := rfl

theorem retag_keeps_root_status :
    ∀ p ∈ change_allowed.dropLast,
      (p.1 ∈ tree_object.gc_roots.map Int.ofNat ↔ p.2 ∈ tree_object.gc_roots.map Int.ofNat) := by
  show ∀ p ∈ change_allowed.dropLast,
      (p.1 ∈ [T_ARCH, T_ENTITY, T_PACKAGE, T_ELAB, T_PACK_BODY, T_CONTEXT, T_CONFIGURATION,
              T_DESIGN_UNIT].map Int.ofNat ↔
       p.2 ∈ [T_ARCH, T_ENTITY, T_PACKAGE, T_ELAB, T_PACK_BODY, T_CONTEXT, T_CONFIGURATION,
              T_DESIGN_UNIT].map Int.ofNat)
  decide

/-- C23: the tree class declares gc_num_roots = 8 root kinds, which are pairwise distinct;
for every pair (from, to) of change_allowed, from is a root kind exactly when to is one, so
every kind T_DESIGN_UNIT changes into is a root kind and a kind that is not a root kind
changes into no root kind; and a tree_change_kind that returns has kept the root status of
the node. -/
theorem retag_preserves_root_status (h : heap) (t : tree_t) (o : object_t) (hn : node h t o)
    (new_kind : tree_kind_t) (hs : (tree_change_kind t new_kind h).succeeds = true) :
    tree_object.gc_num_roots = 8 ∧
    tree_object.gc_roots.length = tree_object.gc_num_roots ∧
    tree_object.gc_roots.Nodup ∧
    (∀ p ∈ change_allowed.dropLast,
      (p.1 ∈ tree_object.gc_roots.map Int.ofNat ↔ p.2 ∈ tree_object.gc_roots.map Int.ofNat)) ∧
    (∀ p ∈ change_allowed.dropLast, p.1 = (T_DESIGN_UNIT : Int) →
      p.2 ∈ tree_object.gc_roots.map Int.ofNat) ∧
    (∀ p ∈ change_allowed.dropLast, p.1 ∉ tree_object.gc_roots.map Int.ofNat →
      p.2 ∉ tree_object.gc_roots.map Int.ofNat) ∧
    (change_allowed.dropLast.filter (fun p => decide (p.1 = (T_DESIGN_UNIT : Int)))).map
        (fun p => p.2)
      = [(T_ENTITY : Int), (T_PACKAGE : Int), (T_PACK_BODY : Int), (T_ARCH : Int),
         (T_CONFIGURATION : Int), (T_CONTEXT : Int)] ∧
    (o.kind ∈ tree_object.gc_roots ↔ new_kind ∈ tree_object.gc_roots) ∧
    (tree_kind t (tree_change_kind t new_kind h).state).value = some new_kind := by
  have hp : ((o.kind : Int), (new_kind : Int)) ∈ change_allowed.dropLast := by
    by_contra hp
    rw [tree_change_kind_run hn, if_neg hp] at hs
    cases hs
  refine ⟨rfl, rfl, by rw [gc_roots_eq]; decide, retag_keeps_root_status, ?_,
    fun p hp1 h1 h2 => h1 ((retag_keeps_root_status p hp1).mpr h2), by decide, ?_, ?_⟩
  · intro p hp1 h1
    refine (retag_keeps_root_status p hp1).mp ?_
    rw [h1, gc_roots_eq]
    decide
  · have := retag_keeps_root_status _ hp
    rw [mem_map_ofNat, mem_map_ofNat] at this
    exact this
  · rw [tree_change_kind_run hn, if_pos hp, state_ok,
      tree_kind_run (node_set hn.1 (o.retag tree_object new_kind))]
    rfl

end

theorem retag_preserves_root_status_witness :
    (T_DESIGN_UNIT ∈ (@tree_object sample_bits).gc_roots ↔
      T_CONFIGURATION ∈ (@tree_object sample_bits).gc_roots) :=
  (@retag_preserves_root_status sample_bits (sample_heap [T_DESIGN_UNIT]) 1
    (sample_obj T_DESIGN_UNIT) ⟨by decide, rfl⟩ T_CONFIGURATION (by decide)).2.2.2.2.2.2.2.1

/-! ### C24 -/

section
variable [object_h]

end

section
variable [object_h]

end

section
variable [object_h]

end

end Nvc
